import Mathlib

/-!
# dit: form, field and page type classification

A shallow embedding of the parts of the `dit` Go sources that decide the
specification's claims, with the claims proved (or refuted) against it.

Conventions of the embedding.

* A Go `map[K]V` is the list of its entries, keys pairwise distinct
  (`GoMap.WF`).  Go leaves the order in which `range` visits a map
  unspecified, so every function that ranges over a map takes the
  visiting order as a parameter `rng`, constrained only to visit every
  entry exactly once (`RangeOrder`).
* `float64` probabilities are rationals: the claims concern order and
  equality of probabilities, not rounding.
* A Go run-time panic is `none` of an outer `Option`.
* A Go slice that may be `nil` is an `Option (List _)`, `none` being `nil`.
-/

namespace Dit

/-! ## Go maps -/

/-- A Go map as the list of its entries. -/
abbrev GoMap (κ ν : Type) := List (κ × ν)

namespace GoMap

variable {κ ν : Type} [DecidableEq κ]

/-- The keys of a map are pairwise distinct. -/
def WF (m : GoMap κ ν) : Prop := (m.map Prod.fst).Nodup

instance (m : GoMap κ ν) : Decidable m.WF := inferInstanceAs (Decidable (List.Nodup _))

/-- The two-valued lookup `v, ok := m[k]`. -/
def get? (m : GoMap κ ν) (k : κ) : Option ν :=
  (m.find? (fun e => decide (e.1 = k))).map Prod.snd

/-- The assignment `m[k] = v`. -/
def set (m : GoMap κ ν) (k : κ) (v : ν) : GoMap κ ν :=
  (k, v) :: m.filter (fun e => !decide (e.1 = k))

end GoMap

/-- What Go guarantees of `range` over a map: every entry is visited
exactly once, in some order. -/
def RangeOrder {α : Type} (rng : List α → List α) : Prop :=
  ∀ l, (rng l).Perm l

/-! ## classifier/classifier.go: thresholdMap -/

/-- Go `thresholdMap`, the body of its loop over the entries of `m`. -/
def thresholdStep (threshold : ℚ) (result : GoMap String ℚ) (e : String × ℚ) :
    GoMap String ℚ :=
  if e.2 ≥ threshold then result.set e.1 e.2 else result

/-- Go `thresholdMap` (classifier/classifier.go). -/
def thresholdMap (rng : GoMap String ℚ → GoMap String ℚ)
    (m : GoMap String ℚ) (threshold : ℚ) : GoMap String ℚ :=
  if threshold ≤ 0 then m
  else (rng m).foldl (thresholdStep threshold) []

/-! ## train.go: groupKFold, makeTestSet, filterByIndex -/

/-- Go `groupKFold`, second loop: `groupToFold[g] = i % nFolds` for the
`i`-th entry `g` of `sortedGroups`; `%` by zero panics. -/
def groupToFoldLoop (nFolds : Int) : List Int → Nat → GoMap Int Int → Option (GoMap Int Int)
  | [], _, groupToFold => some groupToFold
  | g :: rest, i, groupToFold =>
    if nFolds = 0 then none
    else groupToFoldLoop nFolds rest (i + 1) (groupToFold.set g (Int.tmod (i : Int) nFolds))

/-- Go `groupKFold`, last loop: `folds[groupToFold[g]] = append(folds[groupToFold[g]], i)`;
a key that is absent reads as 0 and an index out of range panics. -/
def appendLoop (groupToFold : GoMap Int Int) :
    List Int → Nat → List (List Nat) → Option (List (List Nat))
  | [], _, folds => some folds
  | g :: rest, i, folds =>
    let fold := (groupToFold.get? g).getD 0
    if 0 ≤ fold ∧ fold.toNat < folds.length then
      appendLoop groupToFold rest (i + 1)
        (folds.set fold.toNat (folds.getD fold.toNat [] ++ [i]))
    else none

def groupKFold (rng : GoMap Int Bool → GoMap Int Bool) (groups : List Int) (nFolds : Int) :
    Option (List (List Nat)) :=
  let uniqueGroups : GoMap Int Bool := groups.foldl (fun m g => m.set g true) []
  let sortedGroups := (rng uniqueGroups).map Prod.fst
  let nFolds := if nFolds > (sortedGroups.length : Int) then (sortedGroups.length : Int) else nFolds
  match groupToFoldLoop nFolds sortedGroups 0 [] with
  | none => none
  | some groupToFold =>
    if nFolds < 0 then none
    else appendLoop groupToFold groups 0 (List.replicate nFolds.toNat [])

def makeTestSetLoop : List Nat → List Bool → Option (List Bool)
  | [], set => some set
  | i :: rest, set => if i < set.length then makeTestSetLoop rest (set.set i true) else none

def makeTestSet (n : Nat) (testIdx : List Nat) : Option (List Bool) :=
  makeTestSetLoop testIdx (List.replicate n false)

/-- Go `filterByIndex`, the loop over `i := range forms`: an index outside
`testSet` or `labels` panics. -/
def filterByIndexLoop {α β : Type} (labels : List β) (testSet : List Bool) (isTest : Bool) :
    List α → Nat → List α × List β → Option (List α × List β)
  | [], _, out => some out
  | form :: rest, i, out =>
    match testSet[i]? with
    | none => none
    | some b =>
      if b = isTest then
        match labels[i]? with
        | none => none
        | some label =>
          filterByIndexLoop labels testSet isTest rest (i + 1) (out.1 ++ [form], out.2 ++ [label])
      else filterByIndexLoop labels testSet isTest rest (i + 1) out

/-- Go `filterByIndex` (train.go), for any type of example and of label. -/
def filterByIndex {α β : Type} (forms : List α) (labels : List β) (testSet : List Bool)
    (isTest : Bool) : Option (List α × List β) :=
  filterByIndexLoop labels testSet isTest forms 0 ([], [])

/-- The keys of `uniqueGroups` in the order in which `groupKFold` appends
them to `sortedGroups`. -/
def sortedGroupsOf (rng : GoMap Int Bool → GoMap Int Bool) (groups : List Int) : List Int :=
  (rng (groups.foldl (fun m g => m.set g true) [])).map Prod.fst

/-- The fold count `groupKFold` works with once it has clamped `nFolds`. -/
def foldCount (rng : GoMap Int Bool → GoMap Int Bool) (groups : List Int) (nFolds : Int) : Nat :=
  min nFolds.toNat (sortedGroupsOf rng groups).length

/-- The fold that `groupToFold` assigns to group `g`: its position in
`sortedGroups` modulo the fold count. -/
def foldOf (rng : GoMap Int Bool → GoMap Int Bool) (groups : List Int) (nFolds : Int)
    (g : Int) : Nat :=
  (sortedGroupsOf rng groups).indexOf g % foldCount rng groups nFolds

/-- Go `domainGroups` (train.go), the loop over the annotations, here over
their URLs; `getDomain` is `storage.GetDomain`. -/
def domainGroupsLoop (getDomain : String → String) :
    List String → GoMap String Int → List Int → List Int
  | [], _, groups => groups
  | url :: rest, domainMap, groups =>
    let domain := getDomain url
    let domainMap :=
      if (domainMap.get? domain).isSome then domainMap
      else domainMap.set domain (domainMap.length : Int)
    domainGroupsLoop getDomain rest domainMap (groups ++ [(domainMap.get? domain).getD 0])

/-- Go `domainGroups` (train.go). -/
def domainGroups (getDomain : String → String) (urls : List String) : List Int :=
  domainGroupsLoop getDomain urls [] []

/-! ## classifier package: results, models and what lies outside the sources -/

/-- Go `classifier.ClassifyResult`; a nil `Fields` map reads as the empty map. -/
structure ClassifyResult where
  Form : String
  Fields : GoMap String String
  deriving DecidableEq

/-- Go `classifier.ClassifyProbaResult`; nil maps read as empty maps. -/
structure ClassifyProbaResult where
  Form : GoMap String ℚ
  Fields : GoMap String (GoMap String ℚ)
  deriving DecidableEq

/-- Go `classifier.FormResult` (classifier/classifier.go). -/
structure classifier.FormResult where
  FormHTML : String
  Result : ClassifyResult
  Proba : ClassifyProbaResult
  deriving DecidableEq

/-- Go `classifier.PageTypeModel`, its serialized numeric fields; the fitted
pipelines and the run-time state are a `PageTypeRuntime`. -/
structure PageTypeModel where
  Classes : List String
  Coef : List (List ℚ)
  Intercept : List ℚ
  deriving DecidableEq

/-! ## internal/htmlutil/pageutil.go: buckets -/

/-- Go `boolToFloat` (internal/htmlutil/pageutil.go). -/
def boolToFloat (b : Bool) : ℚ :=
  if b then 1 else 0

/-- Go `contentLengthBucket` (internal/htmlutil/pageutil.go). -/
def contentLengthBucket (n : Int) : ℚ :=
  if n < 100 then 0
  else if n < 500 then 1
  else if n < 2000 then 2
  else if n < 10000 then 3
  else 4

/-! ## classifier/pagetype_features.go: pipelines -/

/-- The implementations of Go `PageFeatureExtractor`
(classifier/pagetype_features.go). -/
inductive PageFeatureExtractor where
  | PageStructureExtractor
  | PageTitleExtractor
  | PageMetaDescriptionExtractor
  | PageHeadingsExtractor
  | PageH1Extractor
  | PageCSSExtractor
  | PageNavTextExtractor
  | FormTypeSummaryExtractor
  | PageBodyTextExtractor
  | PageURLExtractor (URL : String)
  deriving DecidableEq

/-- Go `IsDict` of each extractor. -/
def PageFeatureExtractor.IsDict : PageFeatureExtractor → Bool
  | .PageStructureExtractor => true
  | .PageTitleExtractor => false
  | .PageMetaDescriptionExtractor => false
  | .PageHeadingsExtractor => false
  | .PageH1Extractor => false
  | .PageCSSExtractor => false
  | .PageNavTextExtractor => false
  | .FormTypeSummaryExtractor => true
  | .PageBodyTextExtractor => false
  | .PageURLExtractor _ => false

/-- Go `PageFeaturePipeline`; a nil `StopWords` map reads as the empty map. -/
structure PageFeaturePipeline where
  Name : String
  Extractor : PageFeatureExtractor
  VecType : String
  NgramRange : Int × Int
  MinDF : Int
  Binary : Bool
  Analyzer : String
  StopWords : GoMap String Bool
  UseEnglishStop : Bool
  deriving DecidableEq

/-- Go `DefaultPageFeaturePipelines` (classifier/pagetype_features.go); the
fields a literal leaves out have their zero value. -/
def DefaultPageFeaturePipelines : List PageFeaturePipeline :=
  [ { Name := "page structure", Extractor := .PageStructureExtractor, VecType := "dict",
      NgramRange := (0, 0), MinDF := 0, Binary := false, Analyzer := "", StopWords := [],
      UseEnglishStop := false },
    { Name := "page title", Extractor := .PageTitleExtractor, VecType := "tfidf",
      NgramRange := (1, 2), MinDF := 2, Binary := true, Analyzer := "word", StopWords := [],
      UseEnglishStop := false },
    { Name := "page meta desc", Extractor := .PageMetaDescriptionExtractor, VecType := "tfidf",
      NgramRange := (1, 2), MinDF := 2, Binary := true, Analyzer := "word", StopWords := [],
      UseEnglishStop := false },
    { Name := "page headings", Extractor := .PageHeadingsExtractor, VecType := "tfidf",
      NgramRange := (1, 2), MinDF := 2, Binary := true, Analyzer := "word", StopWords := [],
      UseEnglishStop := false },
    { Name := "page h1", Extractor := .PageH1Extractor, VecType := "tfidf",
      NgramRange := (1, 2), MinDF := 2, Binary := true, Analyzer := "word", StopWords := [],
      UseEnglishStop := false },
    { Name := "page css", Extractor := .PageCSSExtractor, VecType := "tfidf",
      NgramRange := (4, 5), MinDF := 2, Binary := true, Analyzer := "char_wb", StopWords := [],
      UseEnglishStop := false },
    { Name := "page nav text", Extractor := .PageNavTextExtractor, VecType := "tfidf",
      NgramRange := (1, 2), MinDF := 2, Binary := true, Analyzer := "word", StopWords := [],
      UseEnglishStop := false },
    { Name := "form type summary", Extractor := .FormTypeSummaryExtractor, VecType := "dict",
      NgramRange := (0, 0), MinDF := 0, Binary := false, Analyzer := "", StopWords := [],
      UseEnglishStop := false },
    { Name := "page url", Extractor := .PageURLExtractor "", VecType := "tfidf",
      NgramRange := (5, 6), MinDF := 2, Binary := true, Analyzer := "char_wb", StopWords := [],
      UseEnglishStop := false } ]

/-- Go `pageExtractorTypeName` (classifier/pagetype.go). -/
def pageExtractorTypeName : PageFeatureExtractor → String
  | .PageStructureExtractor => "PageStructure"
  | .PageTitleExtractor => "PageTitle"
  | .PageMetaDescriptionExtractor => "PageMetaDescription"
  | .PageHeadingsExtractor => "PageHeadings"
  | .PageH1Extractor => "PageH1"
  | .PageCSSExtractor => "PageCSS"
  | .PageNavTextExtractor => "PageNavText"
  | .FormTypeSummaryExtractor => "FormTypeSummary"
  | .PageURLExtractor _ => "PageURL"
  | .PageBodyTextExtractor => "unknown"

/-! ## classifier/pagetype_features.go: FormTypeSummaryExtractor -/

/-- A value of a Go feature dict `map[string]any`: a `float64` or a string. -/
inductive FeatureValue where
  | num (x : ℚ)
  | str (s : String)
  deriving DecidableEq

/-- Go `boolToPageFloat` (classifier/pagetype_features.go). -/
def boolToPageFloat (b : Bool) : ℚ :=
  if b then 1 else 0

/-- Go `strings.ReplaceAll(s, old, new)` for one-character `old` and `new`. -/
def replaceAllChar (s : String) (old new : Char) : String :=
  ⟨s.data.map (fun c => if c = old then new else c)⟩

/-- The slice `knownTypes` of `FormTypeSummaryExtractor.ExtractDict`. -/
def knownTypes : List String :=
  ["login", "registration", "search", "password/login recovery",
    "contact/comment", "mailing list", "order/checkout", "other"]

/-- The key of the per-type flag in `FormTypeSummaryExtractor.ExtractDict`:
`"has_" + ReplaceAll(ReplaceAll(tp, "/", "_"), " ", "_") + "_form"`. -/
def typeFlagKey (tp : String) : String :=
  "has_" ++ replaceAllChar (replaceAllChar tp '/' '_') ' ' '_' ++ "_form"

/-- The loop `typeCounts[r.Form]++` of `FormTypeSummaryExtractor.ExtractDict`;
a key that is absent reads as 0. -/
def typeCountsOf (formResults : List ClassifyResult) : GoMap String Int :=
  formResults.foldl
    (fun typeCounts r => typeCounts.set r.Form ((typeCounts.get? r.Form).getD 0 + 1)) []

/-- The body of the dominant-type loop: `if count > maxCount` take the entry. -/
def dominantStep (best : String × Int) (e : String × Int) : String × Int :=
  if e.2 > best.2 then (e.1, e.2) else best

/-- Go `FormTypeSummaryExtractor.ExtractDict` (classifier/pagetype_features.go);
`rng` is the order of `range typeCounts`. -/
def FormTypeSummaryExtractor.ExtractDict (rng : GoMap String Int → GoMap String Int)
    (formResults : List ClassifyResult) : GoMap String FeatureValue :=
  let features : GoMap String FeatureValue :=
    [("form_count", .num (formResults.length : ℚ)),
     ("has_any_form", .num (boolToPageFloat (decide (formResults.length > 0)))),
     ("dominant_type", .str "none")]
  let typeCounts := typeCountsOf formResults
  let features := knownTypes.foldl
    (fun features tp =>
      features.set (typeFlagKey tp)
        (.num (boolToPageFloat (decide ((typeCounts.get? tp).getD 0 > 0)))))
    features
  if formResults.length > 0 then
    features.set "dominant_type" (.str ((rng typeCounts).foldl dominantStep ("", 0)).1)
  else features

/-! ## internal/htmlutil/pageutil.go: GetErrorIndicators -/

/-- A Go string as the sequence of its bytes: `len` is `List.length` and
`s[:n]` is `List.take n`. -/
abbrev GoString := List UInt8

/-- The bytes of an ASCII string literal. -/
def ascii (s : String) : GoString :=
  s.data.map (fun c => c.toNat.toUInt8)

/-- Go `strings.Contains(s, substr)`. -/
def Contains (s substr : GoString) : Bool :=
  decide (substr <:+: s)

/-- Go `strings.ToLower` on ASCII text: the letters `A`-`Z` become `a`-`z`. -/
def asciiLower (s : GoString) : GoString :=
  s.map (fun b => if 65 ≤ b ∧ b ≤ 90 then b + 32 else b)

/-- The slice `patterns` of `GetErrorIndicators`: name and keyword. -/
def errorPatterns : List (String × String) :=
  [("404", "404"), ("not_found", "not found"), ("page_not_found", "page not found"),
   ("does_not_exist", "does not exist"), ("no_longer_available", "no longer available"),
   ("access_denied", "access denied"), ("forbidden", "forbidden"),
   ("unauthorized", "unauthorized"), ("server_error", "server error"),
   ("internal_error", "internal server error"), ("captcha", "captcha"),
   ("cloudflare", "cloudflare"), ("challenge", "challenge"),
   ("verify_human", "verify you are human"), ("domain_parking", "domain parking"),
   ("parked_domain", "parked domain"), ("coming_soon", "coming soon"),
   ("under_construction", "under construction"), ("maintenance", "maintenance"),
   ("launching_soon", "launching soon"), ("welcome_nginx", "welcome to nginx"),
   ("apache_default", "apache2 default page"), ("iis_default", "iis windows server"),
   ("index_of", "index of /"), ("directory_listing", "directory listing"),
   ("waf_block", "blocked"), ("bot_detection", "bot"), ("admin_panel", "admin"),
   ("dashboard", "dashboard"), ("login", "log in"), ("sign_in", "sign in")]

/-- The body text that `GetErrorIndicators` scans: `bodyText[:5000]` when
`len(bodyText) > 5000`, else `bodyText`. -/
def scannedBody (bodyText : GoString) : GoString :=
  if bodyText.length > 5000 then bodyText.take 5000 else bodyText

/-- The three assignments that the loop of `GetErrorIndicators` makes for
one pattern. -/
def indicatorEntries (title h1 bodyText : GoString) (p : String × String) :
    List (String × FeatureValue) :=
  [("title_has_" ++ p.1, .num (boolToFloat (Contains title (ascii p.2)))),
   ("h1_has_" ++ p.1, .num (boolToFloat (Contains h1 (ascii p.2)))),
   ("body_has_" ++ p.1, .num (boolToFloat (Contains bodyText (ascii p.2))))]

/-- The keys that `GetErrorIndicators` assigns for one pattern. -/
def indicatorKeys (p : String × String) : List String :=
  ["title_has_" ++ p.1, "h1_has_" ++ p.1, "body_has_" ++ p.1]

/-- Go `GetErrorIndicators` (internal/htmlutil/pageutil.go) on the texts that
the document service returns: `pageTitle` is `GetPageTitle(doc)`, `h1Text`
is `GetH1Text(doc)`, `body` is `doc.Find("body").Text()`; `ToLower` is
`strings.ToLower`. -/
def GetErrorIndicators (ToLower : GoString → GoString) (pageTitle h1Text body : GoString) :
    GoMap String FeatureValue :=
  let title := ToLower pageTitle
  let h1 := ToLower h1Text
  let bodyText := scannedBody (ToLower body)
  errorPatterns.foldl
    (fun features p =>
      (indicatorEntries title h1 bodyText p).foldl (fun f kv => f.set kv.1 kv.2) features)
    []

/-! ## classifier/pagetype_features.go and pagetype.go: extraction and extractFeatures -/

/-- Go `PageTypeTrainConfig`. -/
structure PageTypeTrainConfig where
  C : ℚ
  MaxIter : Int
  Verbose : Bool

/-- What the page extractors, `extractFeatures` and `TrainPageType` call and
the sources do not contain: the text service over goquery documents,
`net/url` and `normalizeURLPart`, the vectorizer package, and the L-BFGS
optimizer of the logistic regression. -/
structure PageDeps where
  /-- Go `*goquery.Document`. -/
  Doc : Type
  /-- Go `vectorizer.SparseVector`. -/
  Vec : Type
  /-- Go `vectorizer.DictVectorizer`. -/
  DictVec : Type
  /-- Go `vectorizer.TfidfVectorizer`. -/
  TfidfVec : Type
  /-- The state of the optimizer that `newLogRegLBFGS` creates. -/
  LBFGS : Type
  /-- Go `htmlutil.GetPageStructure`, as a function of the document. -/
  GetPageStructure : Doc → GoMap String FeatureValue
  GetPageTitle : Doc → String
  GetMetaDescription : Doc → String
  GetHeadings : Doc → String
  GetH1Text : Doc → String
  GetPageCSS : Doc → String
  GetNavText : Doc → String
  GetBodyText : Doc → Int → String
  /-- Go `url.Parse`: the fields `Path` and `RawQuery`, or the error. -/
  urlParse : String → Except String (String × String)
  normalizeURLPart : String → String
  /-- The order of `range typeCounts` in `FormTypeSummaryExtractor.ExtractDict`. -/
  rngCounts : GoMap String Int → GoMap String Int
  /-- The zero value of `vectorizer.SparseVector`. -/
  zeroVec : Vec
  /-- The field `Dim` of a sparse vector. -/
  Dim : Vec → Nat
  ConcatSparse : List Vec → Vec
  /-- Go `NewDictVectorizer` followed by `FitTransform`: the fitted vectorizer
  and the vectors; a nil dictionary is `none`. -/
  dictFitTransform : List (Option (GoMap String FeatureValue)) → DictVec × List Vec
  /-- Go `DictVectorizer.Transform` on a vectorizer pointer that may be nil;
  `none` is a panic. -/
  dictTransform : Option DictVec → Option (GoMap String FeatureValue) → Option Vec
  dictVocabSize : DictVec → Int
  EnglishStopWords : GoMap String Bool
  /-- Go `NewTfidfVectorizer(ngramRange, minDF, binary, analyzer, stopWords)`
  followed by `FitTransform(corpus)`. -/
  tfidfFitTransform : Int × Int → Int → Bool → String → GoMap String Bool → List String →
    TfidfVec × List Vec
  /-- Go `TfidfVectorizer.Transform` on a vectorizer pointer that may be nil;
  `none` is a panic. -/
  tfidfTransform : Option TfidfVec → String → Option Vec
  tfidfVocabSize : TfidfVec → Int
  newLogRegLBFGS : Int → LBFGS
  /-- Go `logRegObjective(xData, y, params, numClasses, totalDim, reg)`: loss
  and gradients. -/
  logRegObjective : List Vec → List Int → List ℚ → Nat → Nat → ℚ → ℚ × List ℚ
  /-- Go `lbfgs.computeDirection(gradients, numParams)`: the direction, and
  the optimizer state after the call. -/
  computeDirection : LBFGS → List ℚ → Nat → List ℚ × LBFGS
  /-- Go `logRegLineSearch(xData, y, params, dir, numClasses, totalDim, reg, loss)`. -/
  logRegLineSearch : List Vec → List Int → List ℚ → List ℚ → Nat → Nat → ℚ → ℚ → ℚ
  /-- Go `lbfgs.update(s, yVec)`. -/
  update : LBFGS → List ℚ → List ℚ → LBFGS

/-- Go `ExtractString` of each extractor (classifier/pagetype_features.go). -/
def PageFeatureExtractor.ExtractString (P : PageDeps) :
    PageFeatureExtractor → P.Doc → List ClassifyResult → String
  | .PageStructureExtractor, _, _ => ""
  | .PageTitleExtractor, doc, _ => P.GetPageTitle doc
  | .PageMetaDescriptionExtractor, doc, _ => P.GetMetaDescription doc
  | .PageHeadingsExtractor, doc, _ => P.GetHeadings doc
  | .PageH1Extractor, doc, _ => P.GetH1Text doc
  | .PageCSSExtractor, doc, _ => P.GetPageCSS doc
  | .PageNavTextExtractor, doc, _ => P.GetNavText doc
  | .FormTypeSummaryExtractor, _, _ => ""
  | .PageBodyTextExtractor, doc, _ => P.GetBodyText doc 500
  | .PageURLExtractor URL, _, _ =>
    if URL = "" then ""
    else
      match P.urlParse URL with
      | .error _ => URL
      | .ok u => P.normalizeURLPart u.1 ++ " " ++ P.normalizeURLPart u.2

/-- Go `ExtractDict` of each extractor (classifier/pagetype_features.go);
`none` is the nil map. -/
def PageFeatureExtractor.ExtractDict (P : PageDeps) :
    PageFeatureExtractor → P.Doc → List ClassifyResult → Option (GoMap String FeatureValue)
  | .PageStructureExtractor, doc, _ => some (P.GetPageStructure doc)
  | .FormTypeSummaryExtractor, _, formResults =>
    some (FormTypeSummaryExtractor.ExtractDict P.rngCounts formResults)
  | _, _, _ => none

/-- Go `SerializedPipeline`, the fields that `TrainPageType` and `InitRuntime`
use; `none` is a nil vectorizer. -/
structure SerializedPipeline (P : PageDeps) where
  Name : String
  ExtractorType : String
  VecType : String
  DictVec : Option P.DictVec
  TfidfVec : Option P.TfidfVec

/-- The fields of Go `PageTypeModel` besides `Classes`, `Coef` and
`Intercept`: the fitted pipelines and the run-time state. -/
structure PageTypeRuntime (P : PageDeps) where
  Pipelines : List (SerializedPipeline P)
  dictVecs : List (Option P.DictVec)
  tfidfVecs : List (Option P.TfidfVec)
  vecTypes : List String
  vecDims : List Int

/-- A Go loop `for i, x := range xs` that fills `out[i]`, from index `i`; a
panic in the body is a panic of the loop. -/
def rangeLoop {α β : Type} (body : Nat → α → Option β) : List α → Nat → Option (List β)
  | [], _ => some []
  | x :: rest, i =>
    match body i x with
    | none => none
    | some r => (rangeLoop body rest (i + 1)).map (fun rs => r :: rs)

/-- Go `PageTypeModel.extractFeatures`, the body of its loop: the vector of
pipeline `i`; `m.vecTypes[i]` out of range panics. -/
def pipelineVector (P : PageDeps) (rt : PageTypeRuntime P) (doc : P.Doc)
    (formResults : List ClassifyResult) (i : Nat) (pipe : PageFeaturePipeline) : Option P.Vec :=
  match rt.vecTypes[i]? with
  | none => none
  | some vecType =>
    if vecType = "dict" then
      match rt.dictVecs[i]? with
      | none => none
      | some dv => P.dictTransform dv (pipe.Extractor.ExtractDict P doc formResults)
    else if vecType = "tfidf" then
      match rt.tfidfVecs[i]? with
      | none => none
      | some tv => P.tfidfTransform tv (pipe.Extractor.ExtractString P doc formResults)
    else some P.zeroVec

/-- Go `PageTypeModel.extractFeatures` (classifier/pagetype.go). -/
def PageTypeRuntime.extractFeatures (P : PageDeps) (rt : PageTypeRuntime P) (doc : P.Doc)
    (formResults : List ClassifyResult) : Option P.Vec :=
  (rangeLoop (pipelineVector P rt doc formResults) DefaultPageFeaturePipelines 0).map
    P.ConcatSparse

/-- Stand-in dependencies of the page model: a document is its title, a
sparse vector is the list of its entries, every pipeline yields one feature
(the length of the text for a text pipeline, 1 for a dictionary), a URL
parses to itself as path with an empty query, and the objective has loss and
gradient zero. -/
def stubPageDeps : PageDeps where
  Doc := String
  Vec := List ℚ
  DictVec := Unit
  TfidfVec := Unit
  LBFGS := Unit
  GetPageStructure := fun _ => []
  GetPageTitle := fun doc => doc
  GetMetaDescription := fun _ => ""
  GetHeadings := fun _ => ""
  GetH1Text := fun _ => ""
  GetPageCSS := fun _ => ""
  GetNavText := fun _ => ""
  GetBodyText := fun _ _ => ""
  urlParse := fun u => .ok (u, "")
  normalizeURLPart := fun s => s
  rngCounts := id
  zeroVec := []
  Dim := fun v => v.length
  ConcatSparse := fun vs => vs.flatten
  dictFitTransform := fun data => ((), data.map (fun _ => [1]))
  dictTransform := fun _ _ => some [1]
  dictVocabSize := fun _ => 1
  EnglishStopWords := []
  tfidfFitTransform := fun _ _ _ _ _ corpus => ((), corpus.map (fun text => [(text.length : ℚ)]))
  tfidfTransform := fun _ text => some [(text.length : ℚ)]
  tfidfVocabSize := fun _ => 1
  newLogRegLBFGS := fun _ => ()
  logRegObjective := fun _ _ params _ _ _ => (0, params.map (fun _ => 0))
  computeDirection := fun lb _ n => (List.replicate n 1, lb)
  logRegLineSearch := fun _ _ _ _ _ _ _ _ => 1
  update := fun lb _ _ => lb

/-- What the modelled functions call and the sources do not contain, on top
of `PageDeps`: the HTML document service for forms (goquery and `htmlutil`),
the form and field type models (`FormTypeModel`, `FieldTypeModel`),
`SparseVector.Dot`, `softmax`, the file system behind `SaveModel`, and the
order in which each `range` over a map visits it. -/
structure Deps extends PageDeps where
  /-- Go `*goquery.Selection` of one form. -/
  Form : Type
  /-- Go `classifier.FormTypeModel`. -/
  FormTypeModel : Type
  /-- Go `classifier.FieldTypeModel`. -/
  FieldTypeModel : Type
  /-- Go `htmlutil.LoadHTMLString`: the document, or the parse error. -/
  LoadHTMLString : String → Except String Doc
  /-- Go `htmlutil.GetForms`: the form elements of a document. -/
  GetForms : Doc → List Form
  /-- Go `form.Html()`, its error dropped as the callers drop it. -/
  Html : Form → String
  /-- Go `FormTypeModel.Classify`. -/
  formClassify : FormTypeModel → Form → String
  /-- Go `FormTypeModel.ClassifyProba`. -/
  formClassifyProba : FormTypeModel → Form → GoMap String ℚ
  /-- Go `FieldTypeModel.Classify`. -/
  fieldClassify : FieldTypeModel → Form → String → GoMap String String
  /-- Go `FieldTypeModel.ClassifyProba`. -/
  fieldClassifyProba : FieldTypeModel → Form → String → GoMap String (GoMap String ℚ)
  /-- The fitted pipelines and the run-time state of a page model (the fields
  `Pipelines`, `dictVecs`, `tfidfVecs`, `vecTypes`, `vecDims` of the Go
  struct, which `TrainPageType` and `InitRuntime` set and the record
  `PageTypeModel` does not carry). -/
  runtime : PageTypeModel → PageTypeRuntime toPageDeps
  /-- Go `SparseVector.Dot`. -/
  Dot : Vec → List ℚ → ℚ
  /-- Go `softmax`. -/
  softmax : List ℚ → List ℚ
  /-- The error of `json.MarshalIndent`, `os.MkdirAll` and `os.WriteFile` in
  `SaveModel`, if any. -/
  writeModel : String → Option String
  /-- The order of `range` in the best-class loops of a call. -/
  rngBest : GoMap String ℚ → GoMap String ℚ
  /-- The order of `range` in `thresholdMap` during a call. -/
  rngThreshold : GoMap String ℚ → GoMap String ℚ
  /-- The order of `range fieldProba` in `ClassifyProba`. -/
  rngFields : GoMap String (GoMap String ℚ) → GoMap String (GoMap String ℚ)

/-- The dependencies `D` for another call: each `range` over a map picks its
order anew, so the best-class loops visit in the order `best` and
`thresholdMap` in the order `threshold`. -/
@[reducible]
def Deps.withOrders (D : Deps) (best threshold : GoMap String ℚ → GoMap String ℚ) : Deps :=
  { D with rngBest := best, rngThreshold := threshold }

/-- Go `classifier.FormFieldClassifier`; `none` is a nil model pointer. -/
structure FormFieldClassifier (D : Deps) where
  FormModel : Option D.FormTypeModel
  FieldModel : Option D.FieldTypeModel
  PageModel : Option PageTypeModel

/-- The classifier `c` in another call, see `Deps.withOrders`. -/
@[reducible]
def FormFieldClassifier.withOrders {D : Deps} (c : FormFieldClassifier D)
    (best threshold : GoMap String ℚ → GoMap String ℚ) :
    FormFieldClassifier (D.withOrders best threshold) :=
  { FormModel := c.FormModel, FieldModel := c.FieldModel, PageModel := c.PageModel }

/-! ## classifier/pagetype.go: ClassifyProba and Classify -/

/-- Go `PageTypeModel.ClassifyProba`, the loop
`logits[c] = features.Dot(m.Coef[c]) + m.Intercept[c]` over the class
indices `cs`; an index outside `Coef` or `Intercept` panics. -/
def logitsLoop (dot : List ℚ → ℚ) (m : PageTypeModel) : List Nat → Option (List ℚ)
  | [] => some []
  | c :: cs =>
    match m.Coef[c]?, m.Intercept[c]? with
    | some row, some b => (logitsLoop dot m cs).map (fun logits => (dot row + b) :: logits)
    | _, _ => none

/-- Go `PageTypeModel.ClassifyProba`, the loop `result[cls] = probs[c]` over
`m.Classes`; an index outside `probs` panics. -/
def probaLoop (probs : List ℚ) : List String → Nat → GoMap String ℚ → Option (GoMap String ℚ)
  | [], _, result => some result
  | cls :: rest, c, result =>
    match probs[c]? with
    | none => none
    | some p => probaLoop probs rest (c + 1) (result.set cls p)

/-- Go `PageTypeModel.extractFeatures` (classifier/pagetype.go) on the
run-time state of the model; `none` is a panic. -/
def PageTypeModel.extractFeatures (D : Deps) (m : PageTypeModel) (doc : D.Doc)
    (formResults : List ClassifyResult) : Option D.Vec :=
  (D.runtime m).extractFeatures D.toPageDeps doc formResults

/-- Go `PageTypeModel.ClassifyProba` (classifier/pagetype.go). -/
def PageTypeModel.ClassifyProba (D : Deps) (m : PageTypeModel) (doc : D.Doc)
    (formResults : List ClassifyResult) : Option (GoMap String ℚ) :=
  match m.extractFeatures D doc formResults with
  | none => none
  | some features =>
    let numClasses := m.Classes.length
    match logitsLoop (D.Dot features) m (List.range numClasses) with
    | none => none
    | some logits =>
      let probs := D.softmax logits
      probaLoop probs m.Classes 0 []

/-- The body of the best-class loops: `if prob > bestProb` take the entry. -/
def bestStep (best : String × ℚ) (e : String × ℚ) : String × ℚ :=
  if e.2 > best.2 then (e.1, e.2) else best

/-- The best-class loop over a probability map visited in the order `visit`,
from `bestClass := ""`, `bestProb := -1.0`. -/
def bestClass (visit : GoMap String ℚ) : String :=
  (visit.foldl bestStep ("", -1)).1

/-- Go `PageTypeModel.Classify` (classifier/pagetype.go). -/
def PageTypeModel.Classify (D : Deps) (m : PageTypeModel) (doc : D.Doc)
    (formResults : List ClassifyResult) : Option String :=
  match m.ClassifyProba D doc formResults with
  | none => none
  | some proba => some (bestClass (D.rngBest proba))

/-! ## classifier/classifier.go: the orchestrator -/

/-- Go `FormFieldClassifier.Classify`; a nil `FormModel` panics. -/
def FormFieldClassifier.Classify {D : Deps} (c : FormFieldClassifier D) (form : D.Form)
    (fields : Bool) : Option ClassifyResult :=
  match c.FormModel with
  | none => none
  | some formModel =>
    let formType := D.formClassify formModel form
    match fields, c.FieldModel with
    | true, some fieldModel =>
      some { Form := formType, Fields := D.fieldClassify fieldModel form formType }
    | _, _ => some { Form := formType, Fields := [] }

/-- Go `FormFieldClassifier.ClassifyProba`; a nil `FormModel` panics. -/
def FormFieldClassifier.ClassifyProba {D : Deps} (c : FormFieldClassifier D) (form : D.Form)
    (threshold : ℚ) (fields : Bool) : Option ClassifyProbaResult :=
  match c.FormModel with
  | none => none
  | some formModel =>
    let formProba := D.formClassifyProba formModel form
    let filtered := thresholdMap D.rngThreshold formProba threshold
    match fields, c.FieldModel with
    | true, some fieldModel =>
      let bestFormType := bestClass (D.rngBest formProba)
      let fieldProba := D.fieldClassifyProba fieldModel form bestFormType
      some { Form := filtered,
             Fields := (D.rngFields fieldProba).foldl
               (fun res e => res.set e.1 (thresholdMap D.rngThreshold e.2 threshold)) [] }
    | _, _ => some { Form := filtered, Fields := [] }

/-- The zero value of `classifier.FormResult`. -/
def classifier.FormResult.zero : classifier.FormResult :=
  { FormHTML := "", Result := { Form := "", Fields := [] }, Proba := { Form := [], Fields := [] } }

/-- The body of the loop over the forms in `ExtractForms`, `ExtractPage`
and `ExtractFormsFromReader`: the entry `results[i]` for one form. -/
def formEntry {D : Deps} (c : FormFieldClassifier D) (proba : Bool) (threshold : ℚ)
    (classifyFields : Bool) (form : D.Form) : Option classifier.FormResult :=
  if proba then
    (c.ClassifyProba form threshold classifyFields).map
      (fun p => { classifier.FormResult.zero with FormHTML := D.Html form, Proba := p })
  else
    (c.Classify form classifyFields).map
      (fun r => { classifier.FormResult.zero with FormHTML := D.Html form, Result := r })

/-- A loop over the forms that fills one slot per form, in order; a panic
in the body is a panic of the loop. -/
def forEachForm {α β : Type} (body : α → Option β) : List α → Option (List β)
  | [] => some []
  | form :: rest =>
    match body form with
    | none => none
    | some r => (forEachForm body rest).map (fun rs => r :: rs)

/-- Go `FormFieldClassifier.ExtractForms`: the results (`none` is nil) and the error. -/
def FormFieldClassifier.ExtractForms {D : Deps} (c : FormFieldClassifier D) (htmlStr : String)
    (proba : Bool) (threshold : ℚ) (classifyFields : Bool) :
    Option (Option (List classifier.FormResult) × Option String) :=
  match D.LoadHTMLString htmlStr with
  | .error err => some (none, some err)
  | .ok doc =>
    let forms := D.GetForms doc
    match forEachForm (formEntry c proba threshold classifyFields) forms with
    | none => none
    | some results => some (some results, none)

/-- Go `FormFieldClassifier.ExtractPage`: form results, page result, page
probabilities and the error. -/
def FormFieldClassifier.ExtractPage {D : Deps} (c : FormFieldClassifier D) (htmlStr : String)
    (proba : Bool) (threshold : ℚ) (classifyFields : Bool) :
    Option (Option (List classifier.FormResult) × ClassifyResult × ClassifyProbaResult
      × Option String) :=
  match D.LoadHTMLString htmlStr with
  | .error err => some (none, { Form := "", Fields := [] }, { Form := [], Fields := [] }, some err)
  | .ok doc =>
    let forms := D.GetForms doc
    match forEachForm (formEntry c proba threshold classifyFields) forms,
        forEachForm (fun form => c.Classify form false) forms with
    | some formResults, some classifyResults =>
      match c.PageModel with
      | none => some (some formResults, { Form := "", Fields := [] },
          { Form := [], Fields := [] }, none)
      | some pageModel =>
        if proba then
          match pageModel.ClassifyProba D doc classifyResults with
          | none => none
          | some pageProba =>
            some (some formResults, { Form := "", Fields := [] },
              { Form := thresholdMap D.rngThreshold pageProba threshold, Fields := [] }, none)
        else
          match pageModel.Classify D doc classifyResults with
          | none => none
          | some pageType =>
            some (some formResults, { Form := pageType, Fields := [] },
              { Form := [], Fields := [] }, none)
    | _, _ => none

/-- Go `FormFieldClassifier.SaveModel` (classifier/model.go): the error, if any. -/
def FormFieldClassifier.SaveModel {D : Deps} (_c : FormFieldClassifier D) (path : String) :
    Option String :=
  D.writeModel path

/-! ## dit.go: the public classifier -/

/-- Go `dit.Classifier`; `none` is a nil `fc`. -/
structure Classifier (D : Deps) where
  fc : Option (FormFieldClassifier D)

/-- Go `dit.FormResult`; `Type_` is its field `Type`. -/
structure FormResult where
  Type_ : String
  Fields : GoMap String String
  deriving DecidableEq

/-- Go `dit.FormResultProba`. -/
structure FormResultProba where
  Type_ : GoMap String ℚ
  Fields : GoMap String (GoMap String ℚ)
  deriving DecidableEq

/-- Go `dit.PageResult`; `none` of `Forms` is a nil slice. -/
structure PageResult where
  Type_ : String
  Forms : Option (List FormResult)
  deriving DecidableEq

/-- Go `dit.PageResultProba`. -/
structure PageResultProba where
  Type_ : GoMap String ℚ
  Forms : Option (List FormResultProba)
  deriving DecidableEq

/-- The guard `c.fc == nil || c.fc.FormModel == nil` of the `Extract` methods:
the inner classifier when it and its form model are present. -/
def Classifier.initialized {D : Deps} (c : Classifier D) : Option (FormFieldClassifier D) :=
  match c.fc with
  | none => none
  | some fc => if fc.FormModel.isNone then none else some fc

/-- Go `Classifier.Save`: the error, if any. -/
def Classifier.Save {D : Deps} (c : Classifier D) (path : String) : Option String :=
  match c.fc with
  | none => some "dit: classifier not initialized"
  | some fc =>
    match fc.SaveModel path with
    | some err => some ("dit: " ++ err)
    | none => none

/-- Go `Classifier.ExtractForms`: the results (`none` is nil) and the error. -/
def Classifier.ExtractForms {D : Deps} (c : Classifier D) (html : String) :
    Option (Option (List FormResult) × Option String) :=
  match c.initialized with
  | none => some (none, some "dit: classifier not initialized")
  | some fc =>
    match fc.ExtractForms html false 0 true with
    | none => none
    | some (_, some err) => some (none, some ("dit: " ++ err))
    | some (results, none) =>
      some (some ((results.getD []).map
        (fun r => { Type_ := r.Result.Form, Fields := r.Result.Fields })), none)

/-- Go `Classifier.ExtractFormsProba`. -/
def Classifier.ExtractFormsProba {D : Deps} (c : Classifier D) (html : String)
    (threshold : ℚ) : Option (Option (List FormResultProba) × Option String) :=
  match c.initialized with
  | none => some (none, some "dit: classifier not initialized")
  | some fc =>
    match fc.ExtractForms html true threshold true with
    | none => none
    | some (_, some err) => some (none, some ("dit: " ++ err))
    | some (results, none) =>
      some (some ((results.getD []).map
        (fun r => { Type_ := r.Proba.Form, Fields := r.Proba.Fields })), none)

/-- Go `Classifier.ExtractPageType`: the result (`none` is nil) and the error. -/
def Classifier.ExtractPageType {D : Deps} (c : Classifier D) (html : String) :
    Option (Option PageResult × Option String) :=
  match c.initialized with
  | none => some (none, some "dit: classifier not initialized")
  | some fc =>
    if fc.PageModel.isNone then some (none, some "dit: page model not available")
    else
      match fc.ExtractPage html false 0 true with
      | none => none
      | some (_, _, _, some err) => some (none, some ("dit: " ++ err))
      | some (formResults, pageResult, _, none) =>
        some (some { Type_ := pageResult.Form,
                     Forms := some ((formResults.getD []).map
                       (fun r => { Type_ := r.Result.Form, Fields := r.Result.Fields })) }, none)

/-- Go `Classifier.ExtractPageTypeProba`. -/
def Classifier.ExtractPageTypeProba {D : Deps} (c : Classifier D) (html : String)
    (threshold : ℚ) : Option (Option PageResultProba × Option String) :=
  match c.initialized with
  | none => some (none, some "dit: classifier not initialized")
  | some fc =>
    if fc.PageModel.isNone then some (none, some "dit: page model not available")
    else
      match fc.ExtractPage html true threshold true with
      | none => none
      | some (_, _, _, some err) => some (none, some ("dit: " ++ err))
      | some (formResults, _, pageProba, none) =>
        some (some { Type_ := pageProba.Form,
                     Forms := some ((formResults.getD []).map
                       (fun r => { Type_ := r.Proba.Form, Fields := r.Proba.Fields })) }, none)

/-! ## A stand-in for the dependencies, to run the model on concrete inputs -/

/-- The run-time state of a stand-in page model as `TrainPageType` leaves it:
the vector types of the default pipelines, a dictionary vectorizer for each
"dict" pipeline and a tf-idf vectorizer for each "tfidf" pipeline. -/
def stubRuntime : PageTypeRuntime stubPageDeps :=
  { Pipelines := [],
    dictVecs := DefaultPageFeaturePipelines.map
      (fun pipe => if pipe.VecType = "dict" then some () else none),
    tfidfVecs := DefaultPageFeaturePipelines.map
      (fun pipe => if pipe.VecType = "tfidf" then some () else none),
    vecTypes := DefaultPageFeaturePipelines.map (fun pipe => pipe.VecType),
    vecDims := DefaultPageFeaturePipelines.map (fun _ => 1) }

/-- Stand-in dependencies over `stubPageDeps`. A document is its HTML string
and holds one form when it is `<form></form>`, none otherwise; every string
parses. The form model answers `login`, its probabilities and those of the
page model are uniform (what `softmax` returns on equal logits, and the
stand-in features give every class the logit of its intercept plus 0), every
page model has the run-time state `stubRuntime`, and the best-class loops
visit a probability map in the order `visit`. -/
def stubDeps (visit : GoMap String ℚ → GoMap String ℚ) : Deps :=
  { stubPageDeps with
    Form := String
    FormTypeModel := Unit
    FieldTypeModel := Unit
    LoadHTMLString := fun html => .ok html
    GetForms := fun (doc : String) => if doc = "<form></form>" then ["<form></form>"] else []
    Html := fun _ => ""
    formClassify := fun _ _ => "login"
    formClassifyProba := fun _ _ => [("login", mkRat 1 2), ("search", mkRat 1 2)]
    fieldClassify := fun _ _ _ => []
    fieldClassifyProba := fun _ _ _ => []
    runtime := fun _ => stubRuntime
    Dot := fun _ _ => 0
    softmax := fun logits => List.replicate logits.length (mkRat 1 logits.length)
    writeModel := fun _ => none
    rngBest := visit
    rngThreshold := id
    rngFields := id }

/-- A page model with the two classes `login` and `search` and all-zero
coefficients and intercepts: both classes get the same logit. -/
def tiedModel : PageTypeModel :=
  { Classes := ["login", "search"], Coef := [[], []], Intercept := [0, 0] }

/-- A stand-in for `softmax` that follows the order of the logits: the
probability of a logit is one plus the number of logits strictly below it,
over the sum of these numbers. -/
def rankSoftmax (logits : List ℚ) : List ℚ :=
  logits.map (fun x =>
    mkRat (1 + logits.countP (fun y => decide (y < x)) : Nat)
      (logits.map (fun z => 1 + logits.countP (fun y => decide (y < z)))).sum)

/-- The stand-in dependencies `stubDeps` with `rankSoftmax` for `softmax`. -/
def rankDeps (visit : GoMap String ℚ → GoMap String ℚ) : Deps :=
  { stubDeps visit with softmax := rankSoftmax }

/-- A page model with three classes of logits 0, 2 and 1: `search` has
strictly the largest. -/
def skewedModel : PageTypeModel :=
  { Classes := ["login", "search", "error"], Coef := [[], [], []], Intercept := [0, 2, 1] }

/-- A run-time state that was never initialized: every slice is nil. -/
def noRuntime (P : PageDeps) : PageTypeRuntime P :=
  { Pipelines := [], dictVecs := [], tfidfVecs := [], vecTypes := [], vecDims := [] }

/-! ## train.go: Train and Evaluate -/

/-- Go `storage.FormAnnotation`, the fields that train.go reads. -/
structure FormAnnotation where
  FormHTML : String
  URL : String
  TypeFull : String
  FormAnnotated : Bool
  FieldsAnnotated : Bool
  FieldTypes : GoMap String String
  FieldTypesFull : GoMap String String
  deriving DecidableEq

/-- Go `storage.PageAnnotation`; `Type_` is its field `Type`. -/
structure PageAnnotation where
  HTML : String
  URL : String
  Type_ : String
  TypeFull : String
  deriving DecidableEq

/-- Go `crf.TrainingSequence` over attribute maps of type `Attrs`. -/
structure TrainingSequence (Attrs : Type) where
  Features : List Attrs
  Labels : List String

/-- Go `dit.TrainConfig`. -/
structure TrainConfig where
  Verbose : Bool
  deriving DecidableEq

/-- Go `dit.EvalConfig`. -/
structure EvalConfig where
  Folds : Int
  Verbose : Bool
  deriving DecidableEq

/-- Go `dit.EvalResult`. -/
structure EvalResult where
  FormAccuracy : ℚ
  FieldAccuracy : ℚ
  SequenceAccuracy : ℚ
  PageAccuracy : ℚ
  FormCorrect : Nat
  FormTotal : Nat
  FieldCorrect : Nat
  FieldTotal : Nat
  SequenceCorrect : Nat
  SequenceTotal : Nat
  PageCorrect : Nat
  PageTotal : Nat
  deriving DecidableEq

/-- The value of `&EvalResult{}`. -/
def EvalResult.zero : EvalResult :=
  { FormAccuracy := 0, FieldAccuracy := 0, SequenceAccuracy := 0, PageAccuracy := 0,
    FormCorrect := 0, FormTotal := 0, FieldCorrect := 0, FieldTotal := 0,
    SequenceCorrect := 0, SequenceTotal := 0, PageCorrect := 0, PageTotal := 0 }

/-- The trainer calls made so far, oldest first: one name per model trained. -/
abbrev TrainLog := List String

/-- What `Train` and `Evaluate` call and the sources do not contain: the
annotation stores, the file system, the goquery selections, the feature
helpers, the trainers of the three models and the CRF decoder. -/
structure TrainDeps (D : Deps) where
  /-- Go `*goquery.Selection` of one field. -/
  Field : Type
  /-- The raw features of one field, an element of `GetFormFeatures`. -/
  Feat : Type
  /-- The CRF attribute map of one field. -/
  Attrs : Type
  /-- The nil `*goquery.Selection`. -/
  nilForm : D.Form
  /-- Go `storage.NewStorage(dataDir/forms).IterAnnotations` with `opts.Verbose`. -/
  IterAnnotations : String → Bool → Except String (List FormAnnotation)
  /-- Go `os.Stat(dataDir/pages/index.json)` returns no error. -/
  pageIndexExists : String → Bool
  /-- Go `storage.NewPageStorage(dataDir/pages).IterPageAnnotations`. -/
  IterPageAnnotations : String → Bool → Except String (List PageAnnotation)
  /-- Go `doc.Find("form").First()`. -/
  firstForm : D.Doc → D.Form
  /-- Go `storage.GetDomain`. -/
  GetDomain : String → String
  /-- Go `htmlutil.GetFieldsToAnnotate`. -/
  GetFieldsToAnnotate : D.Form → List Field
  /-- Go `classifier.GetFormFeatures`. -/
  GetFormFeatures : D.Form → String → List Field → List Feat
  /-- Go `crf.FeaturesToAttributes`. -/
  FeaturesToAttributes : Feat → Attrs
  /-- Go `field.Attr("name")`, the empty string when the attribute is absent. -/
  fieldName : Field → String
  /-- Go `classifier.TrainFormType`; the flag is `config.Verbose`. -/
  TrainFormType : List D.Form → List String → Bool → D.FormTypeModel
  /-- Go `classifier.TrainFieldType`; the flag is `config.Verbose`. -/
  TrainFieldType : List (TrainingSequence Attrs) → Bool → D.FieldTypeModel
  /-- Go `fieldModel.CRF.Predict`. -/
  Predict : D.FieldTypeModel → List Attrs → List String
  /-- Go `classifier.TrainPageType`, which runs the vectorizers and the
  optimizer; `none` is a panic. -/
  TrainPageType : List D.Doc → List (List ClassifyResult) → List String → List String → Bool →
    Option PageTypeModel
  /-- The order of `range uniqueGroups` in `groupKFold`. -/
  rngGroups : GoMap Int Bool → GoMap Int Bool

/-- Go `filterFormAnnotated` (train.go). -/
def filterFormAnnotated (annotations : List FormAnnotation) : List FormAnnotation :=
  annotations.filter (fun a => a.FormAnnotated)

/-- Go `filterFieldAnnotated` (train.go). -/
def filterFieldAnnotated (annotations : List FormAnnotation) : List FormAnnotation :=
  annotations.filter (fun a => a.FieldsAnnotated)

/-- Go `extractFormTrainingData` (train.go): slot `i` keeps the zero values
(nil form, empty label) when the form HTML does not parse. -/
def extractFormTrainingData {D : Deps} (T : TrainDeps D) (annotations : List FormAnnotation) :
    List D.Form × List String :=
  (annotations.map (fun ann =>
    match D.LoadHTMLString ("<form>" ++ ann.FormHTML ++ "</form>") with
    | .error _ => (T.nilForm, "")
    | .ok doc => (T.firstForm doc, ann.TypeFull))).unzip

/-- The label of the field named `name` in `buildCRFSequences`. -/
def fieldLabel (ann : FormAnnotation) (name : String) : String :=
  match ann.FieldTypesFull.get? name with
  | some label => label
  | none =>
    match ann.FieldTypes.get? name with
    | some label => label
    | none => "other"

/-- Go `buildCRFSequences`, the loop over `rawFeats`: `fieldElems[j]` out of
range panics. -/
def crfLoop {D : Deps} (T : TrainDeps D) (ann : FormAnnotation) (fieldElems : List T.Field) :
    List T.Feat → Nat → List T.Attrs × List String → Option (List T.Attrs × List String)
  | [], _, acc => some acc
  | feat :: rest, j, acc =>
    match fieldElems[j]? with
    | none => none
    | some el =>
      crfLoop T ann fieldElems rest (j + 1)
        (acc.1 ++ [T.FeaturesToAttributes feat], acc.2 ++ [fieldLabel ann (T.fieldName el)])

/-- Go `buildCRFSequences` (train.go), the loop over the annotations. -/
def buildCRFSequencesLoop {D : Deps} (T : TrainDeps D) :
    List FormAnnotation → List (TrainingSequence T.Attrs) × List FormAnnotation →
      Option (List (TrainingSequence T.Attrs) × List FormAnnotation)
  | [], acc => some acc
  | ann :: rest, acc =>
    match D.LoadHTMLString ("<form>" ++ ann.FormHTML ++ "</form>") with
    | .error _ => buildCRFSequencesLoop T rest acc
    | .ok doc =>
      let form := T.firstForm doc
      let fieldElems := T.GetFieldsToAnnotate form
      if fieldElems.length = 0 then buildCRFSequencesLoop T rest acc
      else
        match crfLoop T ann fieldElems (T.GetFormFeatures form ann.TypeFull fieldElems) 0
            ([], []) with
        | none => none
        | some (crfFeatures, crfLabels) =>
          buildCRFSequencesLoop T rest
            (acc.1 ++ [{ Features := crfFeatures, Labels := crfLabels }], acc.2 ++ [ann])

/-- Go `buildCRFSequences` (train.go). -/
def buildCRFSequences {D : Deps} (T : TrainDeps D) (annotations : List FormAnnotation) :
    Option (List (TrainingSequence T.Attrs) × List FormAnnotation) :=
  buildCRFSequencesLoop T annotations ([], [])

/-- Go `classifyFormsOnDoc` of train.go. -/
def classifyFormsOnDoc {D : Deps} (formModel : D.FormTypeModel) (doc : D.Doc) :
    List ClassifyResult :=
  (D.GetForms doc).map (fun form => { Form := D.formClassify formModel form, Fields := [] })

/-- Go `extractPageTrainingData` (train.go); with a nil form model the form
results are nil, read as empty. -/
def extractPageTrainingData {D : Deps} (annotations : List PageAnnotation)
    (formModel : Option D.FormTypeModel) :
    List D.Doc × List (List ClassifyResult) × List String × List String :=
  annotations.foldl
    (fun acc ann =>
      match D.LoadHTMLString ann.HTML with
      | .error _ => acc
      | .ok doc =>
        let results :=
          match formModel with
          | some m => classifyFormsOnDoc m doc
          | none => []
        (acc.1 ++ [doc], acc.2.1 ++ [results], acc.2.2.1 ++ [ann.URL],
          acc.2.2.2 ++ [ann.TypeFull]))
    ([], [], [], [])

/-- The flag `verbose` of `Train`: false for a nil config. -/
def trainVerbose (config : Option TrainConfig) : Bool :=
  match config with
  | some c => c.Verbose
  | none => false

/-- Go `Train` (train.go): the classifier (`none` is nil), the error, and the
trainer calls made. -/
def Train {D : Deps} (T : TrainDeps D) (dataDir : String) (config : Option TrainConfig) :
    Option ((Option (Classifier D) × Option String) × TrainLog) :=
  let verbose := trainVerbose config
  match T.IterAnnotations dataDir verbose with
  | .error err => some ((none, some ("dit: " ++ err)), [])
  | .ok annotations =>
    if annotations.length = 0 then
      some ((none, some ("dit: no annotations found in " ++ dataDir)), [])
    else
      let formAnnotations := filterFormAnnotated annotations
      let formData := extractFormTrainingData T formAnnotations
      let formModel := T.TrainFormType formData.1 formData.2 verbose
      let log : TrainLog := ["TrainFormType"]
      let fieldAnnotations := filterFieldAnnotated annotations
      let fieldStep : Option (Option D.FieldTypeModel × TrainLog) :=
        if fieldAnnotations.length > 0 then
          match buildCRFSequences T fieldAnnotations with
          | none => none
          | some seqs => some (some (T.TrainFieldType seqs.1 verbose), log ++ ["TrainFieldType"])
        else some (none, log)
      match fieldStep with
      | none => none
      | some (fieldModel, log) =>
        let pageStep : Option (Option PageTypeModel × TrainLog) :=
          if T.pageIndexExists dataDir then
            match T.IterPageAnnotations dataDir verbose with
            | .error _ => some (none, log)
            | .ok pageAnnotations =>
              if pageAnnotations.length > 0 then
                let data := extractPageTrainingData pageAnnotations (some formModel)
                match T.TrainPageType data.1 data.2.1 data.2.2.1 data.2.2.2 verbose with
                | none => none
                | some pageModel => some (some pageModel, log ++ ["TrainPageType"])
              else some (none, log)
          else some (none, log)
        match pageStep with
        | none => none
        | some (pageModel, log) =>
          some ((some { fc := some { FormModel := some formModel, FieldModel := fieldModel,
                                     PageModel := pageModel } }, none), log)

/-- Go `Evaluate`, form stage, the loop over `idx := range testIdx`: an index
outside `forms` or `labels` panics. -/
def formScoreLoop {D : Deps} (model : D.FormTypeModel) (forms : List D.Form)
    (labels : List String) : List Nat → EvalResult → Option EvalResult
  | [], result => some result
  | idx :: rest, result =>
    match forms[idx]?, labels[idx]? with
    | some form, some label =>
      let result :=
        if D.formClassify model form = label then
          { result with FormCorrect := result.FormCorrect + 1 }
        else result
      formScoreLoop model forms labels rest { result with FormTotal := result.FormTotal + 1 }
    | _, _ => none

/-- Go `Evaluate`, form stage, the loop over the folds. -/
def formFoldLoop {D : Deps} (T : TrainDeps D) (forms : List D.Form) (labels : List String) :
    List (List Nat) → EvalResult × TrainLog → Option (EvalResult × TrainLog)
  | [], s => some s
  | testIdx :: rest, s =>
    match makeTestSet forms.length testIdx with
    | none => none
    | some testSet =>
      match filterByIndex forms labels testSet false with
      | none => none
      | some train =>
        let model := T.TrainFormType train.1 train.2 false
        match formScoreLoop model forms labels testIdx s.1 with
        | none => none
        | some result => formFoldLoop T forms labels rest (result, s.2 ++ ["TrainFormType"])

/-- Go `Evaluate`, the block "Evaluate form types". -/
def evalFormStage {D : Deps} (T : TrainDeps D) (nFolds : Int)
    (annotations : List FormAnnotation) (s : EvalResult × TrainLog) :
    Option (EvalResult × TrainLog) :=
  let formAnnotations := filterFormAnnotated annotations
  if formAnnotations.length > 0 then
    let data := extractFormTrainingData T formAnnotations
    let groups := domainGroups T.GetDomain (formAnnotations.map (fun a => a.URL))
    match groupKFold T.rngGroups groups nFolds with
    | none => none
    | some folds =>
      match formFoldLoop T data.1 data.2 folds s with
      | none => none
      | some (result, log) =>
        if result.FormTotal > 0 then
          some ({ result with
            FormAccuracy := (result.FormCorrect : ℚ) / (result.FormTotal : ℚ) }, log)
        else some (result, log)
  else some s

/-- Go `Evaluate`, field stage, the loop over `j := range seq.Labels`; the
flag is `allCorrect`. -/
def scoreTokens (pred : List String) :
    List String → Nat → EvalResult × Bool → EvalResult × Bool
  | [], _, s => s
  | label :: rest, j, s =>
    if j < pred.length ∧ pred[j]? = some label then
      scoreTokens pred rest (j + 1)
        ({ s.1 with FieldCorrect := s.1.FieldCorrect + 1, FieldTotal := s.1.FieldTotal + 1 },
          s.2)
    else
      scoreTokens pred rest (j + 1) ({ s.1 with FieldTotal := s.1.FieldTotal + 1 }, false)

/-- Go `Evaluate`, field stage: the scoring of one held-out sequence with
gold labels `labels` and prediction `pred`. -/
def scoreSequence (pred labels : List String) (result : EvalResult) : EvalResult :=
  let s := scoreTokens pred labels 0 (result, true)
  let result :=
    if s.2 then { s.1 with SequenceCorrect := s.1.SequenceCorrect + 1 } else s.1
  { result with SequenceTotal := result.SequenceTotal + 1 }

/-- Go `Evaluate`, field stage, the loop that collects `trainSeqs`:
`testSet[i]` out of range panics. -/
def trainSeqsLoop {σ : Type} (testSet : List Bool) : List σ → Nat → List σ → Option (List σ)
  | [], _, trainSeqs => some trainSeqs
  | seq :: rest, i, trainSeqs =>
    match testSet[i]? with
    | none => none
    | some isTest =>
      trainSeqsLoop testSet rest (i + 1) (if !isTest then trainSeqs ++ [seq] else trainSeqs)

/-- Go `Evaluate`, field stage, the loop over `idx := range testIdx`. -/
def fieldScoreLoop {D : Deps} (T : TrainDeps D) (fieldModel : D.FieldTypeModel)
    (sequences : List (TrainingSequence T.Attrs)) : List Nat → EvalResult → Option EvalResult
  | [], result => some result
  | idx :: rest, result =>
    match sequences[idx]? with
    | none => none
    | some seq =>
      fieldScoreLoop T fieldModel sequences rest
        (scoreSequence (T.Predict fieldModel seq.Features) seq.Labels result)

/-- Go `Evaluate`, field stage, the loop over the folds. -/
def fieldFoldLoop {D : Deps} (T : TrainDeps D) (sequences : List (TrainingSequence T.Attrs)) :
    List (List Nat) → EvalResult × TrainLog → Option (EvalResult × TrainLog)
  | [], s => some s
  | testIdx :: rest, s =>
    match makeTestSet sequences.length testIdx with
    | none => none
    | some testSet =>
      match trainSeqsLoop testSet sequences 0 [] with
      | none => none
      | some trainSeqs =>
        let fieldModel := T.TrainFieldType trainSeqs false
        match fieldScoreLoop T fieldModel sequences testIdx s.1 with
        | none => none
        | some result => fieldFoldLoop T sequences rest (result, s.2 ++ ["TrainFieldType"])

/-- Go `Evaluate`, the block "Evaluate field types". -/
def evalFieldStage {D : Deps} (T : TrainDeps D) (nFolds : Int)
    (annotations : List FormAnnotation) (s : EvalResult × TrainLog) :
    Option (EvalResult × TrainLog) :=
  let fieldAnnotations := filterFieldAnnotated annotations
  if fieldAnnotations.length > 0 then
    match buildCRFSequences T fieldAnnotations with
    | none => none
    | some built =>
      let groups := domainGroups T.GetDomain (built.2.map (fun a => a.URL))
      match groupKFold T.rngGroups groups nFolds with
      | none => none
      | some folds =>
        match fieldFoldLoop T built.1 folds s with
        | none => none
        | some (result, log) =>
          let result :=
            if result.FieldTotal > 0 then
              { result with
                FieldAccuracy := (result.FieldCorrect : ℚ) / (result.FieldTotal : ℚ) }
            else result
          let result :=
            if result.SequenceTotal > 0 then
              { result with
                SequenceAccuracy := (result.SequenceCorrect : ℚ) / (result.SequenceTotal : ℚ) }
            else result
          some (result, log)
  else some s

/-- Go `filterPageByIndex` (train.go), the loop over `i := range docs`. -/
def filterPageByIndexLoop {δ : Type} (formResults : List (List ClassifyResult))
    (urls labels : List String) (testSet : List Bool) (isTest : Bool) :
    List δ → Nat → List δ × List (List ClassifyResult) × List String × List String →
      Option (List δ × List (List ClassifyResult) × List String × List String)
  | [], _, out => some out
  | doc :: rest, i, out =>
    match testSet[i]? with
    | none => none
    | some b =>
      if b = isTest then
        match formResults[i]?, urls[i]?, labels[i]? with
        | some fr, some url, some label =>
          filterPageByIndexLoop formResults urls labels testSet isTest rest (i + 1)
            (out.1 ++ [doc], out.2.1 ++ [fr], out.2.2.1 ++ [url], out.2.2.2 ++ [label])
        | _, _, _ => none
      else filterPageByIndexLoop formResults urls labels testSet isTest rest (i + 1) out

/-- Go `filterPageByIndex` (train.go). -/
def filterPageByIndex {δ : Type} (docs : List δ) (formResults : List (List ClassifyResult))
    (urls labels : List String) (testSet : List Bool) (isTest : Bool) :
    Option (List δ × List (List ClassifyResult) × List String × List String) :=
  filterPageByIndexLoop formResults urls labels testSet isTest docs 0 ([], [], [], [])

/-- Go `Evaluate`, page stage, the loop over `idx := range testIdx`. -/
def pageScoreLoop {D : Deps} (foldFormModel : D.FormTypeModel) (pageModel : PageTypeModel)
    (docs : List D.Doc) (labels : List String) : List Nat → EvalResult → Option EvalResult
  | [], result => some result
  | idx :: rest, result =>
    match docs[idx]?, labels[idx]? with
    | some doc, some label =>
      match pageModel.Classify D doc (classifyFormsOnDoc foldFormModel doc) with
      | none => none
      | some pageType =>
        let result :=
          if pageType = label then { result with PageCorrect := result.PageCorrect + 1 }
          else result
        pageScoreLoop foldFormModel pageModel docs labels rest
          { result with PageTotal := result.PageTotal + 1 }
    | _, _ => none

/-- Go `Evaluate`, page stage, the loop over the folds. The form model of a
fold is trained on the form annotations that `IterAnnotations` returns,
nil when it fails; `trainFormResults[i]` is overwritten for every training
document. -/
def pageFoldLoop {D : Deps} (T : TrainDeps D) (dataDir : String) (docs : List D.Doc)
    (formResults : List (List ClassifyResult)) (urls labels : List String) :
    List (List Nat) → EvalResult × TrainLog → Option (EvalResult × TrainLog)
  | [], s => some s
  | testIdx :: rest, s =>
    match makeTestSet docs.length testIdx with
    | none => none
    | some testSet =>
      match filterPageByIndex docs formResults urls labels testSet false with
      | none => none
      | some train =>
        let formAnns :=
          match T.IterAnnotations dataDir false with
          | .error _ => []
          | .ok anns => anns
        let formData := extractFormTrainingData T (filterFormAnnotated formAnns)
        let foldFormModel := T.TrainFormType formData.1 formData.2 false
        let trainFormResults := train.1.map (classifyFormsOnDoc foldFormModel)
        match T.TrainPageType train.1 trainFormResults train.2.2.1 train.2.2.2 false with
        | none => none
        | some pageModel =>
          match pageScoreLoop foldFormModel pageModel docs labels testIdx s.1 with
          | none => none
          | some result =>
            pageFoldLoop T dataDir docs formResults urls labels rest
              (result, s.2 ++ ["TrainFormType", "TrainPageType"])

/-- Go `Evaluate`, the block "Evaluate page types". -/
def evalPageStage {D : Deps} (T : TrainDeps D) (nFolds : Int) (dataDir : String)
    (verbose : Bool) (s : EvalResult × TrainLog) : Option (EvalResult × TrainLog) :=
  if T.pageIndexExists dataDir then
    match T.IterPageAnnotations dataDir verbose with
    | .error _ => some s
    | .ok pageAnnotations =>
      if pageAnnotations.length > 0 then
        let data := extractPageTrainingData (D := D) pageAnnotations none
        let groups := domainGroups T.GetDomain (pageAnnotations.map (fun a => a.URL))
        match groupKFold T.rngGroups groups nFolds with
        | none => none
        | some folds =>
          match pageFoldLoop T dataDir data.1 data.2.1 data.2.2.1 data.2.2.2 folds s with
          | none => none
          | some (result, log) =>
            if result.PageTotal > 0 then
              some ({ result with
                PageAccuracy := (result.PageCorrect : ℚ) / (result.PageTotal : ℚ) }, log)
            else some (result, log)
      else some s
  else some s

/-- The flag `verbose` of `Evaluate`: false for a nil config. -/
def evalVerbose (config : Option EvalConfig) : Bool :=
  match config with
  | some c => c.Verbose
  | none => false

/-- The fold count that `Evaluate` passes to `groupKFold`. -/
def evalFolds (config : Option EvalConfig) : Int :=
  match config with
  | some c => if c.Folds > 0 then c.Folds else 10
  | none => 10

/-- Go `Evaluate` (train.go): the result (`none` is nil), the error, and the
trainer calls made. -/
def Evaluate {D : Deps} (T : TrainDeps D) (dataDir : String) (config : Option EvalConfig) :
    Option ((Option EvalResult × Option String) × TrainLog) :=
  let nFolds := evalFolds config
  let verbose := evalVerbose config
  match T.IterAnnotations dataDir verbose with
  | .error err => some ((none, some ("dit: " ++ err)), [])
  | .ok annotations =>
    if annotations.length = 0 then
      some ((none, some ("dit: no annotations found in " ++ dataDir)), [])
    else
      match evalFormStage T nFolds annotations (EvalResult.zero, []) with
      | none => none
      | some s1 =>
        match evalFieldStage T nFolds annotations s1 with
        | none => none
        | some s2 =>
          match evalPageStage T nFolds dataDir verbose s2 with
          | none => none
          | some s3 => some ((some s3.1, none), s3.2)

/-- The effect of field scoring on a result: the field and sequence
counters grow, the correct ones by no more than the totals, and nothing
else changes. -/
def FieldStep (r r' : EvalResult) : Prop :=
  ∃ fc ft sc st, fc ≤ ft ∧ sc ≤ st ∧
    r' = { r with FieldCorrect := r.FieldCorrect + fc, FieldTotal := r.FieldTotal + ft,
                  SequenceCorrect := r.SequenceCorrect + sc,
                  SequenceTotal := r.SequenceTotal + st }

/-- The effect of page scoring on a result: the page counters grow, the
correct one by no more than the total, and nothing else changes. -/
def PageStep (r r' : EvalResult) : Prop :=
  ∃ c t, c ≤ t ∧
    r' = { r with PageCorrect := r.PageCorrect + c, PageTotal := r.PageTotal + t }

/-! ## Stand-ins for the dependencies of Train and Evaluate -/

/-- Stand-in dependencies of `Train` and `Evaluate` over `stubDeps`: the form
store yields `loaded`, there is no page data, a form has one field named
`username`, the domain of a URL is the URL, and the field model predicts
`other` for every field. -/
def stubTrainDeps (visit : GoMap String ℚ → GoMap String ℚ)
    (loaded : Except String (List FormAnnotation)) : TrainDeps (stubDeps visit) where
  Field := String
  Feat := String
  Attrs := String
  nilForm := ""
  IterAnnotations := fun _ _ => loaded
  pageIndexExists := fun _ => false
  IterPageAnnotations := fun _ _ => .ok []
  firstForm := fun doc => doc
  GetDomain := fun url => url
  GetFieldsToAnnotate := fun _ => ["username"]
  GetFormFeatures := fun _ _ fields => fields
  FeaturesToAttributes := fun feat => feat
  fieldName := fun field => field
  TrainFormType := fun _ _ _ => ()
  TrainFieldType := fun _ _ => ()
  Predict := fun _ attrs => attrs.map (fun _ => "other")
  TrainPageType := fun _ _ _ _ _ => some tiedModel
  rngGroups := id

/-- Three annotated forms of two domains: two login forms and a search form. -/
def sampleAnnotations : List FormAnnotation :=
  [ { FormHTML := "a", URL := "a.example", TypeFull := "login", FormAnnotated := true,
      FieldsAnnotated := true, FieldTypes := [], FieldTypesFull := [("username", "username")] },
    { FormHTML := "b", URL := "b.example", TypeFull := "search", FormAnnotated := true,
      FieldsAnnotated := false, FieldTypes := [], FieldTypesFull := [] },
    { FormHTML := "c", URL := "a.example", TypeFull := "login", FormAnnotated := true,
      FieldsAnnotated := true, FieldTypes := [], FieldTypesFull := [] } ]

/-! ## Descriptions of what buildCRFSequences builds -/

/-- The form and the fields of an annotation that `buildCRFSequences` keeps:
nothing when the form HTML does not parse or the form has no field to
annotate. -/
def keptFields {D : Deps} (T : TrainDeps D) (ann : FormAnnotation) :
    Option (D.Form × List T.Field) :=
  match D.LoadHTMLString ("<form>" ++ ann.FormHTML ++ "</form>") with
  | .error _ => none
  | .ok doc =>
    if (T.GetFieldsToAnnotate (T.firstForm doc)).length = 0 then none
    else some (T.firstForm doc, T.GetFieldsToAnnotate (T.firstForm doc))

/-- The sequence built from a kept annotation: the attributes of the raw
features of its fields, and the label of the field at each position. -/
def sequenceOf {D : Deps} (T : TrainDeps D) (ann : FormAnnotation) (form : D.Form)
    (fieldElems : List T.Field) : TrainingSequence T.Attrs :=
  { Features := (T.GetFormFeatures form ann.TypeFull fieldElems).map T.FeaturesToAttributes,
    Labels := (fieldElems.take (T.GetFormFeatures form ann.TypeFull fieldElems).length).map
      (fun el => fieldLabel ann (T.fieldName el)) }

/-- The kept annotations, in order, each with the sequence built from it. -/
def builtPairs {D : Deps} (T : TrainDeps D) (annotations : List FormAnnotation) :
    List (TrainingSequence T.Attrs × FormAnnotation) :=
  annotations.filterMap (fun ann =>
    (keptFields T ann).map (fun p => (sequenceOf T ann p.1 p.2, ann)))

/-- The distinct groups of the examples of a fold. -/
def foldGroups (groups : List Int) (fold : List Nat) : Finset Int :=
  (fold.filterMap (fun i => groups[i]?)).toFinset

/-- A stand-in training environment in which the form `<form>b</form>` has no
field to annotate and every other form has the fields `username` and
`password`. -/
def fieldsTrainDeps (loaded : Except String (List FormAnnotation)) : TrainDeps (stubDeps id) :=
  { stubTrainDeps id loaded with
    GetFieldsToAnnotate := fun (form : String) =>
      if form = "<form>b</form>" then [] else ["username", "password"] }

/-- Three field-annotated forms: one labelled through `FieldTypesFull`, one
without fields, one labelled through `FieldTypes` only. -/
def fieldAnnotations : List FormAnnotation :=
  [ { FormHTML := "a", URL := "a.example", TypeFull := "login", FormAnnotated := true,
      FieldsAnnotated := true, FieldTypes := [("username", "us")],
      FieldTypesFull := [("username", "username or email")] },
    { FormHTML := "b", URL := "b.example", TypeFull := "search", FormAnnotated := true,
      FieldsAnnotated := true, FieldTypes := [], FieldTypesFull := [] },
    { FormHTML := "c", URL := "a.example", TypeFull := "login", FormAnnotated := true,
      FieldsAnnotated := true, FieldTypes := [("password", "p1")], FieldTypesFull := [] } ]

/-! ## classifier/classifier.go: ClassifyPage and ClassifyPageProba -/

/-- Go `FormFieldClassifier.classifyFormsOnDoc` (classifier/classifier.go). -/
def FormFieldClassifier.classifyFormsOnDoc {D : Deps} (c : FormFieldClassifier D) (doc : D.Doc) :
    Option (List ClassifyResult) :=
  forEachForm (fun form => c.Classify form false) (D.GetForms doc)

/-- Go `FormFieldClassifier.ClassifyPage`; a nil `PageModel` panics. -/
def FormFieldClassifier.ClassifyPage {D : Deps} (c : FormFieldClassifier D) (doc : D.Doc) :
    Option String :=
  match c.classifyFormsOnDoc doc with
  | none => none
  | some formResults =>
    match c.PageModel with
    | none => none
    | some pageModel => pageModel.Classify D doc formResults

/-- Go `FormFieldClassifier.ClassifyPageProba`; a nil `PageModel` panics. -/
def FormFieldClassifier.ClassifyPageProba {D : Deps} (c : FormFieldClassifier D) (doc : D.Doc)
    (threshold : ℚ) : Option (GoMap String ℚ) :=
  match c.classifyFormsOnDoc doc with
  | none => none
  | some formResults =>
    match c.PageModel with
    | none => none
    | some pageModel =>
      match pageModel.ClassifyProba D doc formResults with
      | none => none
      | some proba => some (thresholdMap D.rngThreshold proba threshold)

/-- The list, in document order, of the form-type-only results of the forms
of a document. -/
def formTypeResults {D : Deps} (formModel : D.FormTypeModel) (doc : D.Doc) :
    List ClassifyResult :=
  (D.GetForms doc).map (fun form => { Form := D.formClassify formModel form, Fields := [] })

/-- A stand-in classifier over `stubDeps` with a form model and the page
model `tiedModel`. -/
def pageClassifier : FormFieldClassifier (stubDeps id) :=
  { FormModel := some (), FieldModel := none, PageModel := some tiedModel }


/-- A stand-in classifier over `rankDeps` with a form model and the page
model `skewedModel`. -/
def skewedClassifier : FormFieldClassifier (rankDeps id) :=
  { FormModel := some (), FieldModel := none, PageModel := some skewedModel }

/-! ## classifier/pagetype.go: TrainPageType -/

/-- Whether the extractor is a `PageURLExtractor`: the type assertion
`extractor.(PageURLExtractor)` of `TrainPageType`. -/
def isPageURLExtractor : PageFeatureExtractor → Bool
  | .PageURLExtractor _ => true
  | _ => false

/-- What `TrainPageType` fits for one pipeline: `allVectors[i]` (`none` is
nil), the vectorizers, `vecDims[i]` and the serialized pipeline. -/
structure FittedPipeline (P : PageDeps) where
  vectors : Option (List P.Vec)
  dictVec : Option P.DictVec
  tfidfVec : Option P.TfidfVec
  vecDim : Int
  serialized : SerializedPipeline P

/-- Go `TrainPageType`, case "dict": `data[j] = extractor.ExtractDict(doc,
formResults[j])`. -/
def trainData (P : PageDeps) (extractor : PageFeatureExtractor)
    (formResults : List (List ClassifyResult)) (docs : List P.Doc) :
    Option (List (Option (GoMap String FeatureValue))) :=
  rangeLoop (fun j doc => (formResults[j]?).map (fun fr => extractor.ExtractDict P doc fr))
    docs 0

/-- Go `TrainPageType`, case "tfidf": `corpus[j]`, with the URL of document
`j` injected into a `PageURLExtractor`. -/
def trainCorpus (P : PageDeps) (extractor : PageFeatureExtractor)
    (formResults : List (List ClassifyResult)) (urls : List String) (docs : List P.Doc) :
    Option (List String) :=
  rangeLoop (fun j doc =>
    if isPageURLExtractor extractor then
      match urls[j]?, formResults[j]? with
      | some url, some fr =>
        some ((PageFeatureExtractor.PageURLExtractor url).ExtractString P doc fr)
      | _, _ => none
    else (formResults[j]?).map (fun fr => extractor.ExtractString P doc fr))
    docs 0

/-- Go `TrainPageType`, the body of the loop over the pipelines. -/
def fitPipeline (P : PageDeps) (docs : List P.Doc) (formResults : List (List ClassifyResult))
    (urls : List String) (pipe : PageFeaturePipeline) : Option (FittedPipeline P) :=
  if pipe.VecType = "dict" then
    match trainData P pipe.Extractor formResults docs with
    | none => none
    | some data =>
      let fit := P.dictFitTransform data
      some { vectors := some fit.2, dictVec := some fit.1, tfidfVec := none,
             vecDim := P.dictVocabSize fit.1,
             serialized := { Name := pipe.Name,
                             ExtractorType := pageExtractorTypeName pipe.Extractor,
                             VecType := pipe.VecType, DictVec := some fit.1, TfidfVec := none } }
  else if pipe.VecType = "tfidf" then
    let stopWords := if pipe.UseEnglishStop then P.EnglishStopWords else pipe.StopWords
    match trainCorpus P pipe.Extractor formResults urls docs with
    | none => none
    | some corpus =>
      let fit := P.tfidfFitTransform pipe.NgramRange pipe.MinDF pipe.Binary pipe.Analyzer
        stopWords corpus
      some { vectors := some fit.2, dictVec := none, tfidfVec := some fit.1,
             vecDim := P.tfidfVocabSize fit.1,
             serialized := { Name := pipe.Name,
                             ExtractorType := pageExtractorTypeName pipe.Extractor,
                             VecType := pipe.VecType, DictVec := none, TfidfVec := some fit.1 } }
  else
    some { vectors := none, dictVec := none, tfidfVec := none, vecDim := 0,
           serialized := { Name := pipe.Name,
                           ExtractorType := pageExtractorTypeName pipe.Extractor,
                           VecType := pipe.VecType, DictVec := none, TfidfVec := none } }

/-- Go `TrainPageType`: `xData[j]` is the concatenation of `allVectors[i][j]`
over the pipelines `i`, for `j` below `n`. -/
def xDataOf (P : PageDeps) (allVectors : List (Option (List P.Vec))) (n : Nat) :
    Option (List P.Vec) :=
  rangeLoop (fun j _ =>
      (rangeLoop (fun _ vs => match vs with
          | none => none
          | some l => l[j]?) allVectors 0).map P.ConcatSparse)
    (List.range n) 0

/-- Go `TrainPageType`, the body of the loop that builds `classSet` and
`classes`. -/
def classStep (s : GoMap String Int × List String) (l : String) :
    GoMap String Int × List String :=
  match s.1.get? l with
  | some _ => s
  | none => (s.1.set l (s.2.length : Int), s.2 ++ [l])

/-- Go `TrainPageType`: `classSet` and `classes` after the loop over `labels`. -/
def classIndex (labels : List String) : GoMap String Int × List String :=
  labels.foldl classStep ([], [])

/-- Go `TrainPageType`: `y[j] = classSet[labels[j]]` for `j` below `n`. -/
def classTargets (classSet : GoMap String Int) (labels : List String) (n : Nat) :
    Option (List Int) :=
  rangeLoop (fun j _ => (labels[j]?).map (fun l => (classSet.get? l).getD 0)) (List.range n) 0

/-- Go `TrainPageType`: the largest `math.Abs(g)` over `newGrad`, from 0. -/
def maxGrad (newGrad : List ℚ) : ℚ :=
  newGrad.foldl (fun m g => if |g| > m then |g| else m) 0

/-- Go `TrainPageType`, the optimizer loop with `iters` iterations left;
reading `dir[i]`, `newGrad[i]` or `gradients[i]` out of range panics. -/
def optimizeLoop (P : PageDeps) (xData : List P.Vec) (y : List Int)
    (numClasses totalDim : Nat) (reg : ℚ) (numParams : Nat) :
    Nat → List ℚ → P.LBFGS → Option (List ℚ)
  | 0, params, _ => some params
  | iters + 1, params, lbfgs =>
    let obj := P.logRegObjective xData y params numClasses totalDim reg
    let d := P.computeDirection lbfgs obj.2 numParams
    let step := P.logRegLineSearch xData y params d.1 numClasses totalDim reg obj.1
    match rangeLoop (fun i _ =>
        match params[i]?, d.1[i]? with
        | some p, some di => some (p + step * di)
        | _, _ => none) (List.range numParams) 0 with
    | none => none
    | some params' =>
      let newGrad := (P.logRegObjective xData y params' numClasses totalDim reg).2
      match rangeLoop (fun i _ =>
          match params'[i]?, params[i]?, newGrad[i]?, obj.2[i]? with
          | some a, some b, some g', some g => some (a - b, g' - g)
          | _, _, _, _ => none) (List.range numParams) 0 with
      | none => none
      | some sy =>
        let lbfgs' := P.update d.2 (sy.map Prod.fst) (sy.map Prod.snd)
        if maxGrad newGrad < mkRat 1 100000 then some params'
        else optimizeLoop P xData y numClasses totalDim reg numParams iters params' lbfgs'

/-- Go `TrainPageType`, the loop that reads `Coef[c]` and `Intercept[c]` from
`params`: the slice `params[offset:offset+totalDim]` and the element
`params[offset+totalDim]`, with `offset = c * (totalDim + 1)`; out of range
panics. -/
def coefLoop (params : List ℚ) (totalDim numClasses : Nat) : Option (List (List ℚ × ℚ)) :=
  rangeLoop (fun c _ =>
      if c * (totalDim + 1) + totalDim ≤ params.length then
        (params[c * (totalDim + 1) + totalDim]?).map
          (fun b => ((params.drop (c * (totalDim + 1))).take totalDim, b))
      else none)
    (List.range numClasses) 0

/-- The parameters that the optimizer loop of `TrainPageType` ends with. -/
def trainedParams (P : PageDeps) (xData : List P.Vec) (y : List Int)
    (numClasses totalDim : Nat) (config : PageTypeTrainConfig) : Option (List ℚ) :=
  optimizeLoop P xData y numClasses totalDim (if config.C ≤ 0 then 5 else config.C)
    (numClasses * (totalDim + 1)) config.MaxIter.toNat
    (List.replicate (numClasses * (totalDim + 1)) 0) (P.newLogRegLBFGS 10)

/-- Go `TrainPageType` (classifier/pagetype.go): the numeric fields of the
model and its fitted pipelines; `none` is a panic. -/
def TrainPageType (P : PageDeps) (docs : List P.Doc) (formResults : List (List ClassifyResult))
    (urls : List String) (labels : List String) (config : PageTypeTrainConfig) :
    Option (PageTypeModel × PageTypeRuntime P) :=
  match rangeLoop (fun _ pipe => fitPipeline P docs formResults urls pipe)
      DefaultPageFeaturePipelines 0 with
  | none => none
  | some fitted =>
    match xDataOf P (fitted.map (fun f => f.vectors)) docs.length with
    | none => none
    | some xData =>
      match xData[0]? with
      | none => none
      | some x0 =>
        match classTargets (classIndex labels).1 labels docs.length with
        | none => none
        | some y =>
          match trainedParams P xData y (classIndex labels).2.length (P.Dim x0) config with
          | none => none
          | some params =>
            match coefLoop params (P.Dim x0) (classIndex labels).2.length with
            | none => none
            | some rows =>
              some ({ Classes := (classIndex labels).2,
                      Coef := rows.map Prod.fst,
                      Intercept := rows.map Prod.snd },
                    { Pipelines := fitted.map (fun f => f.serialized),
                      dictVecs := fitted.map (fun f => f.dictVec),
                      tfidfVecs := fitted.map (fun f => f.tfidfVec),
                      vecTypes := DefaultPageFeaturePipelines.map (fun pipe => pipe.VecType),
                      vecDims := fitted.map (fun f => f.vecDim) })

/-- The "page url" pipeline of `DefaultPageFeaturePipelines`. -/
def pageURLPipeline : PageFeaturePipeline :=
  { Name := "page url", Extractor := .PageURLExtractor "", VecType := "tfidf",
    NgramRange := (5, 6), MinDF := 2, Binary := true, Analyzer := "char_wb", StopWords := [],
    UseEnglishStop := false }

/-- The text that `PageURLExtractor{URL: url}.ExtractString` returns, in
words: empty for an empty URL, the URL itself when it does not parse, else
the normalized path, a space and the normalized query. -/
def urlText (P : PageDeps) (url : String) : String :=
  if url = "" then ""
  else
    match P.urlParse url with
    | .error _ => url
    | .ok u => P.normalizeURLPart u.1 ++ " " ++ P.normalizeURLPart u.2

/-! ## Body texts with characters of more than one byte -/

/-- The number of characters of UTF-8 text: its bytes that are not
continuation bytes `10xxxxxx`. -/
def runeCount (s : GoString) : Nat :=
  s.countP (fun b => decide (b.toNat / 64 ≠ 2))

/-- The UTF-8 encoding of the letter e with acute accent, two bytes. -/
def eAcute : GoString := [0xC3, 0xA9]

/-- A lowercase body text of 2503 characters in 5003 bytes: 2500 accented
letters followed by `404`. -/
def accentBody : GoString :=
  (List.replicate 2500 eAcute).flatten ++ ascii "404"

/-- A lowercase body text of 2501 characters in 5001 bytes: the letter `a`
followed by 2500 accented letters. -/
def splitBody : GoString :=
  ascii "a" ++ (List.replicate 2500 eAcute).flatten

/-! ## Evaluate, page stage: the form model of a fold -/

/-- The form annotations on which `Evaluate` trains the form model of a page
fold: the form-annotated ones among all that `IterAnnotations` returns. -/
def pageFoldFormAnnotations {D : Deps} (T : TrainDeps D) (dataDir : String) :
    List FormAnnotation :=
  filterFormAnnotated
    (match T.IterAnnotations dataDir false with
     | .error _ => []
     | .ok anns => anns)

/-- The form model that `Evaluate` trains for a page fold. -/
def pageFoldFormModel {D : Deps} (T : TrainDeps D) (dataDir : String) : D.FormTypeModel :=
  T.TrainFormType (extractFormTrainingData T (pageFoldFormAnnotations T dataDir)).1
    (extractFormTrainingData T (pageFoldFormAnnotations T dataDir)).2 false

/-- Two annotated pages of two domains. -/
def samplePages : List PageAnnotation :=
  [ { HTML := "<form></form>", URL := "a.example", Type_ := "login", TypeFull := "login" },
    { HTML := "p", URL := "b.example", Type_ := "search", TypeFull := "search" } ]

/-- The stand-in dependencies `stubTrainDeps` over the form store
`sampleAnnotations`, with a page store that holds `samplePages`. -/
def pageTrainDeps : TrainDeps (stubDeps id) :=
  { stubTrainDeps id (.ok sampleAnnotations) with
    pageIndexExists := fun _ => true
    IterPageAnnotations := fun _ _ => .ok samplePages }

/-! # Theorems -/

/-! ## Lemmas on Go maps -/

section GoMapLemmas

variable {κ ν : Type} [DecidableEq κ]

theorem GoMap.get?_nil (k : κ) : GoMap.get? ([] : GoMap κ ν) k = none := rfl

theorem GoMap.get?_cons (e : κ × ν) (m : GoMap κ ν) (k : κ) :
    GoMap.get? (e :: m) k = if e.1 = k then some e.2 else GoMap.get? m k := by
  unfold GoMap.get?
  by_cases h : e.1 = k <;> simp [List.find?_cons, h]

theorem GoMap.get?_filter_ne (m : GoMap κ ν) (k k' : κ) (h : k' ≠ k) :
    GoMap.get? (m.filter (fun e => !decide (e.1 = k))) k' = GoMap.get? m k' := by
  induction m with
  | nil => rfl
  | cons e m ih =>
    by_cases hk : e.1 = k
    · have hne : ¬ e.1 = k' := fun h2 => h (h2.symm.trans hk)
      rw [List.filter_cons, GoMap.get?_cons, if_neg hne]
      simpa [hk] using ih
    · rw [List.filter_cons]
      simp only [hk, decide_False, Bool.not_false, if_true]
      rw [GoMap.get?_cons, GoMap.get?_cons, ih]

theorem GoMap.get?_set (m : GoMap κ ν) (k k' : κ) (v : ν) :
    GoMap.get? (m.set k v) k' = if k' = k then some v else GoMap.get? m k' := by
  unfold GoMap.set
  rw [GoMap.get?_cons]
  by_cases h : k' = k
  · simp [h]
  · have h2 : ¬ k = k' := fun e => h e.symm
    rw [if_neg h2, if_neg h]
    exact GoMap.get?_filter_ne m k k' h

theorem GoMap.get?_eq_none_of_not_mem (m : GoMap κ ν) (k : κ)
    (h : k ∉ m.map Prod.fst) : GoMap.get? m k = none := by
  induction m with
  | nil => rfl
  | cons e m ih =>
    simp only [List.map_cons, List.mem_cons, not_or] at h
    rw [GoMap.get?_cons, if_neg (fun e2 => h.1 e2.symm)]
    exact ih h.2

theorem GoMap.get?_eq_some_iff (m : GoMap κ ν) (hm : m.WF) (k : κ) (v : ν) :
    GoMap.get? m k = some v ↔ (k, v) ∈ m := by
  induction m with
  | nil => simp [GoMap.get?_nil]
  | cons e m ih =>
    have hnd : e.1 ∉ m.map Prod.fst ∧ (m.map Prod.fst).Nodup := by
      simpa [GoMap.WF] using hm
    rw [GoMap.get?_cons]
    by_cases h : e.1 = k
    · rw [if_pos h]
      constructor
      · intro hv
        have : e.2 = v := by simpa using hv
        rw [← this, ← h]
        exact List.mem_cons_self _ _
      · intro hmem
        rcases List.mem_cons.1 hmem with heq | hin
        · rw [← heq]
        · exfalso
          apply hnd.1
          rw [h]
          exact List.mem_map.2 ⟨(k, v), hin, rfl⟩
    · rw [if_neg h, ih hnd.2]
      constructor
      · intro hin; exact List.mem_cons_of_mem _ hin
      · intro hmem
        rcases List.mem_cons.1 hmem with heq | hin
        · exfalso; apply h; rw [← heq]
        · exact hin

theorem GoMap.WF_set (m : GoMap κ ν) (hm : m.WF) (k : κ) (v : ν) : (m.set k v).WF := by
  unfold GoMap.WF GoMap.set
  rw [List.map_cons, List.nodup_cons]
  constructor
  · intro hin
    rcases List.mem_map.1 hin with ⟨e, he, hk⟩
    have := (List.mem_filter.1 he).2
    simp at this
    exact this hk
  · exact (List.Nodup.sublist ((List.filter_sublist m).map Prod.fst) hm)

omit [DecidableEq κ] in
theorem GoMap.WF_of_perm {m m' : GoMap κ ν} (hp : m'.Perm m) (hm : m.WF) : m'.WF := by
  unfold GoMap.WF at *
  exact ((hp.map Prod.fst).nodup_iff).2 hm

theorem GoMap.mem_keys_set (m : GoMap κ ν) (k k' : κ) (v : ν) :
    k' ∈ (m.set k v).map Prod.fst ↔ k' = k ∨ k' ∈ m.map Prod.fst := by
  unfold GoMap.set
  simp only [List.map_cons, List.mem_cons, List.mem_map, List.mem_filter]
  constructor
  · rintro (h | ⟨e, ⟨he, _⟩, hk⟩)
    · exact Or.inl h
    · exact Or.inr ⟨e, he, hk⟩
  · rintro (h | ⟨e, he, hk⟩)
    · exact Or.inl h
    · by_cases hkk : k' = k
      · exact Or.inl hkk
      · refine Or.inr ⟨e, ⟨he, ?_⟩, hk⟩
        simp [hk, hkk]

end GoMapLemmas

/-! ## thresholdMap -/

theorem thresholdMap_loop_WF (t : ℚ) (l acc : GoMap String ℚ) (hacc : acc.WF) :
    (l.foldl (thresholdStep t) acc).WF := by
  induction l generalizing acc with
  | nil => exact hacc
  | cons e l ih =>
    rw [List.foldl_cons]
    apply ih
    unfold thresholdStep
    split
    · exact GoMap.WF_set acc hacc _ _
    · exact hacc

theorem thresholdMap_loop_get? (t : ℚ) (l acc : GoMap String ℚ) (hl : l.WF) (k : String) :
    GoMap.get? (l.foldl (thresholdStep t) acc) k =
      match GoMap.get? l k with
      | some v => if t ≤ v then some v else GoMap.get? acc k
      | none => GoMap.get? acc k := by
  induction l generalizing acc with
  | nil => rfl
  | cons e l ih =>
    have hnd : e.1 ∉ l.map Prod.fst ∧ (l.map Prod.fst).Nodup := by
      simpa [GoMap.WF] using hl
    rw [List.foldl_cons, ih _ hnd.2, GoMap.get?_cons]
    by_cases hk : e.1 = k
    · have hnone : GoMap.get? l k = none :=
        GoMap.get?_eq_none_of_not_mem l k (hk ▸ hnd.1)
      rw [hnone, if_pos hk]
      unfold thresholdStep
      by_cases hv : t ≤ e.2
      · simp [hv, GoMap.get?_set, hk]
      · simp [hv]
    · rw [if_neg hk]
      have hstep : GoMap.get? (thresholdStep t acc e) k = GoMap.get? acc k := by
        unfold thresholdStep
        split
        · rw [GoMap.get?_set, if_neg (fun h => hk h.symm)]
        · rfl
      rw [hstep]

/-- C1. `thresholdMap(m, t)` is `m` itself when `t <= 0`; when `t > 0` it is a
map whose entries are exactly the entries `(k, v)` of `m` with `v >= t`: the
entries with probability `< t` are removed and no surviving value changes. -/
theorem thresholdMap_spec (rng : GoMap String ℚ → GoMap String ℚ) (hr : RangeOrder rng)
    (m : GoMap String ℚ) (hm : m.WF) (t : ℚ) :
    (t ≤ 0 → thresholdMap rng m t = m) ∧
    (0 < t → (thresholdMap rng m t).WF ∧
      (∀ k v, (k, v) ∈ thresholdMap rng m t ↔ ((k, v) ∈ m ∧ t ≤ v)) ∧
      (∀ k v, GoMap.get? (thresholdMap rng m t) k = some v ↔
        (GoMap.get? m k = some v ∧ ¬ v < t))) := by
  constructor
  · intro ht
    unfold thresholdMap
    rw [if_pos ht]
  · intro ht
    have hnt : ¬ t ≤ 0 := not_le.2 ht
    have hrw : thresholdMap rng m t = (rng m).foldl (thresholdStep t) [] := by
      unfold thresholdMap
      rw [if_neg hnt]
    have hwf : (rng m).WF := GoMap.WF_of_perm (hr m) hm
    have hres : (thresholdMap rng m t).WF := by
      rw [hrw]
      exact thresholdMap_loop_WF t _ _ List.nodup_nil
    have hget : ∀ k v, GoMap.get? (thresholdMap rng m t) k = some v ↔
        ((k, v) ∈ m ∧ t ≤ v) := by
      intro k v
      rw [hrw, thresholdMap_loop_get? t _ _ hwf k]
      rw [← (hr m).mem_iff, ← GoMap.get?_eq_some_iff _ hwf]
      cases hg : GoMap.get? (rng m) k with
      | none => simp [GoMap.get?_nil]
      | some w =>
        by_cases hw : t ≤ w
        · simp only [hw, if_true, Option.some.injEq]
          constructor
          · intro h; subst h; exact ⟨rfl, hw⟩
          · intro h; exact h.1
        · simp only [hw, if_false, GoMap.get?_nil]
          constructor
          · intro h; cases h
          · intro h
            have : w = v := by simpa using h.1
            exact absurd (this ▸ h.2) hw
    refine ⟨hres, ?_, ?_⟩
    · intro k v
      rw [← GoMap.get?_eq_some_iff _ hres]
      exact hget k v
    · intro k v
      rw [hget k v, GoMap.get?_eq_some_iff _ hm, not_lt]

/-- Witness of `thresholdMap_spec`: a two-entry map visited in reverse order,
filtered at threshold 1/2. -/
theorem thresholdMap_spec_witness :
    RangeOrder (List.reverse : GoMap String ℚ → GoMap String ℚ) ∧
    GoMap.WF [("login", mkRat 3 4), ("search", mkRat 1 4)] ∧
    thresholdMap List.reverse [("login", mkRat 3 4), ("search", mkRat 1 4)] (mkRat 1 2)
      = [("login", mkRat 3 4)] ∧
    ((mkRat 1 2 ≤ 0 → thresholdMap List.reverse [("login", mkRat 3 4), ("search", mkRat 1 4)]
        (mkRat 1 2) = [("login", mkRat 3 4), ("search", mkRat 1 4)]) ∧
    (0 < mkRat 1 2 →
      (thresholdMap List.reverse [("login", mkRat 3 4), ("search", mkRat 1 4)] (mkRat 1 2)).WF ∧
      (∀ k v, (k, v) ∈ thresholdMap List.reverse [("login", mkRat 3 4), ("search", mkRat 1 4)]
          (mkRat 1 2) ↔
        ((k, v) ∈ [("login", mkRat 3 4), ("search", mkRat 1 4)] ∧ mkRat 1 2 ≤ v)) ∧
      (∀ k v, GoMap.get? (thresholdMap List.reverse
          [("login", mkRat 3 4), ("search", mkRat 1 4)] (mkRat 1 2)) k = some v ↔
        (GoMap.get? [("login", mkRat 3 4), ("search", mkRat 1 4)] k = some v ∧
          ¬ v < mkRat 1 2)))) :=
  ⟨fun l => List.reverse_perm l, by decide, by decide,
    thresholdMap_spec List.reverse (fun l => List.reverse_perm l)
      [("login", mkRat 3 4), ("search", mkRat 1 4)] (by decide) (mkRat 1 2)⟩
/-! ## groupKFold -/

theorem uniqueGroups_WF (groups : List Int) (acc : GoMap Int Bool) (hacc : acc.WF) :
    (groups.foldl (fun m g => GoMap.set m g true) acc).WF := by
  induction groups generalizing acc with
  | nil => exact hacc
  | cons g groups ih => exact ih _ (GoMap.WF_set acc hacc g true)

theorem uniqueGroups_mem (groups : List Int) (acc : GoMap Int Bool) (g : Int) :
    g ∈ (groups.foldl (fun m g => GoMap.set m g true) acc).map Prod.fst ↔
      g ∈ groups ∨ g ∈ acc.map Prod.fst := by
  induction groups generalizing acc with
  | nil => simp
  | cons a groups ih =>
    rw [List.foldl_cons, ih, GoMap.mem_keys_set, List.mem_cons]
    tauto

theorem groupToFoldLoop_spec (k : Nat) (hk : k ≠ 0) (l : List Int) (hl : l.Nodup) (i : Nat)
    (m : GoMap Int Int) :
    ∃ m', groupToFoldLoop (k : Int) l i m = some m' ∧
      ∀ g, GoMap.get? m' g =
        if g ∈ l then some (((i + l.indexOf g) % k : Nat) : Int) else GoMap.get? m g := by
  induction l generalizing i m with
  | nil => exact ⟨m, rfl, fun g => by simp⟩
  | cons a l ih =>
    have hk' : ¬ (k : Int) = 0 := by exact_mod_cast hk
    rw [List.nodup_cons] at hl
    obtain ⟨m', hm', hget⟩ := ih hl.2 (i + 1) (m.set a (Int.tmod (i : Int) k))
    refine ⟨m', ?_, ?_⟩
    · simp only [groupToFoldLoop, hk', if_false]
      exact hm'
    · intro g
      rw [hget g]
      by_cases hga : g = a
      · subst hga
        simp only [hl.1, if_false, GoMap.get?_set, if_true, List.mem_cons, true_or,
          List.indexOf_cons_self, Nat.add_zero, Int.ofNat_tmod]
      · by_cases hgl : g ∈ l
        · have : i + 1 + List.indexOf g l = i + (List.indexOf g l).succ := by omega
          simp [hgl, hga, List.indexOf_cons_ne _ (Ne.symm hga), this]
        · simp [hgl, hga, GoMap.get?_set]

theorem appendLoop_spec (groupToFold : GoMap Int Int) (fi : Int → Nat) (rest : List Int)
    (i : Nat) (folds : List (List Nat))
    (h : ∀ g ∈ rest, (GoMap.get? groupToFold g).getD 0 = (fi g : Int) ∧ fi g < folds.length) :
    ∃ res, appendLoop groupToFold rest i folds = some res ∧ res.length = folds.length ∧
      ∀ f, f < folds.length →
        res.getD f [] =
          folds.getD f [] ++ ((rest.enumFrom i).filter (fun p => decide (fi p.2 = f))).map Prod.fst := by
  induction rest generalizing i folds with
  | nil => exact ⟨folds, rfl, rfl, fun f _ => by simp⟩
  | cons g rest ih =>
    obtain ⟨hg, hlt⟩ := h g (List.mem_cons_self _ _)
    have hrest : ∀ g' ∈ rest, (GoMap.get? groupToFold g').getD 0 = (fi g' : Int) ∧
        fi g' < (folds.set (fi g) (folds.getD (fi g) [] ++ [i])).length := by
      intro g' hg'
      rw [List.length_set]
      exact h g' (List.mem_cons_of_mem _ hg')
    obtain ⟨res, hres, hlen, hspec⟩ := ih (i + 1) _ hrest
    refine ⟨res, ?_, ?_, ?_⟩
    · simp only [appendLoop, hg, Int.toNat_ofNat, Int.ofNat_nonneg, hlt, and_self, if_true]
      exact hres
    · rw [hlen, List.length_set]
    · intro f hf
      rw [hspec f (by rw [List.length_set]; exact hf)]
      by_cases hfg : fi g = f
      · subst hfg
        simp [List.getD_eq_getElem?_getD, List.getElem?_set, hlt, List.enumFrom_cons]
      · simp [List.getD_eq_getElem?_getD, List.getElem?_set, hfg, List.enumFrom_cons]

theorem sortedGroupsOf_nodup (rng : GoMap Int Bool → GoMap Int Bool) (hr : RangeOrder rng)
    (groups : List Int) : (sortedGroupsOf rng groups).Nodup := by
  unfold sortedGroupsOf
  exact (((hr _).map Prod.fst).nodup_iff).2 (uniqueGroups_WF groups [] List.nodup_nil)

theorem mem_sortedGroupsOf (rng : GoMap Int Bool → GoMap Int Bool) (hr : RangeOrder rng)
    (groups : List Int) (g : Int) : g ∈ sortedGroupsOf rng groups ↔ g ∈ groups := by
  unfold sortedGroupsOf
  rw [((hr _).map Prod.fst).mem_iff, uniqueGroups_mem]
  simp

theorem sortedGroupsOf_length (rng : GoMap Int Bool → GoMap Int Bool) (hr : RangeOrder rng)
    (groups : List Int) : (sortedGroupsOf rng groups).length = groups.toFinset.card := by
  rw [List.card_toFinset]
  apply List.Perm.length_eq
  rw [List.perm_ext_iff_of_nodup (sortedGroupsOf_nodup rng hr groups) (List.nodup_dedup groups)]
  intro g
  rw [mem_sortedGroupsOf rng hr, List.mem_dedup]

theorem groupKFold_unfold (rng : GoMap Int Bool → GoMap Int Bool) (groups : List Int)
    (nFolds : Int) :
    groupKFold rng groups nFolds =
      match groupToFoldLoop
          (if nFolds > ((sortedGroupsOf rng groups).length : Int)
            then ((sortedGroupsOf rng groups).length : Int) else nFolds)
          (sortedGroupsOf rng groups) 0 [] with
      | none => none
      | some groupToFold =>
        if (if nFolds > ((sortedGroupsOf rng groups).length : Int)
            then ((sortedGroupsOf rng groups).length : Int) else nFolds) < 0 then none
        else appendLoop groupToFold groups 0
          (List.replicate
            (if nFolds > ((sortedGroupsOf rng groups).length : Int)
              then ((sortedGroupsOf rng groups).length : Int) else nFolds).toNat []) := rfl

theorem clamp_eq_foldCount (rng : GoMap Int Bool → GoMap Int Bool) (groups : List Int)
    (nFolds : Int) (hn : 1 ≤ nFolds) :
    (if nFolds > ((sortedGroupsOf rng groups).length : Int)
      then ((sortedGroupsOf rng groups).length : Int) else nFolds)
      = (foldCount rng groups nFolds : Int) := by
  unfold foldCount
  split <;> omega

/-- What `groupKFold` returns for `nFolds >= 1`: fold `f` holds, in increasing
order, the indices of the examples whose group is assigned fold `f`. -/
theorem groupKFold_eq (rng : GoMap Int Bool → GoMap Int Bool) (hr : RangeOrder rng)
    (groups : List Int) (nFolds : Int) (hn : 1 ≤ nFolds) :
    ∃ folds, groupKFold rng groups nFolds = some folds ∧
      folds.length = foldCount rng groups nFolds ∧
      ∀ f, f < folds.length →
        folds.getD f [] =
          ((groups.enumFrom 0).filter
            (fun p => decide (foldOf rng groups nFolds p.2 = f))).map Prod.fst := by
  rw [groupKFold_unfold, clamp_eq_foldCount rng groups nFolds hn]
  by_cases hk : foldCount rng groups nFolds = 0
  · have hs : sortedGroupsOf rng groups = [] := by
      unfold foldCount at hk
      apply List.eq_nil_of_length_eq_zero
      omega
    have hg : groups = [] := by
      apply List.eq_nil_iff_forall_not_mem.2
      intro g hg
      have := (mem_sortedGroupsOf rng hr groups g).2 hg
      rw [hs] at this
      exact absurd this (List.not_mem_nil g)
    rw [hk, hs, hg]
    exact ⟨[], rfl, rfl, fun f hf => absurd hf (Nat.not_lt_zero f)⟩
  · obtain ⟨gtf, hgtf, hget⟩ := groupToFoldLoop_spec (foldCount rng groups nFolds) hk
      (sortedGroupsOf rng groups) (sortedGroupsOf_nodup rng hr groups) 0 []
    have hcond : ∀ g ∈ groups,
        (GoMap.get? gtf g).getD 0 = (foldOf rng groups nFolds g : Int) ∧
          foldOf rng groups nFolds g
            < (List.replicate (foldCount rng groups nFolds) ([] : List Nat)).length := by
      intro g hg
      rw [hget g, if_pos ((mem_sortedGroupsOf rng hr groups g).2 hg), List.length_replicate]
      constructor
      · simp [foldOf]
      · exact Nat.mod_lt _ (Nat.pos_of_ne_zero hk)
    obtain ⟨res, hres, hlen, hspec⟩ :=
      appendLoop_spec gtf (foldOf rng groups nFolds) groups 0 _ hcond
    rw [List.length_replicate] at hlen
    refine ⟨res, ?_, hlen, ?_⟩
    · rw [hgtf]
      simp only [Int.toNat_ofNat]
      rw [if_neg (by omega)]
      exact hres
    · intro f hf
      rw [hspec f (by rw [List.length_replicate, ← hlen]; exact hf)]
      have hf' : f < foldCount rng groups nFolds := hlen ▸ hf
      simp [List.getD_eq_getElem?_getD, List.getElem?_replicate, hf']

theorem mem_enum_filter_fst (groups : List Int) (P : Int → Prop) [DecidablePred P] (i : Nat) :
    i ∈ ((groups.enumFrom 0).filter (fun p => decide (P p.2))).map Prod.fst ↔
      ∃ g, groups[i]? = some g ∧ P g := by
  simp only [List.mem_map, List.mem_filter, decide_eq_true_eq, Prod.exists,
    List.mk_mem_enumFrom_iff_le_and_getElem?_sub, Nat.zero_le, true_and, Nat.sub_zero,
    exists_and_right, exists_eq_right]

theorem nodup_enum_filter_fst (groups : List Int) (p : Nat × Int → Bool) :
    (((groups.enumFrom 0).filter p).map Prod.fst).Nodup := by
  apply List.Nodup.sublist ((List.filter_sublist _).map Prod.fst)
  rw [List.enumFrom_map_fst]
  exact List.nodup_range' 0 groups.length

/-- The folds of `groupKFold` by membership: index `i` is in fold `f` exactly
when example `i` exists and its group is assigned fold `f`. -/
theorem groupKFold_mem (rng : GoMap Int Bool → GoMap Int Bool) (hr : RangeOrder rng)
    (groups : List Int) (nFolds : Int) (hn : 1 ≤ nFolds) :
    ∃ folds, groupKFold rng groups nFolds = some folds ∧
      folds.length = foldCount rng groups nFolds ∧
      (∀ f, f < folds.length → (folds.getD f []).Nodup) ∧
      ∀ f i, f < folds.length →
        (i ∈ folds.getD f [] ↔ ∃ g, groups[i]? = some g ∧ foldOf rng groups nFolds g = f) := by
  obtain ⟨folds, h1, h2, h3⟩ := groupKFold_eq rng hr groups nFolds hn
  refine ⟨folds, h1, h2, ?_, ?_⟩
  · intro f hf
    rw [h3 f hf]
    exact nodup_enum_filter_fst groups _
  · intro f i hf
    rw [h3 f hf]
    exact mem_enum_filter_fst groups (fun g => foldOf rng groups nFolds g = f) i

/-! ## makeTestSet and filterByIndex -/

theorem makeTestSetLoop_spec (l : List Nat) (set : List Bool) (h : ∀ i ∈ l, i < set.length) :
    ∃ s, makeTestSetLoop l set = some s ∧ s.length = set.length ∧
      ∀ j, s[j]? = some true ↔ (set[j]? = some true ∨ j ∈ l) := by
  induction l generalizing set with
  | nil => exact ⟨set, rfl, rfl, fun j => by simp⟩
  | cons i l ih =>
    have hi : i < set.length := h i (List.mem_cons_self _ _)
    have hl : ∀ j ∈ l, j < (set.set i true).length := by
      intro j hj
      rw [List.length_set]
      exact h j (List.mem_cons_of_mem _ hj)
    obtain ⟨s, hs, hlen, hspec⟩ := ih (set.set i true) hl
    refine ⟨s, ?_, ?_, ?_⟩
    · simp only [makeTestSetLoop, hi, if_true]
      exact hs
    · rw [hlen, List.length_set]
    · intro j
      rw [hspec j, List.getElem?_set, List.mem_cons]
      by_cases hij : i = j
      · subst hij
        simp [hi]
      · have hji : ¬ j = i := fun e => hij e.symm
        simp [hij, hji]

theorem makeTestSet_spec (n : Nat) (testIdx : List Nat) (h : ∀ i ∈ testIdx, i < n) :
    ∃ s, makeTestSet n testIdx = some s ∧ s.length = n ∧
      ∀ j, s[j]? = some true ↔ j ∈ testIdx := by
  have h' : ∀ i ∈ testIdx, i < (List.replicate n false).length := by
    intro i hi
    rw [List.length_replicate]
    exact h i hi
  obtain ⟨s, hs, hlen, hspec⟩ := makeTestSetLoop_spec testIdx (List.replicate n false) h'
  refine ⟨s, hs, by rw [hlen, List.length_replicate], ?_⟩
  intro j
  rw [hspec j]
  simp [List.getElem?_replicate]

theorem filterByIndexLoop_spec {α β : Type} (labels : List β) (testSet : List Bool)
    (isTest : Bool) (rest : List α) (i : Nat) (out : List α × List β)
    (h1 : i + rest.length ≤ testSet.length) (h2 : i + rest.length ≤ labels.length) :
    ∃ res, filterByIndexLoop labels testSet isTest rest i out = some res ∧
      ∀ x, x ∈ res.1 ↔ x ∈ out.1 ∨ ∃ j, rest[j]? = some x ∧ testSet[i + j]? = some isTest := by
  induction rest generalizing i out with
  | nil => exact ⟨out, rfl, fun x => by simp⟩
  | cons form rest ih =>
    rw [List.length_cons] at h1 h2
    have ht : i < testSet.length := by omega
    have hl : i < labels.length := by omega
    have hsplit : ∀ x, (∃ j, (form :: rest)[j]? = some x ∧ testSet[i + j]? = some isTest) ↔
        ((form = x ∧ testSet[i] = isTest) ∨
          ∃ j, rest[j]? = some x ∧ testSet[i + 1 + j]? = some isTest) := by
      intro x
      constructor
      · rintro ⟨j, hj1, hj2⟩
        cases j with
        | zero =>
          left
          simp only [List.getElem?_cons_zero, Option.some.injEq] at hj1
          rw [Nat.add_zero, List.getElem?_eq_getElem ht] at hj2
          exact ⟨hj1, Option.some.inj hj2⟩
        | succ j =>
          right
          refine ⟨j, by simpa using hj1, ?_⟩
          rw [← hj2]
          congr 1
          omega
      · rintro (⟨h3, h4⟩ | ⟨j, hj1, hj2⟩)
        · refine ⟨0, by simp [h3], ?_⟩
          rw [Nat.add_zero, List.getElem?_eq_getElem ht, h4]
        · refine ⟨j + 1, by simpa using hj1, ?_⟩
          rw [← hj2]
          congr 1
          omega
    by_cases hb : testSet[i] = isTest
    · obtain ⟨res, hres, hspec⟩ := ih (i + 1) (out.1 ++ [form], out.2 ++ [labels[i]])
        (by omega) (by omega)
      refine ⟨res, ?_, ?_⟩
      · simp only [filterByIndexLoop, List.getElem?_eq_getElem ht, List.getElem?_eq_getElem hl,
          hb, if_true]
        exact hres
      · intro x
        rw [hspec x, hsplit x]
        simp only [List.mem_append, List.mem_singleton, hb, and_true]
        constructor
        · rintro ((h | h) | h)
          · exact Or.inl h
          · exact Or.inr (Or.inl h.symm)
          · exact Or.inr (Or.inr h)
        · rintro (h | h | h)
          · exact Or.inl (Or.inl h)
          · exact Or.inl (Or.inr h.symm)
          · exact Or.inr h
    · obtain ⟨res, hres, hspec⟩ := ih (i + 1) out (by omega) (by omega)
      refine ⟨res, ?_, ?_⟩
      · simp only [filterByIndexLoop, List.getElem?_eq_getElem ht, hb, if_false]
        exact hres
      · intro x
        rw [hspec x, hsplit x]
        simp [hb]

theorem filterByIndex_spec {α β : Type} (forms : List α) (labels : List β)
    (testSet : List Bool) (isTest : Bool)
    (h1 : forms.length ≤ testSet.length) (h2 : forms.length ≤ labels.length) :
    ∃ res, filterByIndex forms labels testSet isTest = some res ∧
      ∀ x, x ∈ res.1 ↔ ∃ j : Nat, forms[j]? = some x ∧ testSet[j]? = some isTest := by
  obtain ⟨res, hres, hspec⟩ := filterByIndexLoop_spec labels testSet isTest forms 0 ([], [])
    (by omega) (by omega)
  refine ⟨res, hres, ?_⟩
  intro x
  rw [hspec x]
  simp

/-- A fold of `groupKFold` as a list element: it sits at some position `f`. -/
theorem fold_position (folds : List (List Nat)) (fold : List Nat) (h : fold ∈ folds) :
    ∃ f, f < folds.length ∧ folds.getD f [] = fold := by
  obtain ⟨f, hf, hfold⟩ := List.getElem_of_mem h
  exact ⟨f, hf, by rw [List.getD_eq_getElem _ _ hf, hfold]⟩

/-- The training set that `Evaluate` builds for a fold (`makeTestSet`, then
`filterByIndex` with `isTest = false`), here over the group ids of the
examples: it holds exactly the group ids of the examples outside the fold. -/
theorem fold_train_spec (groups : List Int) (fold : List Nat)
    (h : ∀ i ∈ fold, i < groups.length) :
    ∃ testSet train, makeTestSet groups.length fold = some testSet ∧
      filterByIndex groups groups testSet false = some train ∧
      ∀ g, g ∈ train.1 ↔ ∃ j : Nat, groups[j]? = some g ∧ j ∉ fold := by
  obtain ⟨testSet, hts, hlen, hspec⟩ := makeTestSet_spec groups.length fold h
  obtain ⟨train, htr, htrain⟩ := filterByIndex_spec groups groups testSet false
    (by omega) (by omega)
  refine ⟨testSet, train, hts, htr, ?_⟩
  intro g
  rw [htrain g]
  constructor
  · rintro ⟨j, hj1, hj2⟩
    refine ⟨j, hj1, ?_⟩
    intro hin
    rw [(hspec j).2 hin] at hj2
    cases hj2
  · rintro ⟨j, hj1, hj2⟩
    refine ⟨j, hj1, ?_⟩
    have hjlt : j < testSet.length := by
      rw [hlen]
      by_contra hge
      rw [List.getElem?_eq_none (by omega)] at hj1
      cases hj1
    rw [List.getElem?_eq_getElem hjlt]
    cases hb : testSet[j] with
    | false => rfl
    | true =>
      exfalso
      apply hj2
      apply (hspec j).1
      rw [List.getElem?_eq_getElem hjlt, hb]

/-- C2. For `nFolds >= 1`, `groupKFold` returns folds such that, for every
fold, two examples with the same group id are both inside or both outside
the fold, and no group id of an example of the fold (the test set) occurs
in the training set that `makeTestSet` and `filterByIndex(.., isTest=false)`
build for it, which holds the group ids of all examples outside the fold. -/
theorem groupKFold_no_group_leak (rng : GoMap Int Bool → GoMap Int Bool) (hr : RangeOrder rng)
    (groups : List Int) (nFolds : Int) (hn : 1 ≤ nFolds) :
    ∃ folds, groupKFold rng groups nFolds = some folds ∧
      ∀ fold ∈ folds,
        (∀ (i j : Nat) (g : Int), groups[i]? = some g → groups[j]? = some g →
          (i ∈ fold ↔ j ∈ fold)) ∧
        ∃ testSet train, makeTestSet groups.length fold = some testSet ∧
          filterByIndex groups groups testSet false = some train ∧
          (∀ (j : Nat) (g : Int), groups[j]? = some g → j ∉ fold → g ∈ train.1) ∧
          ∀ (i : Nat) (g : Int), groups[i]? = some g → i ∈ fold → g ∉ train.1 := by
  obtain ⟨folds, hfolds, _, _, hmem⟩ := groupKFold_mem rng hr groups nFolds hn
  refine ⟨folds, hfolds, ?_⟩
  intro fold hfold
  obtain ⟨f, hf, hget⟩ := fold_position folds fold hfold
  have hin : ∀ i : Nat, i ∈ fold ↔ ∃ g, groups[i]? = some g ∧ foldOf rng groups nFolds g = f := by
    intro i
    rw [← hget]
    exact hmem f i hf
  have hsame : ∀ (i j : Nat) (g : Int), groups[i]? = some g → groups[j]? = some g →
      (i ∈ fold → j ∈ fold) := by
    intro i j g hi hj hif
    obtain ⟨g', hg', hfo⟩ := (hin i).1 hif
    have : g' = g := Option.some.inj (hg'.symm.trans hi)
    exact (hin j).2 ⟨g, hj, this ▸ hfo⟩
  have hbound : ∀ i ∈ fold, i < groups.length := by
    intro i hi
    obtain ⟨g, hg, _⟩ := (hin i).1 hi
    by_contra hge
    rw [List.getElem?_eq_none (by omega)] at hg
    cases hg
  obtain ⟨testSet, train, hts, htr, htrain⟩ := fold_train_spec groups fold hbound
  refine ⟨fun i j g hi hj => ⟨hsame i j g hi hj, hsame j i g hj hi⟩,
    testSet, train, hts, htr, ?_, ?_⟩
  · intro j g hj hnot
    exact (htrain g).2 ⟨j, hj, hnot⟩
  · intro i g hi hif hgt
    obtain ⟨j, hj, hnot⟩ := (htrain g).1 hgt
    exact hnot (hsame i j g hi hj hif)

/-- Witness of `groupKFold_no_group_leak`: six examples of four groups, three folds. -/
theorem groupKFold_no_group_leak_witness :
    groupKFold List.reverse [0, 1, 0, 2, 1, 3] 3 = some [[0, 2, 5], [3], [1, 4]] ∧
    ∃ folds, groupKFold List.reverse [0, 1, 0, 2, 1, 3] 3 = some folds ∧
      ∀ fold ∈ folds,
        (∀ (i j : Nat) (g : Int), [0, 1, 0, 2, 1, 3][i]? = some g →
          [0, 1, 0, 2, 1, 3][j]? = some g → (i ∈ fold ↔ j ∈ fold)) ∧
        ∃ testSet train, makeTestSet [(0 : Int), 1, 0, 2, 1, 3].length fold = some testSet ∧
          filterByIndex [(0 : Int), 1, 0, 2, 1, 3] [(0 : Int), 1, 0, 2, 1, 3] testSet false
            = some train ∧
          (∀ (j : Nat) (g : Int), [0, 1, 0, 2, 1, 3][j]? = some g → j ∉ fold → g ∈ train.1) ∧
          ∀ (i : Nat) (g : Int), [0, 1, 0, 2, 1, 3][i]? = some g → i ∈ fold → g ∉ train.1 :=
  ⟨by decide,
    groupKFold_no_group_leak List.reverse (fun l => List.reverse_perm l)
      [0, 1, 0, 2, 1, 3] 3 (by decide)⟩

/-- The folds of `groupKFold` partition the example indices: every index is in
exactly one fold, folds have no repeated and no out-of-range index, and the
folds laid end to end rearrange `0 .. len(groups)-1`. -/
theorem groupKFold_partition_aux (rng : GoMap Int Bool → GoMap Int Bool) (hr : RangeOrder rng)
    (groups : List Int) (nFolds : Int) (hn : 1 ≤ nFolds) :
    ∃ folds, groupKFold rng groups nFolds = some folds ∧
      (∀ i, i < groups.length →
        ∃ f, f < folds.length ∧ i ∈ folds.getD f [] ∧
          ∀ f', f' < folds.length → i ∈ folds.getD f' [] → f' = f) ∧
      (∀ fold ∈ folds, fold.Nodup ∧ ∀ i ∈ fold, i < groups.length) ∧
      folds.flatten.Perm (List.range groups.length) := by
  obtain ⟨folds, hfolds, hlen, hnodup, hmem⟩ := groupKFold_mem rng hr groups nFolds hn
  have hpos : ∀ i, i < groups.length →
      ∃ f, f < folds.length ∧ i ∈ folds.getD f [] ∧
        ∀ f', f' < folds.length → i ∈ folds.getD f' [] → f' = f := by
    intro i hi
    have hk : 0 < foldCount rng groups nFolds := by
      have hg : groups[i] ∈ sortedGroupsOf rng groups :=
        (mem_sortedGroupsOf rng hr groups _).2 (List.getElem_mem _)
      have : 0 < (sortedGroupsOf rng groups).length := List.length_pos_of_mem hg
      unfold foldCount
      omega
    have hlt : foldOf rng groups nFolds groups[i] < folds.length := by
      rw [hlen]
      exact Nat.mod_lt _ hk
    refine ⟨foldOf rng groups nFolds groups[i], hlt, ?_, ?_⟩
    · exact (hmem _ i hlt).2 ⟨groups[i], List.getElem?_eq_getElem hi, rfl⟩
    · intro f' hf' hif'
      obtain ⟨g, hg, hfo⟩ := (hmem f' i hf').1 hif'
      rw [List.getElem?_eq_getElem hi] at hg
      rw [← hfo, Option.some.inj hg]
  have hfold : ∀ fold ∈ folds, fold.Nodup ∧ ∀ i ∈ fold, i < groups.length := by
    intro fold hin
    obtain ⟨f, hf, hget⟩ := fold_position folds fold hin
    refine ⟨hget ▸ hnodup f hf, ?_⟩
    intro i hi
    obtain ⟨g, hg, _⟩ := (hmem f i hf).1 (hget ▸ hi)
    by_contra hge
    rw [List.getElem?_eq_none (by omega)] at hg
    cases hg
  refine ⟨folds, hfolds, hpos, hfold, ?_⟩
  rw [List.perm_ext_iff_of_nodup _ (List.nodup_range _)]
  · intro i
    rw [List.mem_flatten, List.mem_range]
    constructor
    · rintro ⟨fold, hin, hi⟩
      exact (hfold fold hin).2 i hi
    · intro hi
      obtain ⟨f, hf, hif, _⟩ := hpos i hi
      refine ⟨folds.getD f [], ?_, hif⟩
      rw [List.getD_eq_getElem _ _ hf]
      exact List.getElem_mem _
  · rw [List.nodup_flatten]
    refine ⟨fun fold hin => (hfold fold hin).1, ?_⟩
    rw [List.pairwise_iff_getElem]
    intro a b ha hb hab i hia hib
    have h1 := (hmem a i ha).1 (by rw [List.getD_eq_getElem _ _ ha]; exact hia)
    have h2 := (hmem b i hb).1 (by rw [List.getD_eq_getElem _ _ hb]; exact hib)
    obtain ⟨g, hg, hfo⟩ := h1
    obtain ⟨g', hg', hfo'⟩ := h2
    have : g = g' := Option.some.inj (hg.symm.trans hg')
    subst this
    omega

/-- C3. For `nFolds >= 1`, the folds returned by `groupKFold` partition the
index set `0 .. len(groups)-1`: every index lies in exactly one fold, no
fold repeats an index, no fold holds an index outside the range, and so
the folds laid end to end are a rearrangement of `0 .. len(groups)-1`. -/
theorem groupKFold_partition (rng : GoMap Int Bool → GoMap Int Bool) (hr : RangeOrder rng)
    (groups : List Int) (nFolds : Int) (hn : 1 ≤ nFolds) :
    ∃ folds, groupKFold rng groups nFolds = some folds ∧
      (∀ i, i < groups.length →
        ∃ f, f < folds.length ∧ i ∈ folds.getD f [] ∧
          ∀ f', f' < folds.length → i ∈ folds.getD f' [] → f' = f) ∧
      (∀ fold ∈ folds, fold.Nodup ∧ ∀ i ∈ fold, i < groups.length) ∧
      folds.flatten.Perm (List.range groups.length) := by
  obtain ⟨folds, hfolds, hone, hfold, hperm⟩ := groupKFold_partition_aux rng hr groups nFolds hn
  exact ⟨folds, hfolds, hone, hfold, hperm⟩

/-- Witness of `groupKFold_partition`: six examples of four groups, three folds. -/
theorem groupKFold_partition_witness :
    groupKFold id [0, 1, 0, 2, 1, 3] 3 = some [[0, 2, 5], [1, 4], [3]] ∧
    ∃ folds, groupKFold id [0, 1, 0, 2, 1, 3] 3 = some folds ∧
      (∀ i, i < [(0 : Int), 1, 0, 2, 1, 3].length →
        ∃ f, f < folds.length ∧ i ∈ folds.getD f [] ∧
          ∀ f', f' < folds.length → i ∈ folds.getD f' [] → f' = f) ∧
      (∀ fold ∈ folds, fold.Nodup ∧ ∀ i ∈ fold, i < [(0 : Int), 1, 0, 2, 1, 3].length) ∧
      folds.flatten.Perm (List.range [(0 : Int), 1, 0, 2, 1, 3].length) :=
  ⟨by decide,
    groupKFold_partition id (fun l => List.Perm.refl l) [0, 1, 0, 2, 1, 3] 3 (by decide)⟩

/-- C4. For `nFolds >= 1` and a list with `G` distinct group ids,
`groupKFold` returns exactly `min(nFolds, G)` folds; when `G < nFolds` the
fold count is `G`. -/
theorem groupKFold_fold_count (rng : GoMap Int Bool → GoMap Int Bool) (hr : RangeOrder rng)
    (groups : List Int) (nFolds : Int) (hn : 1 ≤ nFolds) :
    ∃ folds, groupKFold rng groups nFolds = some folds ∧
      (folds.length : Int) = min nFolds (groups.toFinset.card : Int) ∧
      ((groups.toFinset.card : Int) < nFolds → folds.length = groups.toFinset.card) := by
  obtain ⟨folds, hfolds, hlen, _⟩ := groupKFold_eq rng hr groups nFolds hn
  have hcard := sortedGroupsOf_length rng hr groups
  unfold foldCount at hlen
  rw [hcard] at hlen
  refine ⟨folds, hfolds, ?_, ?_⟩
  · omega
  · intro h
    omega

/-- Witness of `groupKFold_fold_count`: four groups and ten requested folds
give four folds. -/
theorem groupKFold_fold_count_witness :
    groupKFold id [0, 1, 0, 2, 1, 3] 10 = some [[5], [1, 4], [3], [0, 2]] ∧
    ∃ folds, groupKFold id [0, 1, 0, 2, 1, 3] 10 = some folds ∧
      (folds.length : Int) = min 10 (([0, 1, 0, 2, 1, 3] : List Int).toFinset.card : Int) ∧
      ((([0, 1, 0, 2, 1, 3] : List Int).toFinset.card : Int) < 10 →
        folds.length = ([0, 1, 0, 2, 1, 3] : List Int).toFinset.card) :=
  ⟨by decide,
    groupKFold_fold_count id (fun l => List.Perm.refl l) [0, 1, 0, 2, 1, 3] 10 (by decide)⟩

/-- C5, the code at the failing input. Two annotations of two domains get the
dense group ids `[0, 1]`; with two folds, `groupKFold` puts example 0 (group
0) in fold 1 and example 1 (group 1) in fold 0 when `range uniqueGroups`
yields key 1 before key 0, and the other way round when it yields key 0
first: the fold of an example is the position of its group in the unsorted
`sortedGroups` modulo `k`, not `groups[i] mod k`. -/
theorem groupKFold_fold_follows_range_order :
    RangeOrder (id : GoMap Int Bool → GoMap Int Bool) ∧
    RangeOrder (List.reverse : GoMap Int Bool → GoMap Int Bool) ∧
    domainGroups (fun url => url) ["a.example", "b.example"] = [0, 1] ∧
    sortedGroupsOf id [0, 1] = [1, 0] ∧
    groupKFold id [0, 1] 2 = some [[1], [0]] ∧
    sortedGroupsOf List.reverse [0, 1] = [0, 1] ∧
    groupKFold List.reverse [0, 1] 2 = some [[0], [1]] :=
  ⟨fun l => List.Perm.refl l, fun l => List.reverse_perm l,
    by decide, by decide, by decide, by decide, by decide⟩

/-- C6, counterexample. One example (so one group) and ten requested folds:
`groupKFold` returns the single fold `[0]`, no example index lies outside
it, and the training set built for it is empty. -/
theorem groupKFold_single_group_empty_train :
    RangeOrder (id : GoMap Int Bool → GoMap Int Bool) ∧
    ([(0 : Int)] ≠ [] ∧ (1 : Int) ≤ 10) ∧
    groupKFold id [0] 10 = some [[0]] ∧
    (¬ ∃ i, i < [(0 : Int)].length ∧ i ∉ [0]) ∧
    makeTestSet [(0 : Int)].length [0] = some [true] ∧
    filterByIndex [(0 : Int)] [(0 : Int)] [true] false = some ([], []) :=
  ⟨fun l => List.Perm.refl l, by decide, by decide, by decide, by decide, by decide⟩

/-- C6, amended. For `nFolds >= 2` and a list with at least two distinct
group ids, every fold returned by `groupKFold` leaves a non-empty training
set: some example index lies outside the fold, and the training set built
for the fold by `makeTestSet` and `filterByIndex(.., isTest=false)` is not
empty. -/
theorem groupKFold_train_nonempty (rng : GoMap Int Bool → GoMap Int Bool) (hr : RangeOrder rng)
    (groups : List Int) (nFolds : Int) (hn : 2 ≤ nFolds) (hG : 2 ≤ groups.toFinset.card) :
    ∃ folds, groupKFold rng groups nFolds = some folds ∧
      ∀ fold ∈ folds,
        (∃ i, i < groups.length ∧ i ∉ fold) ∧
        ∃ testSet train, makeTestSet groups.length fold = some testSet ∧
          filterByIndex groups groups testSet false = some train ∧ train.1 ≠ [] := by
  obtain ⟨folds, hfolds, hlen, _, hmem⟩ := groupKFold_mem rng hr groups nFolds (by omega)
  refine ⟨folds, hfolds, ?_⟩
  intro fold hfold
  obtain ⟨f, hf, hget⟩ := fold_position folds fold hfold
  have hcard := sortedGroupsOf_length rng hr groups
  have hk : 2 ≤ foldCount rng groups nFolds ∧
      foldCount rng groups nFolds ≤ (sortedGroupsOf rng groups).length := by
    unfold foldCount
    omega
  have hfk : f < foldCount rng groups nFolds := hlen ▸ hf
  have hp : (f + 1) % foldCount rng groups nFolds < foldCount rng groups nFolds :=
    Nat.mod_lt _ (by omega)
  have hpf : (f + 1) % foldCount rng groups nFolds ≠ f := by
    by_cases hlast : f + 1 < foldCount rng groups nFolds
    · rw [Nat.mod_eq_of_lt hlast]
      omega
    · have : f + 1 = foldCount rng groups nFolds := by omega
      rw [this, Nat.mod_self]
      omega
  have hps : (f + 1) % foldCount rng groups nFolds < (sortedGroupsOf rng groups).length := by
    omega
  have hidx := List.indexOf_getElem (sortedGroupsOf_nodup rng hr groups) _ hps
  have hfo : foldOf rng groups nFolds ((sortedGroupsOf rng groups)[(f + 1) %
      foldCount rng groups nFolds]) = (f + 1) % foldCount rng groups nFolds := by
    unfold foldOf
    rw [hidx, Nat.mod_mod]
  have hgin : (sortedGroupsOf rng groups)[(f + 1) % foldCount rng groups nFolds] ∈ groups :=
    (mem_sortedGroupsOf rng hr groups _).1 (List.getElem_mem _)
  obtain ⟨i, hi⟩ := List.mem_iff_getElem?.1 hgin
  have hnot : i ∉ fold := by
    intro hin
    obtain ⟨g', hg', hfo'⟩ := (hmem f i hf).1 (hget ▸ hin)
    have : g' = _ := Option.some.inj (hg'.symm.trans hi)
    rw [this, hfo] at hfo'
    exact hpf hfo'
  have hilt : i < groups.length := by
    by_contra hge
    rw [List.getElem?_eq_none (by omega)] at hi
    cases hi
  have hbound : ∀ j ∈ fold, j < groups.length := by
    intro j hj
    obtain ⟨g, hg, _⟩ := (hmem f j hf).1 (hget ▸ hj)
    by_contra hge
    rw [List.getElem?_eq_none (by omega)] at hg
    cases hg
  obtain ⟨testSet, train, hts, htr, htrain⟩ := fold_train_spec groups fold hbound
  refine ⟨⟨i, hilt, hnot⟩, testSet, train, hts, htr, ?_⟩
  have hmemtrain := (htrain _).2 ⟨i, hi, hnot⟩
  exact List.ne_nil_of_mem hmemtrain

/-- Witness of `groupKFold_train_nonempty`: four groups, three folds. -/
theorem groupKFold_train_nonempty_witness :
    groupKFold id [0, 1, 0, 2, 1, 3] 3 = some [[0, 2, 5], [1, 4], [3]] ∧
    ∃ folds, groupKFold id [0, 1, 0, 2, 1, 3] 3 = some folds ∧
      ∀ fold ∈ folds,
        (∃ i, i < [(0 : Int), 1, 0, 2, 1, 3].length ∧ i ∉ fold) ∧
        ∃ testSet train, makeTestSet [(0 : Int), 1, 0, 2, 1, 3].length fold = some testSet ∧
          filterByIndex [(0 : Int), 1, 0, 2, 1, 3] [(0 : Int), 1, 0, 2, 1, 3] testSet false
            = some train ∧ train.1 ≠ [] :=
  ⟨by decide,
    groupKFold_train_nonempty id (fun l => List.Perm.refl l) [0, 1, 0, 2, 1, 3] 3
      (by decide) (by decide)⟩

/-! ## PageTypeModel.ClassifyProba and Classify -/

/-- The best-class loop from `(b, q)`: either no visited probability exceeds
`q` and the loop keeps `(b, q)`, or it ends at the first visited entry of
maximal probability. -/
theorem foldl_bestStep (l : GoMap String ℚ) (b : String) (q : ℚ) :
    ((∀ e ∈ l, e.2 ≤ q) ∧ l.foldl bestStep (b, q) = (b, q)) ∨
    ∃ pre e post, l = pre ++ e :: post ∧ l.foldl bestStep (b, q) = e ∧ q < e.2 ∧
      (∀ x ∈ pre, x.2 < e.2) ∧ ∀ x ∈ post, x.2 ≤ e.2 := by
  induction l generalizing b q with
  | nil => exact Or.inl ⟨fun e he => absurd he (List.not_mem_nil e), rfl⟩
  | cons a l ih =>
    rw [List.foldl_cons]
    by_cases ha : a.2 > q
    · have hstep : bestStep (b, q) a = (a.1, a.2) := by
        unfold bestStep
        rw [if_pos ha]
      rw [hstep]
      rcases ih a.1 a.2 with ⟨hall, hres⟩ | ⟨pre, e, post, hl, hres, hlt, hpre, hpost⟩
      · right
        exact ⟨[], a, l, rfl, hres, ha, fun x hx => absurd hx (List.not_mem_nil x), hall⟩
      · right
        refine ⟨a :: pre, e, post, by rw [hl]; rfl, hres, lt_trans ha hlt, ?_, hpost⟩
        intro x hx
        rcases List.mem_cons.1 hx with rfl | hx
        · exact hlt
        · exact hpre x hx
    · have hstep : bestStep (b, q) a = (b, q) := by
        unfold bestStep
        rw [if_neg ha]
      rw [hstep]
      have haq : a.2 ≤ q := not_lt.1 ha
      rcases ih b q with ⟨hall, hres⟩ | ⟨pre, e, post, hl, hres, hlt, hpre, hpost⟩
      · left
        refine ⟨?_, hres⟩
        intro x hx
        rcases List.mem_cons.1 hx with rfl | hx
        · exact haq
        · exact hall x hx
      · right
        refine ⟨a :: pre, e, post, by rw [hl]; rfl, hres, hlt, ?_, hpost⟩
        intro x hx
        rcases List.mem_cons.1 hx with rfl | hx
        · exact lt_of_le_of_lt haq hlt
        · exact hpre x hx

/-- The best-class loop over a non-empty visit of non-negative probabilities
returns the class of the first visited entry of maximal probability. -/
theorem bestClass_first_max (visit : GoMap String ℚ) (hne : visit ≠ [])
    (hpos : ∀ e ∈ visit, 0 ≤ e.2) :
    ∃ pre e post, visit = pre ++ e :: post ∧ bestClass visit = e.1 ∧
      (∀ x ∈ pre, x.2 < e.2) ∧ ∀ x ∈ post, x.2 ≤ e.2 := by
  unfold bestClass
  rcases foldl_bestStep visit "" (-1) with ⟨hall, _⟩ | ⟨pre, e, post, hl, hres, _, hpre, hpost⟩
  · exfalso
    obtain ⟨a, ha⟩ := List.exists_mem_of_ne_nil visit hne
    have h1 := hall a ha
    have h2 := hpos a ha
    linarith
  · exact ⟨pre, e, post, hl, by rw [hres], hpre, hpost⟩

theorem logitsLoop_spec (dot : List ℚ → ℚ) (m : PageTypeModel) (cs : List Nat)
    (h : ∀ c ∈ cs, c < m.Coef.length ∧ c < m.Intercept.length) :
    ∃ logits, logitsLoop dot m cs = some logits ∧ logits.length = cs.length := by
  induction cs with
  | nil => exact ⟨[], rfl, rfl⟩
  | cons c cs ih =>
    obtain ⟨logits, hl, hlen⟩ := ih (fun c' hc' => h c' (List.mem_cons_of_mem _ hc'))
    obtain ⟨h1, h2⟩ := h c (List.mem_cons_self _ _)
    refine ⟨(dot m.Coef[c] + m.Intercept[c]) :: logits, ?_, by simp [hlen]⟩
    simp only [logitsLoop, List.getElem?_eq_getElem h1, List.getElem?_eq_getElem h2, hl,
      Option.map_some']

theorem GoMap.mem_set {κ ν : Type} [DecidableEq κ] (m : GoMap κ ν) (k : κ) (v : ν)
    (e : κ × ν) (h : e ∈ m.set k v) : e = (k, v) ∨ e ∈ m := by
  unfold GoMap.set at h
  rcases List.mem_cons.1 h with h | h
  · exact Or.inl h
  · exact Or.inr (List.mem_filter.1 h).1

theorem probaLoop_spec (probs : List ℚ) (classes : List String) (c : Nat)
    (result : GoMap String ℚ) (h : c + classes.length ≤ probs.length) (hwf : result.WF) :
    ∃ res, probaLoop probs classes c result = some res ∧ res.WF ∧
      (∀ k, k ∈ res.map Prod.fst ↔ k ∈ classes ∨ k ∈ result.map Prod.fst) ∧
      ∀ e ∈ res, e ∈ result ∨ e.2 ∈ probs := by
  induction classes generalizing c result with
  | nil => exact ⟨result, rfl, hwf, fun k => by simp, fun e he => Or.inl he⟩
  | cons cls rest ih =>
    rw [List.length_cons] at h
    have hc : c < probs.length := by omega
    obtain ⟨res, hres, hreswf, hkeys, hvals⟩ :=
      ih (c + 1) (result.set cls probs[c]) (by omega) (GoMap.WF_set result hwf _ _)
    refine ⟨res, ?_, hreswf, ?_, ?_⟩
    · simp only [probaLoop, List.getElem?_eq_getElem hc]
      exact hres
    · intro k
      rw [hkeys k, GoMap.mem_keys_set, List.mem_cons]
      tauto
    · intro e he
      rcases hvals e he with h1 | h1
      · rcases GoMap.mem_set result cls probs[c] e h1 with h2 | h2
        · right
          rw [h2]
          exact List.getElem_mem _
        · exact Or.inl h2
      · exact Or.inr h1

/-- `ClassifyProba` on a model on whose run-time state `extractFeatures`
returns and that has a coefficient row and an intercept for each class, with
a `softmax` that keeps the length of its argument and returns non-negative
values: it returns a map whose keys are the classes and whose values are
non-negative. -/
theorem ClassifyProba_spec (D : Deps) (m : PageTypeModel) (doc : D.Doc)
    (formResults : List ClassifyResult)
    (hfeat : (m.extractFeatures D doc formResults).isSome = true)
    (hlen : ∀ l, (D.softmax l).length = l.length)
    (hpos : ∀ l, ∀ p ∈ D.softmax l, 0 ≤ p)
    (hcoef : m.Classes.length ≤ m.Coef.length)
    (hint : m.Classes.length ≤ m.Intercept.length) :
    ∃ proba, m.ClassifyProba D doc formResults = some proba ∧ proba.WF ∧
      (∀ k, k ∈ proba.map Prod.fst ↔ k ∈ m.Classes) ∧ ∀ e ∈ proba, 0 ≤ e.2 := by
  obtain ⟨features, hfeatures⟩ := Option.isSome_iff_exists.1 hfeat
  obtain ⟨logits, hlogits, hll⟩ := logitsLoop_spec (D.Dot features)
    m (List.range m.Classes.length) (by
      intro c hc
      rw [List.mem_range] at hc
      omega)
  rw [List.length_range] at hll
  obtain ⟨proba, hproba, hwf, hkeys, hvals⟩ := probaLoop_spec (D.softmax logits) m.Classes 0 []
    (by rw [hlen, hll]; omega) List.nodup_nil
  refine ⟨proba, ?_, hwf, ?_, ?_⟩
  · unfold PageTypeModel.ClassifyProba
    simp only [hfeatures, hlogits]
    exact hproba
  · intro k
    rw [hkeys k]
    simp
  · intro e he
    rcases hvals e he with h | h
    · exact absurd h (List.not_mem_nil e)
    · exact hpos logits _ h

/-- The panic of `extractFeatures` is a panic of `ClassifyProba` and of
`Classify`; on a model whose run-time state was never initialized
`extractFeatures` panics at `m.vecTypes[0]`. -/
theorem Classify_panics_with_extractFeatures (D : Deps) (m : PageTypeModel) (doc : D.Doc)
    (formResults : List ClassifyResult) :
    (m.extractFeatures D doc formResults = none →
      m.ClassifyProba D doc formResults = none ∧ m.Classify D doc formResults = none) ∧
    ((D.runtime m).vecTypes = [] → m.extractFeatures D doc formResults = none) := by
  constructor
  · intro h
    have hp : m.ClassifyProba D doc formResults = none := by
      unfold PageTypeModel.ClassifyProba
      rw [h]
    refine ⟨hp, ?_⟩
    unfold PageTypeModel.Classify
    rw [hp]
  · intro h
    unfold PageTypeModel.extractFeatures PageTypeRuntime.extractFeatures
    have hfirst : rangeLoop (pipelineVector D.toPageDeps (D.runtime m) doc formResults)
        DefaultPageFeaturePipelines 0 = none := by
      unfold DefaultPageFeaturePipelines rangeLoop pipelineVector
      rw [h]
      rfl
    rw [hfirst]
    rfl

/-- `Classify` returns the class of the first entry of maximal probability in
the order in which its loop visits the map returned by `ClassifyProba`. -/
theorem Classify_visit (D : Deps) (m : PageTypeModel) (doc : D.Doc)
    (formResults : List ClassifyResult)
    (hfeat : (m.extractFeatures D doc formResults).isSome = true)
    (hr : RangeOrder D.rngBest)
    (hlen : ∀ l, (D.softmax l).length = l.length)
    (hpos : ∀ l, ∀ p ∈ D.softmax l, 0 ≤ p)
    (hne : m.Classes ≠ [])
    (hcoef : m.Classes.length ≤ m.Coef.length)
    (hint : m.Classes.length ≤ m.Intercept.length) :
    ∃ proba pre e post, m.ClassifyProba D doc formResults = some proba ∧ proba.WF ∧
      (∀ k, k ∈ proba.map Prod.fst ↔ k ∈ m.Classes) ∧
      D.rngBest proba = pre ++ e :: post ∧
      m.Classify D doc formResults = some e.1 ∧
      (∀ x ∈ pre, x.2 < e.2) ∧ ∀ x ∈ post, x.2 ≤ e.2 := by
  obtain ⟨proba, hproba, hwf, hkeys, hvals⟩ :=
    ClassifyProba_spec D m doc formResults hfeat hlen hpos hcoef hint
  have hvne : D.rngBest proba ≠ [] := by
    intro hnil
    obtain ⟨cls, hcls⟩ := List.exists_mem_of_ne_nil m.Classes hne
    obtain ⟨e, he, _⟩ := List.mem_map.1 ((hkeys cls).2 hcls)
    have := (hr proba).mem_iff.2 he
    rw [hnil] at this
    exact absurd this (List.not_mem_nil e)
  have hvpos : ∀ e ∈ D.rngBest proba, 0 ≤ e.2 :=
    fun e he => hvals e ((hr proba).mem_iff.1 he)
  obtain ⟨pre, e, post, hsplit, hbest, hpre, hpost⟩ :=
    bestClass_first_max (D.rngBest proba) hvne hvpos
  refine ⟨proba, pre, e, post, hproba, hwf, hkeys, hsplit, ?_, hpre, hpost⟩
  unfold PageTypeModel.Classify
  simp only [hproba, hbest]

/-- C7. On a model with at least one class, with a run-time state on which
`extractFeatures` returns and a coefficient row and an intercept per class,
`Classify` returns a class of `Classes` whose probability in the map of
`ClassifyProba` for the same inputs is maximal: no class has a strictly
larger probability. -/
theorem Classify_is_argmax (D : Deps) (m : PageTypeModel) (doc : D.Doc)
    (formResults : List ClassifyResult)
    (hfeat : (m.extractFeatures D doc formResults).isSome = true)
    (hr : RangeOrder D.rngBest)
    (hlen : ∀ l, (D.softmax l).length = l.length)
    (hpos : ∀ l, ∀ p ∈ D.softmax l, 0 ≤ p)
    (hne : m.Classes ≠ [])
    (hcoef : m.Classes.length ≤ m.Coef.length)
    (hint : m.Classes.length ≤ m.Intercept.length) :
    ∃ proba c p, m.ClassifyProba D doc formResults = some proba ∧
      m.Classify D doc formResults = some c ∧ c ∈ m.Classes ∧
      GoMap.get? proba c = some p ∧
      ∀ c' p', GoMap.get? proba c' = some p' → p' ≤ p := by
  obtain ⟨proba, pre, e, post, hproba, hwf, hkeys, hsplit, hcls, hpre, hpost⟩ :=
    Classify_visit D m doc formResults hfeat hr hlen hpos hne hcoef hint
  have hein : e ∈ proba := by
    apply (hr proba).mem_iff.1
    rw [hsplit]
    exact List.mem_append_right _ (List.mem_cons_self _ _)
  refine ⟨proba, e.1, e.2, hproba, hcls, ?_, ?_, ?_⟩
  · exact (hkeys e.1).1 (List.mem_map.2 ⟨e, hein, rfl⟩)
  · exact (GoMap.get?_eq_some_iff proba hwf e.1 e.2).2 hein
  · intro c' p' hget
    have hin : (c', p') ∈ D.rngBest proba :=
      (hr proba).mem_iff.2 ((GoMap.get?_eq_some_iff proba hwf c' p').1 hget)
    rw [hsplit] at hin
    rcases List.mem_append.1 hin with h | h
    · exact le_of_lt (hpre _ h)
    · rcases List.mem_cons.1 h with h | h
      · rw [← h]
      · exact hpost _ h

theorem stubDeps_softmax_length (visit : GoMap String ℚ → GoMap String ℚ) (l : List ℚ) :
    ((stubDeps visit).softmax l).length = l.length :=
  List.length_replicate _ _

theorem stubDeps_softmax_nonneg (visit : GoMap String ℚ → GoMap String ℚ) (l : List ℚ) :
    ∀ p ∈ (stubDeps visit).softmax l, 0 ≤ p := by
  intro p hp
  have hp' : p = mkRat 1 l.length := (List.mem_replicate.1 hp).2
  rw [hp', Rat.mkRat_eq_div]
  positivity

theorem rankDeps_softmax_length (visit : GoMap String ℚ → GoMap String ℚ) (l : List ℚ) :
    ((rankDeps visit).softmax l).length = l.length :=
  List.length_map _ _

theorem rankDeps_softmax_nonneg (visit : GoMap String ℚ → GoMap String ℚ) (l : List ℚ) :
    ∀ p ∈ (rankDeps visit).softmax l, 0 ≤ p := by
  intro p hp
  obtain ⟨x, _, hx⟩ := List.mem_map.1 hp
  rw [← hx, Rat.mkRat_eq_div]
  positivity

/-- Witness of `Classify_is_argmax`: the three-class model of logits 0, 2
and 1 under a softmax that follows the logits; the class `search` has
probability 1/2, above 1/3 and 1/6, and is returned though the map is
visited in reverse. -/
theorem Classify_is_argmax_witness :
    skewedModel.ClassifyProba (rankDeps List.reverse) "<form></form>" []
      = some [("error", mkRat 1 3), ("search", mkRat 1 2), ("login", mkRat 1 6)] ∧
    skewedModel.Classify (rankDeps List.reverse) "<form></form>" [] = some "search" ∧
    ∃ proba c p,
      skewedModel.ClassifyProba (rankDeps List.reverse) "<form></form>" [] = some proba ∧
      skewedModel.Classify (rankDeps List.reverse) "<form></form>" [] = some c ∧
      c ∈ skewedModel.Classes ∧ GoMap.get? proba c = some p ∧
      ∀ c' p', GoMap.get? proba c' = some p' → p' ≤ p :=
  ⟨by with_unfolding_all decide, by with_unfolding_all decide,
    Classify_is_argmax (rankDeps List.reverse) skewedModel "<form></form>" [] (by decide)
      (fun l => List.reverse_perm l) (rankDeps_softmax_length _) (rankDeps_softmax_nonneg _)
      (by decide) (by decide) (by decide)⟩

/-- C8, counterexample. A model with classes `login`, `search` of equal
probability 1/2: when the loop of `Classify` visits the entry of `search`
first it returns `search`, not `login`, the first tied class in `Classes`;
when it visits `login` first it returns `login`. -/
theorem Classify_tie_follows_visit :
    RangeOrder (stubDeps id).rngBest ∧ RangeOrder (stubDeps List.reverse).rngBest ∧
    tiedModel.Classes = ["login", "search"] ∧
    tiedModel.ClassifyProba (stubDeps id) "<form></form>" []
      = some [("search", mkRat 1 2), ("login", mkRat 1 2)] ∧
    (stubDeps id).rngBest [("search", mkRat 1 2), ("login", mkRat 1 2)]
      = [("search", mkRat 1 2), ("login", mkRat 1 2)] ∧
    tiedModel.Classify (stubDeps id) "<form></form>" [] = some "search" ∧
    tiedModel.Classify (stubDeps List.reverse) "<form></form>" [] = some "login" :=
  ⟨fun l => List.Perm.refl l, fun l => List.reverse_perm l, rfl,
    by decide, rfl, by decide, by decide⟩

/-- C8, amended. On a model with at least one class, with a run-time state on
which `extractFeatures` returns and a coefficient row and an intercept per
class, `Classify` returns the class of maximal probability that its loop
over the probability map visits first: every class visited before
it has a strictly smaller probability and no class visited after it has a
larger one. Among tied classes of maximal probability the result is the one
the `range` over the map yields first. -/
theorem Classify_first_visited_max (D : Deps) (m : PageTypeModel) (doc : D.Doc)
    (formResults : List ClassifyResult)
    (hfeat : (m.extractFeatures D doc formResults).isSome = true)
    (hr : RangeOrder D.rngBest)
    (hlen : ∀ l, (D.softmax l).length = l.length)
    (hpos : ∀ l, ∀ p ∈ D.softmax l, 0 ≤ p)
    (hne : m.Classes ≠ [])
    (hcoef : m.Classes.length ≤ m.Coef.length)
    (hint : m.Classes.length ≤ m.Intercept.length) :
    ∃ proba pre e post, m.ClassifyProba D doc formResults = some proba ∧
      D.rngBest proba = pre ++ e :: post ∧
      m.Classify D doc formResults = some e.1 ∧
      (∀ x ∈ pre, x.2 < e.2) ∧ ∀ x ∈ post, x.2 ≤ e.2 := by
  obtain ⟨proba, pre, e, post, hproba, _, _, hsplit, hcls, hpre, hpost⟩ :=
    Classify_visit D m doc formResults hfeat hr hlen hpos hne hcoef hint
  exact ⟨proba, pre, e, post, hproba, hsplit, hcls, hpre, hpost⟩

/-- Witness of `Classify_first_visited_max`: the two-class model of equal
logits, its probability map visited as stored. -/
theorem Classify_first_visited_max_witness :
    tiedModel.Classify (stubDeps id) "<form></form>" [] = some "search" ∧
    ∃ proba pre e post, tiedModel.ClassifyProba (stubDeps id) "<form></form>" [] = some proba ∧
      (stubDeps id).rngBest proba = pre ++ e :: post ∧
      tiedModel.Classify (stubDeps id) "<form></form>" [] = some e.1 ∧
      (∀ x ∈ pre, x.2 < e.2) ∧ ∀ x ∈ post, x.2 ≤ e.2 :=
  ⟨by decide,
    Classify_first_visited_max (stubDeps id) tiedModel "<form></form>" [] (by decide)
      (fun l => List.Perm.refl l) (stubDeps_softmax_length _) (stubDeps_softmax_nonneg _)
      (by decide) (by decide) (by decide)⟩

/-! ## Classifier: ExtractForms and the guards on a missing model -/

theorem forEachForm_total {α β : Type} (body : α → Option β) (g : α → β)
    (h : ∀ x, body x = some (g x)) (l : List α) :
    forEachForm body l = some (l.map g) := by
  induction l with
  | nil => rfl
  | cons x l ih => simp only [forEachForm, h x, ih, Option.map_some', List.map_cons]

/-- The entry that the loop of `ExtractForms` writes for a form when the
form model is present and labels, not probabilities, are asked for. -/
theorem formEntry_label {D : Deps} (fc : FormFieldClassifier D) (formModel : D.FormTypeModel)
    (hfm : fc.FormModel = some formModel) (form : D.Form) :
    formEntry fc false 0 true form =
      some { FormHTML := D.Html form,
             Result :=
               { Form := D.formClassify formModel form,
                 Fields :=
                   match fc.FieldModel with
                   | some fieldModel =>
                     D.fieldClassify fieldModel form (D.formClassify formModel form)
                   | none => [] },
             Proba := { Form := [], Fields := [] } } := by
  unfold formEntry FormFieldClassifier.Classify
  rw [hfm]
  cases fc.FieldModel <;> rfl

theorem initialized_of_models {D : Deps} (c : Classifier D) (fc : FormFieldClassifier D)
    (formModel : D.FormTypeModel) (hfc : c.fc = some fc) (hfm : fc.FormModel = some formModel) :
    c.initialized = some fc := by
  unfold Classifier.initialized
  rw [hfc]
  simp [hfm]

theorem initialized_none {D : Deps} (c : Classifier D)
    (h : c.fc = none ∨ ∃ fc, c.fc = some fc ∧ fc.FormModel = none) :
    c.initialized = none := by
  unfold Classifier.initialized
  rcases h with h | ⟨fc, hfc, hfm⟩
  · rw [h]
  · rw [hfc]
    simp [hfm]

/-- C9. On a classifier whose inner classifier and form model are present,
and HTML that parses to `doc`, `Classifier.ExtractForms` returns no error
and a non-nil list with exactly one result per form of the document, in
the order of the forms: the `i`-th result is the type (and fields) of the
`i`-th form. For a document without forms the list is empty and not nil. -/
theorem ExtractForms_one_result_per_form (D : Deps) (c : Classifier D)
    (fc : FormFieldClassifier D) (formModel : D.FormTypeModel) (html : String) (doc : D.Doc)
    (hfc : c.fc = some fc) (hfm : fc.FormModel = some formModel)
    (hparse : D.LoadHTMLString html = Except.ok doc) :
    ∃ out, c.ExtractForms html = some (some out, none) ∧
      out.length = (D.GetForms doc).length ∧
      out = (D.GetForms doc).map (fun form =>
        { Type_ := D.formClassify formModel form,
          Fields :=
            match fc.FieldModel with
            | some fieldModel => D.fieldClassify fieldModel form (D.formClassify formModel form)
            | none => [] }) ∧
      (D.GetForms doc = [] → out = []) := by
  have hloop := forEachForm_total (formEntry fc false 0 true) _ (formEntry_label fc formModel hfm)
    (D.GetForms doc)
  have hinner : fc.ExtractForms html false 0 true
      = some (some ((D.GetForms doc).map (fun form =>
          ({ FormHTML := D.Html form,
             Result :=
               { Form := D.formClassify formModel form,
                 Fields :=
                   match fc.FieldModel with
                   | some fieldModel =>
                     D.fieldClassify fieldModel form (D.formClassify formModel form)
                   | none => [] },
             Proba := { Form := [], Fields := [] } } : classifier.FormResult))), none) := by
    unfold FormFieldClassifier.ExtractForms
    rw [hparse]
    simp only [hloop]
  refine ⟨_, ?_, ?_, rfl, ?_⟩
  · unfold Classifier.ExtractForms
    rw [initialized_of_models c fc formModel hfc hfm]
    simp only [hinner, Option.getD_some, List.map_map]
    rfl
  · rw [List.length_map]
  · intro hnil
    rw [hnil]
    rfl

/-- Witness of `ExtractForms_one_result_per_form`: the stand-in classifier
on a page with one form. -/
theorem ExtractForms_one_result_per_form_witness :
    Classifier.ExtractForms
        ({ fc := some { FormModel := some (), FieldModel := none, PageModel := none } } :
          Classifier (stubDeps id)) "<form></form>"
      = some (some [{ Type_ := "login", Fields := [] }], none) ∧
    Classifier.ExtractForms
        ({ fc := some { FormModel := some (), FieldModel := none, PageModel := none } } :
          Classifier (stubDeps id)) "<html><body>No forms here</body></html>"
      = some (some [], none) ∧
    ∃ out, Classifier.ExtractForms
        ({ fc := some { FormModel := some (), FieldModel := none, PageModel := none } } :
          Classifier (stubDeps id)) "<form></form>" = some (some out, none) ∧
      out.length = ((stubDeps id).GetForms "<form></form>").length ∧
      out = ((stubDeps id).GetForms "<form></form>").map (fun form =>
        { Type_ := (stubDeps id).formClassify () form,
          Fields :=
            match (none : Option (stubDeps id).FieldTypeModel) with
            | some fieldModel =>
              (stubDeps id).fieldClassify fieldModel form ((stubDeps id).formClassify () form)
            | none => [] }) ∧
      ((stubDeps id).GetForms "<form></form>" = [] → out = []) :=
  ⟨by decide, by decide,
    ExtractForms_one_result_per_form (stubDeps id)
      { fc := some { FormModel := some (), FieldModel := none, PageModel := none } }
      { FormModel := some (), FieldModel := none, PageModel := none } () "<form></form>"
      "<form></form>" rfl rfl rfl⟩

/-- C10. On a `Classifier` whose inner classifier is nil or whose form model
is nil, `ExtractForms`, `ExtractFormsProba`, `ExtractPageType` and
`ExtractPageTypeProba` return, for every HTML string and threshold, a nil
result and the error `dit: classifier not initialized` (a return, not a
panic on the missing model); `Save` with a nil inner classifier returns
the same error. -/
theorem Extract_not_initialized (D : Deps) (c : Classifier D)
    (h : c.fc = none ∨ ∃ fc, c.fc = some fc ∧ fc.FormModel = none)
    (html : String) (threshold : ℚ) (path : String) :
    c.ExtractForms html = some (none, some "dit: classifier not initialized") ∧
    c.ExtractFormsProba html threshold = some (none, some "dit: classifier not initialized") ∧
    c.ExtractPageType html = some (none, some "dit: classifier not initialized") ∧
    c.ExtractPageTypeProba html threshold
      = some (none, some "dit: classifier not initialized") ∧
    (c.fc = none → c.Save path = some "dit: classifier not initialized") := by
  have hinit := initialized_none c h
  refine ⟨?_, ?_, ?_, ?_, ?_⟩
  · unfold Classifier.ExtractForms
    rw [hinit]
  · unfold Classifier.ExtractFormsProba
    rw [hinit]
  · unfold Classifier.ExtractPageType
    rw [hinit]
  · unfold Classifier.ExtractPageTypeProba
    rw [hinit]
  · intro hnil
    unfold Classifier.Save
    rw [hnil]

/-- Witness of `Extract_not_initialized`: the zero `Classifier` of the test
`TestClassifierNotInitialized`, and a classifier whose form model is nil. -/
theorem Extract_not_initialized_witness :
    (Classifier.ExtractForms ({ fc := none } : Classifier (stubDeps id)) "<form></form>"
        = some (none, some "dit: classifier not initialized") ∧
      Classifier.ExtractFormsProba ({ fc := none } : Classifier (stubDeps id)) "<form></form>" 0
        = some (none, some "dit: classifier not initialized") ∧
      Classifier.ExtractPageType ({ fc := none } : Classifier (stubDeps id)) "<form></form>"
        = some (none, some "dit: classifier not initialized") ∧
      Classifier.ExtractPageTypeProba ({ fc := none } : Classifier (stubDeps id))
        "<form></form>" 0 = some (none, some "dit: classifier not initialized") ∧
      ((({ fc := none } : Classifier (stubDeps id)).fc = none) →
        Classifier.Save ({ fc := none } : Classifier (stubDeps id)) "model.json"
          = some "dit: classifier not initialized")) ∧
    Classifier.ExtractPageType
        ({ fc := some { FormModel := none, FieldModel := none, PageModel := some tiedModel } } :
          Classifier (stubDeps id)) "<form></form>"
      = some (none, some "dit: classifier not initialized") :=
  ⟨Extract_not_initialized (stubDeps id) { fc := none } (Or.inl rfl) "<form></form>" 0
      "model.json",
    by decide⟩

/-! ## Classifier: a missing page model -/

/-- With the form model present, the loop body of `ExtractForms` never
panics: every form gets an entry. -/
theorem formEntry_total {D : Deps} (fc : FormFieldClassifier D) (formModel : D.FormTypeModel)
    (hfm : fc.FormModel = some formModel) (proba : Bool) (threshold : ℚ)
    (classifyFields : Bool) :
    ∃ g : D.Form → classifier.FormResult,
      ∀ form, formEntry fc proba threshold classifyFields form = some (g form) := by
  have hsome : ∀ form, (formEntry fc proba threshold classifyFields form).isSome = true := by
    intro form
    unfold formEntry FormFieldClassifier.Classify FormFieldClassifier.ClassifyProba
    rw [hfm]
    cases proba <;> cases classifyFields <;> cases fc.FieldModel <;> rfl
  refine ⟨fun form =>
    (formEntry fc proba threshold classifyFields form).getD classifier.FormResult.zero, ?_⟩
  intro form
  have h := hsome form
  cases hentry : formEntry fc proba threshold classifyFields form with
  | none =>
    rw [hentry] at h
    cases h
  | some r =>
    show some r = some ((formEntry fc proba threshold classifyFields form).getD
      classifier.FormResult.zero)
    rw [hentry]
    rfl

/-- `FormFieldClassifier.ExtractForms` with the form model present: the
parse error when the HTML does not parse, one entry per form otherwise. -/
theorem FormFieldClassifier.ExtractForms_total {D : Deps} (fc : FormFieldClassifier D)
    (formModel : D.FormTypeModel) (hfm : fc.FormModel = some formModel) (html : String)
    (proba : Bool) (threshold : ℚ) (classifyFields : Bool) :
    (∀ err, D.LoadHTMLString html = Except.error err →
      fc.ExtractForms html proba threshold classifyFields = some (none, some err)) ∧
    (∀ doc, D.LoadHTMLString html = Except.ok doc →
      ∃ results, fc.ExtractForms html proba threshold classifyFields
          = some (some results, none) ∧
        results.length = (D.GetForms doc).length) := by
  constructor
  · intro err herr
    unfold FormFieldClassifier.ExtractForms
    rw [herr]
  · intro doc hdoc
    obtain ⟨g, hg⟩ := formEntry_total fc formModel hfm proba threshold classifyFields
    refine ⟨(D.GetForms doc).map g, ?_, List.length_map _ _⟩
    unfold FormFieldClassifier.ExtractForms
    rw [hdoc]
    simp only [forEachForm_total _ g hg]

/-- C11. On a classifier whose form model is present and whose page
model is nil, `ExtractPageType` and `ExtractPageTypeProba` return, for every
HTML string, a nil result and the error `dit: page model not available` (a
return, not a panic); `ExtractForms` and `ExtractFormsProba` on the same
classifier succeed on every HTML string that parses, with one result per
form, and return the parse error otherwise. -/
theorem ExtractPageType_without_page_model (D : Deps) (c : Classifier D)
    (fc : FormFieldClassifier D) (formModel : D.FormTypeModel)
    (hfc : c.fc = some fc) (hfm : fc.FormModel = some formModel)
    (hpm : fc.PageModel = none) (html : String) (threshold : ℚ) :
    c.ExtractPageType html = some (none, some "dit: page model not available") ∧
    c.ExtractPageTypeProba html threshold
      = some (none, some "dit: page model not available") ∧
    (∀ doc, D.LoadHTMLString html = Except.ok doc →
      (∃ out, c.ExtractForms html = some (some out, none) ∧
        out.length = (D.GetForms doc).length) ∧
      (∃ out, c.ExtractFormsProba html threshold = some (some out, none) ∧
        out.length = (D.GetForms doc).length)) ∧
    (∀ err, D.LoadHTMLString html = Except.error err →
      c.ExtractForms html = some (none, some ("dit: " ++ err)) ∧
      c.ExtractFormsProba html threshold = some (none, some ("dit: " ++ err))) := by
  have hinit := initialized_of_models c fc formModel hfc hfm
  refine ⟨?_, ?_, ?_, ?_⟩
  · unfold Classifier.ExtractPageType
    rw [hinit]
    simp [hpm]
  · unfold Classifier.ExtractPageTypeProba
    rw [hinit]
    simp [hpm]
  · intro doc hdoc
    constructor
    · obtain ⟨results, hres, hlen⟩ :=
        (FormFieldClassifier.ExtractForms_total fc formModel hfm html false 0 true).2 doc hdoc
      refine ⟨results.map (fun r => { Type_ := r.Result.Form, Fields := r.Result.Fields }),
        ?_, by rw [List.length_map, hlen]⟩
      unfold Classifier.ExtractForms
      rw [hinit]
      simp only [hres, Option.getD_some]
    · obtain ⟨results, hres, hlen⟩ :=
        (FormFieldClassifier.ExtractForms_total fc formModel hfm html true threshold true).2
          doc hdoc
      refine ⟨results.map (fun r => { Type_ := r.Proba.Form, Fields := r.Proba.Fields }),
        ?_, by rw [List.length_map, hlen]⟩
      unfold Classifier.ExtractFormsProba
      rw [hinit]
      simp only [hres, Option.getD_some]
  · intro err herr
    constructor
    · have hres :=
        (FormFieldClassifier.ExtractForms_total fc formModel hfm html false 0 true).1 err herr
      unfold Classifier.ExtractForms
      rw [hinit]
      simp only [hres]
    · have hres :=
        (FormFieldClassifier.ExtractForms_total fc formModel hfm html true threshold true).1
          err herr
      unfold Classifier.ExtractFormsProba
      rw [hinit]
      simp only [hres]

/-- Witness of `ExtractPageType_without_page_model`: the stand-in classifier
with a form model and no page model, on a page with one form. -/
theorem ExtractPageType_without_page_model_witness :
    Classifier.ExtractFormsProba
        ({ fc := some { FormModel := some (), FieldModel := none, PageModel := none } } :
          Classifier (stubDeps id)) "<form></form>" 0
      = some (some [{ Type_ := [("login", mkRat 1 2), ("search", mkRat 1 2)], Fields := [] }],
          none) ∧
    (Classifier.ExtractPageType
        ({ fc := some { FormModel := some (), FieldModel := none, PageModel := none } } :
          Classifier (stubDeps id)) "<form></form>"
      = some (none, some "dit: page model not available") ∧
    Classifier.ExtractPageTypeProba
        ({ fc := some { FormModel := some (), FieldModel := none, PageModel := none } } :
          Classifier (stubDeps id)) "<form></form>" 0
      = some (none, some "dit: page model not available") ∧
    (∀ doc, (stubDeps id).LoadHTMLString "<form></form>" = Except.ok doc →
      (∃ out, Classifier.ExtractForms
          ({ fc := some { FormModel := some (), FieldModel := none, PageModel := none } } :
            Classifier (stubDeps id)) "<form></form>" = some (some out, none) ∧
        out.length = ((stubDeps id).GetForms doc).length) ∧
      (∃ out, Classifier.ExtractFormsProba
          ({ fc := some { FormModel := some (), FieldModel := none, PageModel := none } } :
            Classifier (stubDeps id)) "<form></form>" 0 = some (some out, none) ∧
        out.length = ((stubDeps id).GetForms doc).length)) ∧
    (∀ err, (stubDeps id).LoadHTMLString "<form></form>" = Except.error err →
      Classifier.ExtractForms
          ({ fc := some { FormModel := some (), FieldModel := none, PageModel := none } } :
            Classifier (stubDeps id)) "<form></form>" = some (none, some ("dit: " ++ err)) ∧
      Classifier.ExtractFormsProba
          ({ fc := some { FormModel := some (), FieldModel := none, PageModel := none } } :
            Classifier (stubDeps id)) "<form></form>" 0
        = some (none, some ("dit: " ++ err)))) :=
  ⟨by decide,
    ExtractPageType_without_page_model (stubDeps id)
      { fc := some { FormModel := some (), FieldModel := none, PageModel := none } }
      { FormModel := some (), FieldModel := none, PageModel := none } () rfl rfl rfl
      "<form></form>" 0⟩

/-! ## contentLengthBucket and the page pipelines -/

/-- C19. `contentLengthBucket(n)` is 0 for `n < 100`, 1 for `100 <= n < 500`,
2 for `500 <= n < 2000`, 3 for `2000 <= n < 10000` and 4 for `n >= 10000`;
it is monotone non-decreasing in `n` and its values lie in `{0, 1, 2, 3, 4}`. -/
theorem contentLengthBucket_spec (n : Int) (hn : 0 ≤ n) :
    (n < 100 → contentLengthBucket n = 0) ∧
    (100 ≤ n → n < 500 → contentLengthBucket n = 1) ∧
    (500 ≤ n → n < 2000 → contentLengthBucket n = 2) ∧
    (2000 ≤ n → n < 10000 → contentLengthBucket n = 3) ∧
    (10000 ≤ n → contentLengthBucket n = 4) ∧
    (∀ m : Int, 0 ≤ m → m ≤ n → contentLengthBucket m ≤ contentLengthBucket n) ∧
    contentLengthBucket n ∈ ({0, 1, 2, 3, 4} : Set ℚ) := by
  refine ⟨?_, ?_, ?_, ?_, ?_, ?_, ?_⟩
  · intro h
    unfold contentLengthBucket
    rw [if_pos h]
  · intro h1 h2
    unfold contentLengthBucket
    rw [if_neg (by omega), if_pos h2]
  · intro h1 h2
    unfold contentLengthBucket
    rw [if_neg (by omega), if_neg (by omega), if_pos h2]
  · intro h1 h2
    unfold contentLengthBucket
    rw [if_neg (by omega), if_neg (by omega), if_neg (by omega), if_pos h2]
  · intro h1
    unfold contentLengthBucket
    rw [if_neg (by omega), if_neg (by omega), if_neg (by omega), if_neg (by omega)]
  · intro m _ hmn
    unfold contentLengthBucket
    split_ifs <;> first | omega | norm_num
  · unfold contentLengthBucket
    split_ifs <;> simp

/-- Witness of `contentLengthBucket_spec`: a body text of 499 bytes. -/
theorem contentLengthBucket_spec_witness :
    contentLengthBucket 499 = 1 ∧
    ((499 : Int) < 100 → contentLengthBucket 499 = 0) ∧
    ((100 : Int) ≤ 499 → (499 : Int) < 500 → contentLengthBucket 499 = 1) ∧
    ((500 : Int) ≤ 499 → (499 : Int) < 2000 → contentLengthBucket 499 = 2) ∧
    ((2000 : Int) ≤ 499 → (499 : Int) < 10000 → contentLengthBucket 499 = 3) ∧
    ((10000 : Int) ≤ 499 → contentLengthBucket 499 = 4) ∧
    (∀ m : Int, 0 ≤ m → m ≤ 499 → contentLengthBucket m ≤ contentLengthBucket 499) ∧
    contentLengthBucket 499 ∈ ({0, 1, 2, 3, 4} : Set ℚ) :=
  ⟨by decide, contentLengthBucket_spec 499 (by decide)⟩

/-- C20. `DefaultPageFeaturePipelines` returns exactly 9 pipelines, in this
order: the dict pipeline of the page structure (position 0); the TF-IDF
word pipelines with n-gram range (1,2) of title, meta description, headings
and h1; the TF-IDF `char_wb` pipeline with range (4,5) of the CSS classes
and ids; the TF-IDF word pipeline with range (1,2) of the nav text; the dict
pipeline of the form type summary (position 7); the TF-IDF `char_wb`
pipeline with range (5,6) of the URL. For every pipeline `VecType` is
`dict` exactly when `IsDict()` of its extractor is true. -/
theorem DefaultPageFeaturePipelines_spec :
    DefaultPageFeaturePipelines.length = 9 ∧
    DefaultPageFeaturePipelines.map
        (fun p => (p.Extractor, p.VecType, p.Analyzer, p.NgramRange)) =
      [ (.PageStructureExtractor, "dict", "", (0, 0)),
        (.PageTitleExtractor, "tfidf", "word", (1, 2)),
        (.PageMetaDescriptionExtractor, "tfidf", "word", (1, 2)),
        (.PageHeadingsExtractor, "tfidf", "word", (1, 2)),
        (.PageH1Extractor, "tfidf", "word", (1, 2)),
        (.PageCSSExtractor, "tfidf", "char_wb", (4, 5)),
        (.PageNavTextExtractor, "tfidf", "word", (1, 2)),
        (.FormTypeSummaryExtractor, "dict", "", (0, 0)),
        (.PageURLExtractor "", "tfidf", "char_wb", (5, 6)) ] ∧
    (DefaultPageFeaturePipelines.filter (fun p => decide (p.VecType = "dict"))).map
        (fun p => p.Name) = ["page structure", "form type summary"] ∧
    ((DefaultPageFeaturePipelines.filter
        (fun p => decide (p.VecType = "tfidf" ∧ p.Analyzer = "word"))).length = 5) ∧
    DefaultPageFeaturePipelines.all
        (fun p => decide (p.VecType = "dict" ↔ p.Extractor.IsDict = true)) = true ∧
    DefaultPageFeaturePipelines.map (fun p => pageExtractorTypeName p.Extractor) =
      ["PageStructure", "PageTitle", "PageMetaDescription", "PageHeadings", "PageH1",
        "PageCSS", "PageNavText", "FormTypeSummary", "PageURL"] := by
  refine ⟨by decide, by decide, by decide, by decide, by decide, by decide⟩

/-! ## FormTypeSummaryExtractor.ExtractDict -/

theorem foldl_set_get?_other {κ ν α : Type} [DecidableEq κ] (key : α → κ) (val : α → ν)
    (l : List α) (m0 : GoMap κ ν) (k : κ) (hk : k ∉ l.map key) :
    GoMap.get? (l.foldl (fun m x => GoMap.set m (key x) (val x)) m0) k = GoMap.get? m0 k := by
  induction l generalizing m0 with
  | nil => rfl
  | cons a l ih =>
    simp only [List.map_cons, List.mem_cons, not_or] at hk
    rw [List.foldl_cons, ih _ hk.2, GoMap.get?_set, if_neg hk.1]

theorem foldl_set_get?_mem {κ ν α : Type} [DecidableEq κ] (key : α → κ) (val : α → ν)
    (l : List α) (m0 : GoMap κ ν) (hl : (l.map key).Nodup) (x : α) (hx : x ∈ l) :
    GoMap.get? (l.foldl (fun m x => GoMap.set m (key x) (val x)) m0) (key x)
      = some (val x) := by
  induction l generalizing m0 with
  | nil => exact absurd hx (List.not_mem_nil x)
  | cons a l ih =>
    rw [List.map_cons, List.nodup_cons] at hl
    rw [List.foldl_cons]
    rcases List.mem_cons.1 hx with rfl | hx'
    · rw [foldl_set_get?_other key val l _ _ hl.1, GoMap.get?_set, if_pos rfl]
    · exact ih _ hl.2 hx'

/-- The counts kept by the loop `typeCounts[r.Form]++`, started from `acc`. -/
theorem typeCounts_loop (l : List ClassifyResult) (acc : GoMap String Int) (t : String) :
    GoMap.get?
        (l.foldl (fun typeCounts r =>
          GoMap.set typeCounts r.Form ((GoMap.get? typeCounts r.Form).getD 0 + 1)) acc) t =
      match GoMap.get? acc t with
      | some c => some (c + (l.countP (fun r => decide (r.Form = t)) : Int))
      | none =>
        if l.countP (fun r => decide (r.Form = t)) = 0 then none
        else some (l.countP (fun r => decide (r.Form = t)) : Int) := by
  induction l generalizing acc with
  | nil =>
    cases hacc : GoMap.get? acc t <;> simp [hacc]
  | cons r l ih =>
    rw [List.foldl_cons, ih, GoMap.get?_set]
    by_cases hrt : t = r.Form
    · subst hrt
      cases hacc : GoMap.get? acc r.Form with
      | none =>
        simp only [if_true, Option.getD_none, List.countP_cons, decide_True]
        simp
        omega
      | some c =>
        simp only [if_true, Option.getD_some, List.countP_cons, decide_True]
        simp
        omega
    · have hne : ¬ r.Form = t := fun h => hrt h.symm
      rw [if_neg hrt]
      simp only [List.countP_cons, hne, decide_False]
      simp

theorem typeCounts_WF (l : List ClassifyResult) (acc : GoMap String Int) (hacc : acc.WF) :
    (l.foldl (fun typeCounts r =>
      GoMap.set typeCounts r.Form ((GoMap.get? typeCounts r.Form).getD 0 + 1)) acc).WF := by
  induction l generalizing acc with
  | nil => exact hacc
  | cons r l ih => exact ih _ (GoMap.WF_set acc hacc _ _)

/-- The map `typeCounts` holds, for each form type that occurs, the number
of results with that type, and nothing else. -/
theorem typeCountsOf_get? (formResults : List ClassifyResult) (t : String) :
    GoMap.get? (typeCountsOf formResults) t =
      if formResults.countP (fun r => decide (r.Form = t)) = 0 then none
      else some (formResults.countP (fun r => decide (r.Form = t)) : Int) := by
  unfold typeCountsOf
  rw [typeCounts_loop]
  rfl

theorem typeCountsOf_mem (formResults : List ClassifyResult) (e : String × Int) :
    e ∈ typeCountsOf formResults ↔
      (e.2 = (formResults.countP (fun r => decide (r.Form = e.1)) : Int) ∧ 0 < e.2) := by
  have hwf : (typeCountsOf formResults).WF := typeCounts_WF formResults [] List.nodup_nil
  rw [← GoMap.get?_eq_some_iff _ hwf e.1 e.2, typeCountsOf_get?]
  by_cases h0 : formResults.countP (fun r => decide (r.Form = e.1)) = 0
  · rw [if_pos h0, h0]
    constructor
    · intro h; cases h
    · rintro ⟨h1, h2⟩
      rw [h1] at h2
      simp at h2
  · rw [if_neg h0]
    constructor
    · intro h
      have : (formResults.countP (fun r => decide (r.Form = e.1)) : Int) = e.2 :=
        Option.some.inj h
      omega
    · rintro ⟨h1, _⟩
      rw [h1]

/-- The dominant-type loop from `(b, q)`: either no visited count exceeds `q`
and the loop keeps `(b, q)`, or it ends at the first visited entry of
maximal count. -/
theorem foldl_dominantStep (l : GoMap String Int) (b : String) (q : Int) :
    ((∀ e ∈ l, e.2 ≤ q) ∧ l.foldl dominantStep (b, q) = (b, q)) ∨
    ∃ pre e post, l = pre ++ e :: post ∧ l.foldl dominantStep (b, q) = e ∧ q < e.2 ∧
      (∀ x ∈ pre, x.2 < e.2) ∧ ∀ x ∈ post, x.2 ≤ e.2 := by
  induction l generalizing b q with
  | nil => exact Or.inl ⟨fun e he => absurd he (List.not_mem_nil e), rfl⟩
  | cons a l ih =>
    rw [List.foldl_cons]
    by_cases ha : a.2 > q
    · have hstep : dominantStep (b, q) a = (a.1, a.2) := by
        unfold dominantStep
        rw [if_pos ha]
      rw [hstep]
      rcases ih a.1 a.2 with ⟨hall, hres⟩ | ⟨pre, e, post, hl, hres, hlt, hpre, hpost⟩
      · right
        exact ⟨[], a, l, rfl, hres, ha, fun x hx => absurd hx (List.not_mem_nil x), hall⟩
      · right
        refine ⟨a :: pre, e, post, by rw [hl]; rfl, hres, lt_trans ha hlt, ?_, hpost⟩
        intro x hx
        rcases List.mem_cons.1 hx with rfl | hx
        · exact hlt
        · exact hpre x hx
    · have hstep : dominantStep (b, q) a = (b, q) := by
        unfold dominantStep
        rw [if_neg ha]
      rw [hstep]
      have haq : a.2 ≤ q := not_lt.1 ha
      rcases ih b q with ⟨hall, hres⟩ | ⟨pre, e, post, hl, hres, hlt, hpre, hpost⟩
      · left
        refine ⟨?_, hres⟩
        intro x hx
        rcases List.mem_cons.1 hx with rfl | hx
        · exact haq
        · exact hall x hx
      · right
        refine ⟨a :: pre, e, post, by rw [hl]; rfl, hres, hlt, ?_, hpost⟩
        intro x hx
        rcases List.mem_cons.1 hx with rfl | hx
        · exact lt_of_le_of_lt haq hlt
        · exact hpre x hx

theorem ExtractDict_nonempty (rng : GoMap String Int → GoMap String Int)
    (formResults : List ClassifyResult) (hne : formResults ≠ []) :
    GoMap.get? (FormTypeSummaryExtractor.ExtractDict rng formResults) "dominant_type" =
      some (.str ((rng (typeCountsOf formResults)).foldl dominantStep ("", 0)).1) := by
  have hlen : formResults.length > 0 := List.length_pos.2 hne
  unfold FormTypeSummaryExtractor.ExtractDict
  simp only [hlen, if_true]
  rw [GoMap.get?_set, if_pos rfl]

/-- For a non-empty list of results, `dominant_type` is the type of the first
entry of maximal count in the order in which the loop visits `typeCounts`. -/
theorem ExtractDict_dominant_visit (rng : GoMap String Int → GoMap String Int)
    (hr : RangeOrder rng) (formResults : List ClassifyResult) (hne : formResults ≠ []) :
    ∃ pre e post, rng (typeCountsOf formResults) = pre ++ e :: post ∧
      GoMap.get? (FormTypeSummaryExtractor.ExtractDict rng formResults) "dominant_type"
        = some (.str e.1) ∧
      (∀ x ∈ pre, x.2 < e.2) ∧ ∀ x ∈ post, x.2 ≤ e.2 := by
  rw [ExtractDict_nonempty rng formResults hne]
  rcases foldl_dominantStep (rng (typeCountsOf formResults)) "" 0 with
    ⟨hall, _⟩ | ⟨pre, e, post, hl, hres, _, hpre, hpost⟩
  · exfalso
    obtain ⟨r, hr0⟩ := List.exists_mem_of_ne_nil formResults hne
    have hpos : 0 < formResults.countP (fun x => decide (x.Form = r.Form)) :=
      List.countP_pos_iff.2 ⟨r, hr0, by simp⟩
    have hmem : (r.Form, (formResults.countP (fun x => decide (x.Form = r.Form)) : Int))
        ∈ typeCountsOf formResults :=
      (typeCountsOf_mem formResults _).2 ⟨rfl, by
        show (0 : Int) < (formResults.countP (fun x => decide (x.Form = r.Form)) : Int)
        exact_mod_cast hpos⟩
    have := hall _ ((hr _).mem_iff.2 hmem)
    simp only at this
    omega
  · exact ⟨pre, e, post, hl, by rw [hres], hpre, hpost⟩

theorem typeFlagKeys_eq :
    knownTypes.map typeFlagKey =
      ["has_login_form", "has_registration_form", "has_search_form",
        "has_password_login_recovery_form", "has_contact_comment_form",
        "has_mailing_list_form", "has_order_checkout_form", "has_other_form"] := by
  decide

/-- The per-type flags written by the loop over `knownTypes`, and the keys
that loop does not touch, in the dict before the dominant type is set. -/
theorem ExtractDict_get?_of_ne (rng : GoMap String Int → GoMap String Int)
    (formResults : List ClassifyResult) (k : String) (hk : k ≠ "dominant_type") :
    GoMap.get? (FormTypeSummaryExtractor.ExtractDict rng formResults) k =
      GoMap.get? (knownTypes.foldl
        (fun features tp =>
          GoMap.set features (typeFlagKey tp)
            (FeatureValue.num (boolToPageFloat
              (decide ((GoMap.get? (typeCountsOf formResults) tp).getD 0 > 0)))))
        [("form_count", FeatureValue.num (formResults.length : ℚ)),
         ("has_any_form", FeatureValue.num (boolToPageFloat (decide (formResults.length > 0)))),
         ("dominant_type", FeatureValue.str "none")]) k := by
  unfold FormTypeSummaryExtractor.ExtractDict
  by_cases hlen : formResults.length > 0
  · simp only [hlen, if_true]
    rw [GoMap.get?_set, if_neg hk]
  · simp only [hlen, if_false]

/-- C15. `FormTypeSummaryExtractor.ExtractDict` returns `form_count` =
`len(formResults)`, `has_any_form` = 1.0 when the list is not empty and 0.0
otherwise, and for each of the eight known form types `T` the flag
`has_<T>_form` (with `/` and space replaced by `_`) = 1.0 when at least one
result has `Form = T` and 0.0 otherwise. -/
theorem ExtractDict_counts_and_flags (rng : GoMap String Int → GoMap String Int)
    (formResults : List ClassifyResult) :
    GoMap.get? (FormTypeSummaryExtractor.ExtractDict rng formResults) "form_count"
      = some (.num (formResults.length : ℚ)) ∧
    GoMap.get? (FormTypeSummaryExtractor.ExtractDict rng formResults) "has_any_form"
      = some (.num (if formResults.length > 0 then 1 else 0)) ∧
    knownTypes = ["login", "registration", "search", "password/login recovery",
      "contact/comment", "mailing list", "order/checkout", "other"] ∧
    knownTypes.map typeFlagKey =
      ["has_login_form", "has_registration_form", "has_search_form",
        "has_password_login_recovery_form", "has_contact_comment_form",
        "has_mailing_list_form", "has_order_checkout_form", "has_other_form"] ∧
    ∀ tp ∈ knownTypes,
      ((∃ r ∈ formResults, r.Form = tp) →
        GoMap.get? (FormTypeSummaryExtractor.ExtractDict rng formResults) (typeFlagKey tp)
          = some (.num 1)) ∧
      ((¬ ∃ r ∈ formResults, r.Form = tp) →
        GoMap.get? (FormTypeSummaryExtractor.ExtractDict rng formResults) (typeFlagKey tp)
          = some (.num 0)) := by
  refine ⟨?_, ?_, rfl, typeFlagKeys_eq, ?_⟩
  · rw [ExtractDict_get?_of_ne rng formResults "form_count" (by decide),
      foldl_set_get?_other typeFlagKey _ knownTypes _ "form_count"
        (by rw [typeFlagKeys_eq]; decide)]
    rfl
  · rw [ExtractDict_get?_of_ne rng formResults "has_any_form" (by decide),
      foldl_set_get?_other typeFlagKey _ knownTypes _ "has_any_form"
        (by rw [typeFlagKeys_eq]; decide)]
    unfold boolToPageFloat
    by_cases hlen : formResults.length > 0
    · simp [GoMap.get?_cons, hlen]
    · simp [GoMap.get?_cons, hlen]
  · intro tp htp
    have hkey : typeFlagKey tp ≠ "dominant_type" := by
      intro heq
      have hin : "dominant_type" ∈ knownTypes.map typeFlagKey :=
        heq ▸ List.mem_map_of_mem typeFlagKey htp
      rw [typeFlagKeys_eq] at hin
      exact absurd hin (by decide)
    have hget := foldl_set_get?_mem typeFlagKey
      (fun tp => FeatureValue.num (boolToPageFloat
        (decide ((GoMap.get? (typeCountsOf formResults) tp).getD 0 > 0))))
      knownTypes
      [("form_count", FeatureValue.num (formResults.length : ℚ)),
       ("has_any_form", FeatureValue.num (boolToPageFloat (decide (formResults.length > 0)))),
       ("dominant_type", FeatureValue.str "none")]
      (by rw [typeFlagKeys_eq]; decide) tp htp
    rw [ExtractDict_get?_of_ne rng formResults _ hkey, hget]
    beta_reduce
    rw [typeCountsOf_get?]
    have hcount : (∃ r ∈ formResults, r.Form = tp) ↔
        0 < formResults.countP (fun r => decide (r.Form = tp)) := by
      rw [List.countP_pos_iff]
      simp
    constructor
    · intro hex
      have hpos := hcount.1 hex
      have hne : ¬ formResults.countP (fun r => decide (r.Form = tp)) = 0 := by omega
      rw [if_neg hne]
      unfold boolToPageFloat
      simp only [Option.getD_some]
      rw [if_pos (by
        rw [decide_eq_true_eq]
        show (0 : Int) < (formResults.countP (fun r => decide (r.Form = tp)) : Int)
        exact_mod_cast hpos)]
    · intro hnex
      have hzero : formResults.countP (fun r => decide (r.Form = tp)) = 0 := by
        by_contra hne
        exact hnex (hcount.2 (by omega))
      rw [if_pos hzero]
      unfold boolToPageFloat
      simp

/-- Witness of `ExtractDict_counts_and_flags`: two login forms and a search form. -/
theorem ExtractDict_counts_and_flags_witness :
    GoMap.get? (FormTypeSummaryExtractor.ExtractDict id
        [{ Form := "login", Fields := [] }, { Form := "search", Fields := [] },
          { Form := "login", Fields := [] }]) "has_login_form" = some (.num 1) ∧
    GoMap.get? (FormTypeSummaryExtractor.ExtractDict id
        [{ Form := "login", Fields := [] }, { Form := "search", Fields := [] },
          { Form := "login", Fields := [] }]) "has_other_form" = some (.num 0) ∧
    GoMap.get? (FormTypeSummaryExtractor.ExtractDict id
        [{ Form := "login", Fields := [] }, { Form := "search", Fields := [] },
          { Form := "login", Fields := [] }]) "form_count" = some (.num 3) :=
  ⟨((ExtractDict_counts_and_flags id
        [{ Form := "login", Fields := [] }, { Form := "search", Fields := [] },
          { Form := "login", Fields := [] }]).2.2.2.2 "login" (by decide)).1
      ⟨{ Form := "login", Fields := [] }, by decide, rfl⟩,
    ((ExtractDict_counts_and_flags id
        [{ Form := "login", Fields := [] }, { Form := "search", Fields := [] },
          { Form := "login", Fields := [] }]).2.2.2.2 "other" (by decide)).2 (by decide),
    by
      have h := (ExtractDict_counts_and_flags id
        [{ Form := "login", Fields := [] }, { Form := "search", Fields := [] },
          { Form := "login", Fields := [] }]).1
      simpa using h⟩

/-- C16. The `dominant_type` returned by `FormTypeSummaryExtractor.ExtractDict`
is `"none"` for the empty list, and otherwise a form type that occurs in
`formResults` and that no other type exceeds in number of occurrences. -/
theorem ExtractDict_dominant_type (rng : GoMap String Int → GoMap String Int)
    (hr : RangeOrder rng) (formResults : List ClassifyResult) :
    (formResults = [] →
      GoMap.get? (FormTypeSummaryExtractor.ExtractDict rng formResults) "dominant_type"
        = some (.str "none")) ∧
    (formResults ≠ [] →
      ∃ tp, GoMap.get? (FormTypeSummaryExtractor.ExtractDict rng formResults) "dominant_type"
          = some (.str tp) ∧
        (∃ r ∈ formResults, r.Form = tp) ∧
        ∀ tp', formResults.countP (fun r => decide (r.Form = tp'))
          ≤ formResults.countP (fun r => decide (r.Form = tp))) := by
  constructor
  · intro hnil
    rw [hnil]
    unfold FormTypeSummaryExtractor.ExtractDict
    simp only [List.length_nil, gt_iff_lt, lt_irrefl, if_false]
    rw [foldl_set_get?_other typeFlagKey _ knownTypes _ "dominant_type"
      (by rw [typeFlagKeys_eq]; decide)]
    rfl
  · intro hne
    obtain ⟨pre, e, post, hsplit, hget, hpre, hpost⟩ :=
      ExtractDict_dominant_visit rng hr formResults hne
    have hein : e ∈ typeCountsOf formResults := by
      apply (hr _).mem_iff.1
      rw [hsplit]
      exact List.mem_append_right _ (List.mem_cons_self _ _)
    obtain ⟨hcount, hpos⟩ := (typeCountsOf_mem formResults e).1 hein
    refine ⟨e.1, hget, ?_, ?_⟩
    · have : 0 < formResults.countP (fun r => decide (r.Form = e.1)) := by omega
      obtain ⟨r, hr1, hr2⟩ := List.countP_pos_iff.1 this
      exact ⟨r, hr1, by simpa using hr2⟩
    · intro tp'
      by_cases h0 : formResults.countP (fun r => decide (r.Form = tp')) = 0
      · rw [h0]
        exact Nat.zero_le _
      · have hmem : (tp', (formResults.countP (fun r => decide (r.Form = tp')) : Int))
            ∈ rng (typeCountsOf formResults) := by
          apply (hr _).mem_iff.2
          apply (typeCountsOf_mem formResults _).2
          refine ⟨rfl, ?_⟩
          show (0 : Int) < (formResults.countP (fun r => decide (r.Form = tp')) : Int)
          omega
        rw [hsplit] at hmem
        have hle : (formResults.countP (fun r => decide (r.Form = tp')) : Int) ≤ e.2 := by
          rcases List.mem_append.1 hmem with h | h
          · exact le_of_lt (hpre _ h)
          · rcases List.mem_cons.1 h with h | h
            · rw [← h]
            · exact hpost _ h
        omega

/-- Witness of `ExtractDict_dominant_type`: two login forms and a search form. -/
theorem ExtractDict_dominant_type_witness :
    GoMap.get? (FormTypeSummaryExtractor.ExtractDict List.reverse
        [{ Form := "login", Fields := [] }, { Form := "search", Fields := [] },
          { Form := "login", Fields := [] }]) "dominant_type" = some (.str "login") ∧
    (([{ Form := "login", Fields := [] }, { Form := "search", Fields := [] },
          { Form := "login", Fields := [] }] : List ClassifyResult) = [] →
      GoMap.get? (FormTypeSummaryExtractor.ExtractDict List.reverse
        [{ Form := "login", Fields := [] }, { Form := "search", Fields := [] },
          { Form := "login", Fields := [] }]) "dominant_type" = some (.str "none")) ∧
    (([{ Form := "login", Fields := [] }, { Form := "search", Fields := [] },
          { Form := "login", Fields := [] }] : List ClassifyResult) ≠ [] →
      ∃ tp, GoMap.get? (FormTypeSummaryExtractor.ExtractDict List.reverse
          [{ Form := "login", Fields := [] }, { Form := "search", Fields := [] },
            { Form := "login", Fields := [] }]) "dominant_type" = some (.str tp) ∧
        (∃ r ∈ ([{ Form := "login", Fields := [] }, { Form := "search", Fields := [] },
            { Form := "login", Fields := [] }] : List ClassifyResult), r.Form = tp) ∧
        ∀ tp', ([{ Form := "login", Fields := [] }, { Form := "search", Fields := [] },
            { Form := "login", Fields := [] }] : List ClassifyResult).countP
              (fun r => decide (r.Form = tp'))
          ≤ ([{ Form := "login", Fields := [] }, { Form := "search", Fields := [] },
            { Form := "login", Fields := [] }] : List ClassifyResult).countP
              (fun r => decide (r.Form = tp))) :=
  ⟨by decide,
    ExtractDict_dominant_type List.reverse (fun l => List.reverse_perm l)
      [{ Form := "login", Fields := [] }, { Form := "search", Fields := [] },
        { Form := "login", Fields := [] }]⟩

/-- C17, counterexample. One login form and one search form tie with count 1:
`dominant_type` is `search` when the loop visits the entry of `search`
first, and `login`, the first-seen type, when it visits `login` first. -/
theorem ExtractDict_tie_follows_visit :
    RangeOrder (id : GoMap String Int → GoMap String Int) ∧
    RangeOrder (List.reverse : GoMap String Int → GoMap String Int) ∧
    typeCountsOf [{ Form := "login", Fields := [] }, { Form := "search", Fields := [] }]
      = [("search", 1), ("login", 1)] ∧
    GoMap.get? (FormTypeSummaryExtractor.ExtractDict id
        [{ Form := "login", Fields := [] }, { Form := "search", Fields := [] }])
      "dominant_type" = some (.str "search") ∧
    GoMap.get? (FormTypeSummaryExtractor.ExtractDict List.reverse
        [{ Form := "login", Fields := [] }, { Form := "search", Fields := [] }])
      "dominant_type" = some (.str "login") :=
  ⟨fun l => List.Perm.refl l, fun l => List.reverse_perm l, by decide, by decide, by decide⟩

/-- C17, amended. For a non-empty `formResults`,
`FormTypeSummaryExtractor.ExtractDict` takes as `dominant_type` the type of
maximal count that its loop over `typeCounts` visits first: every type
visited before it has a strictly smaller count and no type visited after
it has a larger one. Among tied types the result is the one that the
`range` over the map yields first. -/
theorem ExtractDict_dominant_first_visited (rng : GoMap String Int → GoMap String Int)
    (hr : RangeOrder rng) (formResults : List ClassifyResult) (hne : formResults ≠ []) :
    ∃ pre e post, rng (typeCountsOf formResults) = pre ++ e :: post ∧
      GoMap.get? (FormTypeSummaryExtractor.ExtractDict rng formResults) "dominant_type"
        = some (.str e.1) ∧
      e.2 = (formResults.countP (fun r => decide (r.Form = e.1)) : Int) ∧
      (∀ x ∈ pre, x.2 < e.2) ∧ ∀ x ∈ post, x.2 ≤ e.2 := by
  obtain ⟨pre, e, post, hsplit, hget, hpre, hpost⟩ :=
    ExtractDict_dominant_visit rng hr formResults hne
  have hein : e ∈ typeCountsOf formResults := by
    apply (hr _).mem_iff.1
    rw [hsplit]
    exact List.mem_append_right _ (List.mem_cons_self _ _)
  exact ⟨pre, e, post, hsplit, hget, ((typeCountsOf_mem formResults e).1 hein).1, hpre, hpost⟩

/-- Witness of `ExtractDict_dominant_first_visited`: a login and a search form. -/
theorem ExtractDict_dominant_first_visited_witness :
    ∃ pre e post,
      id (typeCountsOf [{ Form := "login", Fields := [] }, { Form := "search", Fields := [] }])
        = pre ++ e :: post ∧
      GoMap.get? (FormTypeSummaryExtractor.ExtractDict id
          [{ Form := "login", Fields := [] }, { Form := "search", Fields := [] }])
        "dominant_type" = some (.str e.1) ∧
      e.2 = (([{ Form := "login", Fields := [] }, { Form := "search", Fields := [] }] :
        List ClassifyResult).countP (fun r => decide (r.Form = e.1)) : Int) ∧
      (∀ x ∈ pre, x.2 < e.2) ∧ ∀ x ∈ post, x.2 ≤ e.2 :=
  ExtractDict_dominant_first_visited id (fun l => List.Perm.refl l)
    [{ Form := "login", Fields := [] }, { Form := "search", Fields := [] }] (by decide)

/-! ## GetErrorIndicators -/

/-- A loop that makes several assignments per element is the loop over all
the assignments in order. -/
theorem foldl_entries_flatMap {κ ν α : Type} [DecidableEq κ] (entries : α → List (κ × ν))
    (l : List α) (m0 : GoMap κ ν) :
    l.foldl (fun features p =>
        (entries p).foldl (fun f kv => GoMap.set f kv.1 kv.2) features) m0
      = (l.flatMap entries).foldl (fun f kv => GoMap.set f kv.1 kv.2) m0 := by
  induction l generalizing m0 with
  | nil => rfl
  | cons p l ih => rw [List.foldl_cons, ih, List.flatMap_cons, List.foldl_append]

theorem indicatorEntries_keys (title h1 bodyText : GoString) (l : List (String × String)) :
    (l.flatMap (indicatorEntries title h1 bodyText)).map Prod.fst = l.flatMap indicatorKeys := by
  induction l with
  | nil => rfl
  | cons p l ih =>
    rw [List.flatMap_cons, List.flatMap_cons, List.map_append, ih]
    rfl

set_option maxRecDepth 100000 in
theorem indicatorKeys_nodup : (errorPatterns.flatMap indicatorKeys).Nodup := by
  decide

/-- Every assignment of `GetErrorIndicators` is read back from its result:
no later assignment has the same key. -/
theorem GetErrorIndicators_get? (ToLower : GoString → GoString)
    (pageTitle h1Text body : GoString) (p : String × String) (hp : p ∈ errorPatterns)
    (kv : String × FeatureValue)
    (hkv : kv ∈ indicatorEntries (ToLower pageTitle) (ToLower h1Text)
      (scannedBody (ToLower body)) p) :
    GoMap.get? (GetErrorIndicators ToLower pageTitle h1Text body) kv.1 = some kv.2 := by
  unfold GetErrorIndicators
  simp only []
  rw [foldl_entries_flatMap]
  apply foldl_set_get?_mem Prod.fst Prod.snd
  · rw [indicatorEntries_keys]
    exact indicatorKeys_nodup
  · exact List.mem_flatMap.2 ⟨p, hp, hkv⟩

/-- The indicators of `GetErrorIndicators` for one pattern. -/
theorem GetErrorIndicators_pattern (ToLower : GoString → GoString)
    (pageTitle h1Text body : GoString) (p : String × String) (hp : p ∈ errorPatterns) :
    GoMap.get? (GetErrorIndicators ToLower pageTitle h1Text body) ("title_has_" ++ p.1)
      = some (.num (if ascii p.2 <:+: ToLower pageTitle then 1 else 0)) ∧
    GoMap.get? (GetErrorIndicators ToLower pageTitle h1Text body) ("h1_has_" ++ p.1)
      = some (.num (if ascii p.2 <:+: ToLower h1Text then 1 else 0)) ∧
    GoMap.get? (GetErrorIndicators ToLower pageTitle h1Text body) ("body_has_" ++ p.1)
      = some (.num (if ascii p.2 <:+: scannedBody (ToLower body) then 1 else 0)) := by
  have hval : ∀ s : GoString, boolToFloat (Contains s (ascii p.2))
      = if ascii p.2 <:+: s then 1 else 0 := by
    intro s
    unfold boolToFloat Contains
    by_cases h : ascii p.2 <:+: s <;> simp [h]
  refine ⟨?_, ?_, ?_⟩
  · rw [← hval]
    exact GetErrorIndicators_get? ToLower pageTitle h1Text body p hp
      ("title_has_" ++ p.1, _) (by simp [indicatorEntries])
  · rw [← hval]
    exact GetErrorIndicators_get? ToLower pageTitle h1Text body p hp
      ("h1_has_" ++ p.1, _) (by simp [indicatorEntries])
  · rw [← hval]
    exact GetErrorIndicators_get? ToLower pageTitle h1Text body p hp
      ("body_has_" ++ p.1, _) (by simp [indicatorEntries])

/-- C18. For each of the 31 patterns `(name, keyword)`, `GetErrorIndicators`
returns `title_has_<name>` = 1.0 when the lowercased title contains the
keyword, `h1_has_<name>` = 1.0 when the lowercased h1 text contains it, and
`body_has_<name>` = 1.0 when the scanned prefix of the lowercased body
text contains it, each 0.0 otherwise. A title that lowercases to
`404 not found` sets `title_has_404` and `title_has_not_found` to 1.0, and
a scanned body text containing `does not exist` sets
`body_has_does_not_exist` to 1.0. -/
theorem GetErrorIndicators_spec (ToLower : GoString → GoString)
    (pageTitle h1Text body : GoString) :
    errorPatterns.length = 31 ∧
    (∀ p ∈ errorPatterns,
      GoMap.get? (GetErrorIndicators ToLower pageTitle h1Text body) ("title_has_" ++ p.1)
        = some (.num (if ascii p.2 <:+: ToLower pageTitle then 1 else 0)) ∧
      GoMap.get? (GetErrorIndicators ToLower pageTitle h1Text body) ("h1_has_" ++ p.1)
        = some (.num (if ascii p.2 <:+: ToLower h1Text then 1 else 0)) ∧
      GoMap.get? (GetErrorIndicators ToLower pageTitle h1Text body) ("body_has_" ++ p.1)
        = some (.num (if ascii p.2 <:+: scannedBody (ToLower body) then 1 else 0))) ∧
    (ToLower pageTitle = ascii "404 not found" →
      GoMap.get? (GetErrorIndicators ToLower pageTitle h1Text body) "title_has_404"
        = some (.num 1) ∧
      GoMap.get? (GetErrorIndicators ToLower pageTitle h1Text body) "title_has_not_found"
        = some (.num 1)) ∧
    (ascii "does not exist" <:+: scannedBody (ToLower body) →
      GoMap.get? (GetErrorIndicators ToLower pageTitle h1Text body) "body_has_does_not_exist"
        = some (.num 1)) := by
  refine ⟨by decide, ?_, ?_, ?_⟩
  · intro p hp
    exact GetErrorIndicators_pattern ToLower pageTitle h1Text body p hp
  · intro htitle
    have h1 := (GetErrorIndicators_pattern ToLower pageTitle h1Text body ("404", "404")
      (by decide)).1
    have h2 := (GetErrorIndicators_pattern ToLower pageTitle h1Text body
      ("not_found", "not found") (by decide)).1
    rw [htitle, if_pos (by decide)] at h1 h2
    exact ⟨h1, h2⟩
  · intro hbody
    have h3 := (GetErrorIndicators_pattern ToLower pageTitle h1Text body
      ("does_not_exist", "does not exist") (by decide)).2.2
    rw [if_pos hbody] at h3
    exact h3

/-- Witness of `GetErrorIndicators_spec`: the title `404 Not Found`, the h1
`Page Not Found` and a body with `does not exist` set `title_has_404`,
`title_has_not_found`, `h1_has_page_not_found` and
`body_has_does_not_exist` to 1.0, and leave `title_has_page_not_found` at
0.0. -/
theorem GetErrorIndicators_spec_witness :
    GoMap.get? (GetErrorIndicators asciiLower (ascii "404 Not Found") (ascii "Page Not Found")
        (ascii "The page does not exist.")) "title_has_404" = some (.num 1) ∧
    GoMap.get? (GetErrorIndicators asciiLower (ascii "404 Not Found") (ascii "Page Not Found")
        (ascii "The page does not exist.")) "title_has_not_found" = some (.num 1) ∧
    GoMap.get? (GetErrorIndicators asciiLower (ascii "404 Not Found") (ascii "Page Not Found")
        (ascii "The page does not exist.")) "title_has_page_not_found" = some (.num 0) ∧
    GoMap.get? (GetErrorIndicators asciiLower (ascii "404 Not Found") (ascii "Page Not Found")
        (ascii "The page does not exist.")) "h1_has_page_not_found" = some (.num 1) ∧
    GoMap.get? (GetErrorIndicators asciiLower (ascii "404 Not Found") (ascii "Page Not Found")
        (ascii "The page does not exist.")) "body_has_does_not_exist" = some (.num 1) := by
  have h := (GetErrorIndicators_spec asciiLower (ascii "404 Not Found")
    (ascii "Page Not Found") (ascii "The page does not exist.")).2.1
  refine ⟨?_, ?_, ?_, ?_, ?_⟩
  · have h1 := (h ("404", "404") (by decide)).1
    rw [if_pos (by decide)] at h1
    exact h1
  · have h1 := (h ("not_found", "not found") (by decide)).1
    rw [if_pos (by decide)] at h1
    exact h1
  · have h1 := (h ("page_not_found", "page not found") (by decide)).1
    rw [if_neg (by decide)] at h1
    exact h1
  · have h1 := (h ("page_not_found", "page not found") (by decide)).2.1
    rw [if_pos (by decide)] at h1
    exact h1
  · have h1 := (h ("does_not_exist", "does not exist") (by decide)).2.2
    rw [if_pos (by decide)] at h1
    exact h1

/-! ## Train and Evaluate: the guards on the annotations -/

/-- C12. When loading the form annotations fails, or yields no annotation,
`Train` and `Evaluate` return a nil classifier, respectively a nil result,
and a non-nil error, and no trainer has been called. -/
theorem Train_Evaluate_without_annotations (D : Deps) (T : TrainDeps D) (dataDir : String)
    (trainConfig : Option TrainConfig) (evalConfig : Option EvalConfig) :
    (∀ err, T.IterAnnotations dataDir (trainVerbose trainConfig) = Except.error err →
      Train T dataDir trainConfig = some ((none, some ("dit: " ++ err)), [])) ∧
    (∀ annotations, T.IterAnnotations dataDir (trainVerbose trainConfig) = Except.ok annotations →
      annotations.length = 0 →
      Train T dataDir trainConfig
        = some ((none, some ("dit: no annotations found in " ++ dataDir)), [])) ∧
    (∀ err, T.IterAnnotations dataDir (evalVerbose evalConfig) = Except.error err →
      Evaluate T dataDir evalConfig = some ((none, some ("dit: " ++ err)), [])) ∧
    (∀ annotations, T.IterAnnotations dataDir (evalVerbose evalConfig) = Except.ok annotations →
      annotations.length = 0 →
      Evaluate T dataDir evalConfig
        = some ((none, some ("dit: no annotations found in " ++ dataDir)), [])) := by
  refine ⟨?_, ?_, ?_, ?_⟩
  · intro err herr
    unfold Train
    simp only [herr]
  · intro annotations hann hlen
    unfold Train
    simp only [hann, hlen, if_true]
  · intro err herr
    unfold Evaluate
    simp only [herr]
  · intro annotations hann hlen
    unfold Evaluate
    simp only [hann, hlen, if_true]

/-! ## Evaluate: the scoring of one field sequence -/

/-- The token loop of the field scoring, from position `j`: `FieldTotal` grows
by the number of labels, `FieldCorrect` by the number of positions where
the prediction has the gold label, and the flag stays true only if all do. -/
theorem scoreTokens_eq (pred labels : List String) (j : Nat) (r : EvalResult) (a : Bool) :
    scoreTokens pred labels j (r, a) =
      ({ r with
          FieldCorrect := r.FieldCorrect +
            (List.range labels.length).countP (fun i => decide (pred[j + i]? = labels[i]?)),
          FieldTotal := r.FieldTotal + labels.length },
        a && (List.range labels.length).all (fun i => decide (pred[j + i]? = labels[i]?))) := by
  induction labels generalizing j r a with
  | nil => simp [scoreTokens]
  | cons label rest ih =>
    have hcond : (j < pred.length ∧ pred[j]? = some label) ↔ pred[j]? = some label := by
      constructor
      · exact fun h => h.2
      · intro h
        refine ⟨?_, h⟩
        by_contra hge
        rw [List.getElem?_eq_none (by omega)] at h
        cases h
    have hfun : ((fun i => decide (pred[j + i]? = (label :: rest)[i]?)) ∘ Nat.succ)
        = (fun i => decide (pred[j + 1 + i]? = rest[i]?)) := by
      funext i
      have hidx : j + Nat.succ i = j + 1 + i := by omega
      simp only [Function.comp, List.getElem?_cons_succ, hidx]
    rw [List.length_cons, List.range_succ_eq_map, List.countP_cons, List.all_cons,
      List.countP_map, List.all_map, hfun]
    by_cases h : pred[j]? = some label
    · have hif : j < pred.length ∧ pred[j]? = some label := hcond.2 h
      simp only [scoreTokens, hif, and_self, if_true, ih]
      simp only [Nat.add_zero, List.getElem?_cons_zero, h, decide_True, Bool.true_and, if_true]
      congr 1
      cases r
      simp only [EvalResult.mk.injEq, true_and, and_true]
      constructor <;> omega
    · have hif : ¬ (j < pred.length ∧ pred[j]? = some label) := fun hc => h hc.2
      simp only [scoreTokens, hif, if_false, ih]
      simp only [Nat.add_zero, List.getElem?_cons_zero, h, decide_False, Bool.false_and,
        Bool.and_false]
      congr 1
      cases r
      simp only [EvalResult.mk.injEq, true_and, and_true]
      constructor <;> first | omega | simp

/-- C13. Scoring one held-out sequence with gold labels `L` and prediction
`P`: `SequenceCorrect` is incremented exactly when every position `j <
len(L)` has `j < len(P)` and `P[j] = L[j]`; `FieldTotal` grows by `len(L)`,
`FieldCorrect` by the number of such positions, `SequenceTotal` by 1; no
other counter changes. -/
theorem scoreSequence_spec (P L : List String) (r : EvalResult) :
    (scoreSequence P L r).FieldTotal = r.FieldTotal + L.length ∧
    (scoreSequence P L r).FieldCorrect = r.FieldCorrect +
      (List.range L.length).countP (fun j => decide (j < P.length ∧ P[j]? = L[j]?)) ∧
    (scoreSequence P L r).SequenceTotal = r.SequenceTotal + 1 ∧
    ((∀ j, j < L.length → j < P.length ∧ P[j]? = L[j]?) →
      (scoreSequence P L r).SequenceCorrect = r.SequenceCorrect + 1) ∧
    ((¬ ∀ j, j < L.length → j < P.length ∧ P[j]? = L[j]?) →
      (scoreSequence P L r).SequenceCorrect = r.SequenceCorrect) ∧
    (scoreSequence P L r).FormCorrect = r.FormCorrect ∧
    (scoreSequence P L r).FormTotal = r.FormTotal ∧
    (scoreSequence P L r).PageCorrect = r.PageCorrect ∧
    (scoreSequence P L r).PageTotal = r.PageTotal := by
  have hpos : ∀ j, j < L.length → ((j < P.length ∧ P[j]? = L[j]?) ↔ P[0 + j]? = L[j]?) := by
    intro j hj
    rw [Nat.zero_add]
    constructor
    · exact fun h => h.2
    · intro h
      refine ⟨?_, h⟩
      by_contra hge
      rw [List.getElem?_eq_none (by omega), List.getElem?_eq_getElem hj] at h
      cases h
  have hcount : (List.range L.length).countP (fun j => decide (j < P.length ∧ P[j]? = L[j]?))
      = (List.range L.length).countP (fun i => decide (P[0 + i]? = L[i]?)) := by
    apply List.countP_congr
    intro j hj
    rw [List.mem_range] at hj
    simp only [decide_eq_true_eq]
    exact hpos j hj
  have hall : (List.range L.length).all (fun i => decide (P[0 + i]? = L[i]?)) = true ↔
      ∀ j, j < L.length → j < P.length ∧ P[j]? = L[j]? := by
    rw [List.all_eq_true]
    constructor
    · intro h j hj
      have := h j (List.mem_range.2 hj)
      rw [decide_eq_true_eq] at this
      exact (hpos j hj).2 this
    · intro h j hj
      rw [List.mem_range] at hj
      rw [decide_eq_true_eq]
      exact (hpos j hj).1 (h j hj)
  unfold scoreSequence
  simp only [scoreTokens_eq, Bool.true_and]
  rw [hcount]
  refine ⟨?_, ?_, ?_, ?_, ?_, ?_, ?_, ?_, ?_⟩
  · split <;> rfl
  · split <;> rfl
  · split <;> rfl
  · intro h
    rw [if_pos (hall.2 h)]
  · intro h
    have hn : ¬ (List.range L.length).all (fun i => decide (P[0 + i]? = L[i]?)) = true :=
      fun hc => h (hall.1 hc)
    rw [if_neg hn]
  · split <;> rfl
  · split <;> rfl
  · split <;> rfl
  · split <;> rfl

/-- Witness of `scoreSequence_spec`: a prediction that misses the second of
three tokens, and one that is too short. -/
theorem scoreSequence_spec_witness :
    scoreSequence ["username", "other", "submit"] ["username", "password", "submit"]
        EvalResult.zero
      = { EvalResult.zero with FieldCorrect := 2, FieldTotal := 3, SequenceTotal := 1 } ∧
    scoreSequence ["username"] ["username", "password"] EvalResult.zero
      = { EvalResult.zero with FieldCorrect := 1, FieldTotal := 2, SequenceTotal := 1 } ∧
    (scoreSequence ["username", "password"] ["username", "password"]
        EvalResult.zero).SequenceCorrect = EvalResult.zero.SequenceCorrect + 1 :=
  ⟨by decide, by decide,
    (scoreSequence_spec ["username", "password"] ["username", "password"]
      EvalResult.zero).2.2.2.1 (by decide)⟩

/-! ## Evaluate: the form stage -/

theorem domainGroupsLoop_length (getDomain : String → String) (urls : List String)
    (domainMap : GoMap String Int) (groups : List Int) :
    (domainGroupsLoop getDomain urls domainMap groups).length = groups.length + urls.length := by
  induction urls generalizing domainMap groups with
  | nil => rfl
  | cons url rest ih =>
    simp only [domainGroupsLoop, ih, List.length_append, List.length_cons, List.length_nil]
    omega

theorem domainGroups_length (getDomain : String → String) (urls : List String) :
    (domainGroups getDomain urls).length = urls.length := by
  unfold domainGroups
  rw [domainGroupsLoop_length]
  simp

theorem extractFormTrainingData_length {D : Deps} (T : TrainDeps D)
    (annotations : List FormAnnotation) :
    (extractFormTrainingData T annotations).1.length = annotations.length ∧
    (extractFormTrainingData T annotations).2.length = annotations.length := by
  unfold extractFormTrainingData
  simp

/-- The scoring loop of the form stage over in-range indices: it returns,
`FormTotal` grows by the number of indices, `FormCorrect` by at most that,
and nothing else changes. -/
theorem formScoreLoop_spec {D : Deps} (model : D.FormTypeModel) (forms : List D.Form)
    (labels : List String) (testIdx : List Nat) (r : EvalResult)
    (h : ∀ idx ∈ testIdx, idx < forms.length ∧ idx < labels.length) :
    ∃ c, c ≤ testIdx.length ∧
      formScoreLoop model forms labels testIdx r =
        some { r with FormCorrect := r.FormCorrect + c,
                      FormTotal := r.FormTotal + testIdx.length } := by
  induction testIdx generalizing r with
  | nil => exact ⟨0, Nat.le_refl 0, rfl⟩
  | cons idx rest ih =>
    obtain ⟨h1, h2⟩ := h idx (List.mem_cons_self _ _)
    have hrest : ∀ i ∈ rest, i < forms.length ∧ i < labels.length :=
      fun i hi => h i (List.mem_cons_of_mem _ hi)
    by_cases hc : D.formClassify model forms[idx] = labels[idx]
    · obtain ⟨c, hcle, hloop⟩ := ih
        { r with FormCorrect := r.FormCorrect + 1, FormTotal := r.FormTotal + 1 } hrest
      refine ⟨c + 1, by simp only [List.length_cons]; omega, ?_⟩
      simp only [formScoreLoop, List.getElem?_eq_getElem h1, List.getElem?_eq_getElem h2, hc,
        if_true, hloop, List.length_cons]
      congr 1
      cases r
      simp only [EvalResult.mk.injEq, true_and, and_true]
      omega
    · obtain ⟨c, hcle, hloop⟩ := ih { r with FormTotal := r.FormTotal + 1 } hrest
      refine ⟨c, by simp only [List.length_cons]; omega, ?_⟩
      simp only [formScoreLoop, List.getElem?_eq_getElem h1, List.getElem?_eq_getElem h2, hc,
        if_false, hloop, List.length_cons]
      congr 1
      cases r
      simp only [EvalResult.mk.injEq, true_and, and_true]
      omega

/-- The fold loop of the form stage over folds of in-range indices: it
returns, trains one form model per fold, and scores every index of every
fold once. -/
theorem formFoldLoop_spec {D : Deps} (T : TrainDeps D) (forms : List D.Form)
    (labels : List String) (hlen : labels.length = forms.length) (folds : List (List Nat))
    (s : EvalResult × TrainLog)
    (h : ∀ fold ∈ folds, ∀ idx ∈ fold, idx < forms.length) :
    ∃ c, c ≤ folds.flatten.length ∧
      formFoldLoop T forms labels folds s =
        some ({ s.1 with FormCorrect := s.1.FormCorrect + c,
                         FormTotal := s.1.FormTotal + folds.flatten.length },
          s.2 ++ List.replicate folds.length "TrainFormType") := by
  induction folds generalizing s with
  | nil =>
    refine ⟨0, Nat.le_refl 0, ?_⟩
    simp [formFoldLoop]
  | cons fold rest ih =>
    have hfold : ∀ idx ∈ fold, idx < forms.length := h fold (List.mem_cons_self _ _)
    obtain ⟨testSet, hts, htslen, _⟩ := makeTestSet_spec forms.length fold hfold
    obtain ⟨train, htrain, _⟩ := filterByIndex_spec forms labels testSet false
      (by omega) (by omega)
    obtain ⟨c1, hc1, hscore⟩ := formScoreLoop_spec
      (T.TrainFormType train.1 train.2 false) forms labels fold s.1
      (fun idx hidx => ⟨hfold idx hidx, by rw [hlen]; exact hfold idx hidx⟩)
    obtain ⟨c2, hc2, hloop⟩ := ih
      ({ s.1 with FormCorrect := s.1.FormCorrect + c1,
                  FormTotal := s.1.FormTotal + fold.length }, s.2 ++ ["TrainFormType"])
      (fun f hf => h f (List.mem_cons_of_mem _ hf))
    refine ⟨c1 + c2, by simp only [List.flatten_cons, List.length_append]; omega, ?_⟩
    simp only [formFoldLoop, hts, htrain, hscore, hloop, List.flatten_cons, List.length_append,
      List.length_cons, List.replicate_succ, List.append_assoc, List.singleton_append]
    congr 1
    congr 1
    · cases s.1
      simp only [EvalResult.mk.injEq, true_and, and_true]
      omega

/-- The form stage of `Evaluate` for `nFolds >= 1`, from counters at zero: it
returns, every form-annotated example is scored exactly once, and the
accuracy is the ratio of the counters when there is an example. -/
theorem evalFormStage_spec {D : Deps} (T : TrainDeps D) (hr : RangeOrder T.rngGroups)
    (nFolds : Int) (hn : 1 ≤ nFolds) (annotations : List FormAnnotation) (log : TrainLog) :
    ∃ c acc log', c ≤ (filterFormAnnotated annotations).length ∧
      evalFormStage T nFolds annotations (EvalResult.zero, log) =
        some ({ EvalResult.zero with
                  FormCorrect := c,
                  FormTotal := (filterFormAnnotated annotations).length,
                  FormAccuracy := acc }, log') ∧
      acc = (if (filterFormAnnotated annotations).length > 0 then
          (c : ℚ) / ((filterFormAnnotated annotations).length : ℚ) else 0) := by
  by_cases hpos : (filterFormAnnotated annotations).length > 0
  · obtain ⟨folds, hfolds, _, hbound, hperm⟩ := groupKFold_partition_aux T.rngGroups hr
      (domainGroups T.GetDomain ((filterFormAnnotated annotations).map (fun a => a.URL)))
      nFolds hn
    have hglen : (domainGroups T.GetDomain
        ((filterFormAnnotated annotations).map (fun a => a.URL))).length
        = (filterFormAnnotated annotations).length := by
      rw [domainGroups_length, List.length_map]
    obtain ⟨hl1, hl2⟩ := extractFormTrainingData_length T (filterFormAnnotated annotations)
    have hflat : folds.flatten.length = (filterFormAnnotated annotations).length := by
      rw [hperm.length_eq, List.length_range, hglen]
    obtain ⟨c, hc, hloop⟩ := formFoldLoop_spec T
      (extractFormTrainingData T (filterFormAnnotated annotations)).1
      (extractFormTrainingData T (filterFormAnnotated annotations)).2
      (by rw [hl1, hl2]) folds (EvalResult.zero, log)
      (by
        intro fold hfold idx hidx
        rw [hl1, ← hglen]
        exact (hbound fold hfold).2 idx hidx)
    rw [hflat] at hloop hc
    refine ⟨c, (c : ℚ) / ((filterFormAnnotated annotations).length : ℚ),
      log ++ List.replicate folds.length "TrainFormType", hc, ?_, ?_⟩
    · unfold evalFormStage
      simp only [hpos, if_true, hfolds, hloop]
      simp only [EvalResult.zero, Nat.zero_add, hpos, if_true]
    · simp [hpos, EvalResult.zero]
  · have hzero : (filterFormAnnotated annotations).length = 0 := by omega
    refine ⟨0, 0, log, Nat.zero_le _, ?_, by simp [hpos]⟩
    unfold evalFormStage
    simp only [hpos, if_false, hzero]
    rfl

/-! ## Evaluate: the field and page stages -/

theorem FieldStep_refl (r : EvalResult) : FieldStep r r :=
  ⟨0, 0, 0, 0, Nat.le_refl 0, Nat.le_refl 0, by cases r; rfl⟩

theorem FieldStep_trans {r1 r2 r3 : EvalResult} (h12 : FieldStep r1 r2) (h23 : FieldStep r2 r3) :
    FieldStep r1 r3 := by
  obtain ⟨fc, ft, sc, st, h1, h2, e12⟩ := h12
  obtain ⟨fc', ft', sc', st', h1', h2', e23⟩ := h23
  refine ⟨fc + fc', ft + ft', sc + sc', st + st', by omega, by omega, ?_⟩
  rw [e23, e12]
  cases r1
  simp only [EvalResult.mk.injEq, true_and, and_true]
  omega

theorem PageStep_refl (r : EvalResult) : PageStep r r :=
  ⟨0, 0, Nat.le_refl 0, by cases r; rfl⟩

theorem PageStep_trans {r1 r2 r3 : EvalResult} (h12 : PageStep r1 r2) (h23 : PageStep r2 r3) :
    PageStep r1 r3 := by
  obtain ⟨c, t, h1, e12⟩ := h12
  obtain ⟨c', t', h1', e23⟩ := h23
  refine ⟨c + c', t + t', by omega, ?_⟩
  rw [e23, e12]
  cases r1
  simp only [EvalResult.mk.injEq, true_and, and_true]
  omega

theorem scoreSequence_fieldStep (P L : List String) (r : EvalResult) :
    FieldStep r (scoreSequence P L r) := by
  unfold scoreSequence
  simp only [scoreTokens_eq, Bool.true_and]
  have hle : (List.range L.length).countP (fun i => decide (P[0 + i]? = L[i]?)) ≤ L.length := by
    have := List.countP_le_length (fun i => decide (P[0 + i]? = L[i]?))
      (l := List.range L.length)
    rw [List.length_range] at this
    exact this
  by_cases hall : (List.range L.length).all (fun i => decide (P[0 + i]? = L[i]?)) = true
  · refine ⟨_, L.length, 1, 1, hle, Nat.le_refl 1, ?_⟩
    rw [if_pos hall]
  · refine ⟨_, L.length, 0, 1, hle, Nat.zero_le 1, ?_⟩
    rw [if_neg hall]
    cases r
    simp

theorem fieldScoreLoop_step {D : Deps} (T : TrainDeps D) (fieldModel : D.FieldTypeModel)
    (sequences : List (TrainingSequence T.Attrs)) (testIdx : List Nat) (r r' : EvalResult)
    (h : fieldScoreLoop T fieldModel sequences testIdx r = some r') : FieldStep r r' := by
  induction testIdx generalizing r with
  | nil =>
    simp only [fieldScoreLoop, Option.some.injEq] at h
    rw [← h]
    exact FieldStep_refl r
  | cons idx rest ih =>
    cases hseq : sequences[idx]? with
    | none => simp [fieldScoreLoop, hseq] at h
    | some seq =>
      simp only [fieldScoreLoop, hseq] at h
      exact FieldStep_trans (scoreSequence_fieldStep _ _ r) (ih _ h)

theorem fieldFoldLoop_step {D : Deps} (T : TrainDeps D)
    (sequences : List (TrainingSequence T.Attrs)) (folds : List (List Nat))
    (s s' : EvalResult × TrainLog) (h : fieldFoldLoop T sequences folds s = some s') :
    FieldStep s.1 s'.1 := by
  induction folds generalizing s with
  | nil =>
    simp only [fieldFoldLoop, Option.some.injEq] at h
    rw [← h]
    exact FieldStep_refl s.1
  | cons testIdx rest ih =>
    cases hts : makeTestSet sequences.length testIdx with
    | none => simp [fieldFoldLoop, hts] at h
    | some testSet =>
      cases htr : trainSeqsLoop testSet sequences 0 [] with
      | none => simp [fieldFoldLoop, hts, htr] at h
      | some trainSeqs =>
        cases hsc : fieldScoreLoop T (T.TrainFieldType trainSeqs false) sequences testIdx s.1 with
        | none => simp [fieldFoldLoop, hts, htr, hsc] at h
        | some result =>
          simp only [fieldFoldLoop, hts, htr, hsc] at h
          exact FieldStep_trans (fieldScoreLoop_step T _ sequences testIdx s.1 result hsc)
            (ih _ h)

/-- The field stage of `Evaluate`, from field and sequence counters at zero:
whenever it returns, the correct counters do not exceed the totals, each
accuracy is the ratio of its counters when the total is positive and 0
otherwise, and nothing else changes. -/
theorem evalFieldStage_spec {D : Deps} (T : TrainDeps D) (nFolds : Int)
    (annotations : List FormAnnotation) (s s' : EvalResult × TrainLog)
    (hzero : s.1.FieldCorrect = 0 ∧ s.1.FieldTotal = 0 ∧ s.1.SequenceCorrect = 0 ∧
      s.1.SequenceTotal = 0 ∧ s.1.FieldAccuracy = 0 ∧ s.1.SequenceAccuracy = 0)
    (h : evalFieldStage T nFolds annotations s = some s') :
    ∃ fc ft sc st : Nat, fc ≤ ft ∧ sc ≤ st ∧
      s'.1 = { s.1 with
        FieldCorrect := fc, FieldTotal := ft, SequenceCorrect := sc, SequenceTotal := st,
        FieldAccuracy := if ft > 0 then (fc : ℚ) / (ft : ℚ) else 0,
        SequenceAccuracy := if st > 0 then (sc : ℚ) / (st : ℚ) else 0 } := by
  obtain ⟨z1, z2, z3, z4, z5, z6⟩ := hzero
  unfold evalFieldStage at h
  by_cases hpos : (filterFieldAnnotated annotations).length > 0
  · simp only [hpos, if_true] at h
    cases hb : buildCRFSequences T (filterFieldAnnotated annotations) with
    | none => simp [hb] at h
    | some built =>
      simp only [hb] at h
      cases hg : groupKFold T.rngGroups
          (domainGroups T.GetDomain (built.2.map (fun a => a.URL))) nFolds with
      | none => simp [hg] at h
      | some folds =>
        simp only [hg] at h
        cases hl : fieldFoldLoop T built.1 folds s with
        | none => simp [hl] at h
        | some s1 =>
          obtain ⟨fc, ft, sc, st, h1, h2, e⟩ := fieldFoldLoop_step T built.1 folds s s1 hl
          simp only [hl, Option.some.injEq] at h
          refine ⟨fc, ft, sc, st, h1, h2, ?_⟩
          obtain ⟨r1, log1⟩ := s1
          simp only at e h
          subst e
          rw [← h]
          simp only [z1, z2, z3, z4, z5, z6, Nat.zero_add]
          by_cases hft : ft > 0 <;> by_cases hst : st > 0 <;> simp [hft, hst]
  · simp only [hpos, if_false, Option.some.injEq] at h
    refine ⟨0, 0, 0, 0, Nat.le_refl 0, Nat.le_refl 0, ?_⟩
    rw [← h]
    obtain ⟨r, log⟩ := s
    cases r
    simp only at z1 z2 z3 z4 z5 z6
    subst z1 z2 z3 z4 z5 z6
    simp

theorem pageScoreLoop_step {D : Deps} (foldFormModel : D.FormTypeModel)
    (pageModel : PageTypeModel) (docs : List D.Doc) (labels : List String)
    (testIdx : List Nat) (r r' : EvalResult)
    (h : pageScoreLoop foldFormModel pageModel docs labels testIdx r = some r') :
    PageStep r r' := by
  induction testIdx generalizing r with
  | nil =>
    simp only [pageScoreLoop, Option.some.injEq] at h
    rw [← h]
    exact PageStep_refl r
  | cons idx rest ih =>
    cases hdoc : docs[idx]? with
    | none => simp [pageScoreLoop, hdoc] at h
    | some doc =>
      cases hlabel : labels[idx]? with
      | none => simp [pageScoreLoop, hdoc, hlabel] at h
      | some label =>
        cases hcls : pageModel.Classify D doc (classifyFormsOnDoc foldFormModel doc) with
        | none => simp [pageScoreLoop, hdoc, hlabel, hcls] at h
        | some pageType =>
          simp only [pageScoreLoop, hdoc, hlabel, hcls] at h
          refine PageStep_trans ?_ (ih _ h)
          by_cases heq : pageType = label
          · refine ⟨1, 1, Nat.le_refl 1, ?_⟩
            rw [if_pos heq]
          · refine ⟨0, 1, Nat.zero_le 1, ?_⟩
            rw [if_neg heq]
            cases r
            simp

theorem pageFoldLoop_step {D : Deps} (T : TrainDeps D) (dataDir : String) (docs : List D.Doc)
    (formResults : List (List ClassifyResult)) (urls labels : List String)
    (folds : List (List Nat)) (s s' : EvalResult × TrainLog)
    (h : pageFoldLoop T dataDir docs formResults urls labels folds s = some s') :
    PageStep s.1 s'.1 := by
  induction folds generalizing s with
  | nil =>
    simp only [pageFoldLoop, Option.some.injEq] at h
    rw [← h]
    exact PageStep_refl s.1
  | cons testIdx rest ih =>
    cases hts : makeTestSet docs.length testIdx with
    | none => simp [pageFoldLoop, hts] at h
    | some testSet =>
      cases htr : filterPageByIndex docs formResults urls labels testSet false with
      | none => simp [pageFoldLoop, hts, htr] at h
      | some train =>
        simp only [pageFoldLoop, hts, htr] at h
        split at h
        · cases h
        · rename_i pageModel hpm
          split at h
          · cases h
          · rename_i result hsc
            exact PageStep_trans (pageScoreLoop_step _ _ docs labels testIdx s.1 result hsc)
              (ih _ h)

/-- The page stage of `Evaluate`, from page counters at zero: whenever it
returns, `PageCorrect` does not exceed `PageTotal`, the accuracy is the
ratio of the counters when the total is positive and 0 otherwise, and
nothing else changes. -/
theorem evalPageStage_spec {D : Deps} (T : TrainDeps D) (nFolds : Int) (dataDir : String)
    (verbose : Bool) (s s' : EvalResult × TrainLog)
    (hzero : s.1.PageCorrect = 0 ∧ s.1.PageTotal = 0 ∧ s.1.PageAccuracy = 0)
    (h : evalPageStage T nFolds dataDir verbose s = some s') :
    ∃ c t : Nat, c ≤ t ∧
      s'.1 = { s.1 with
        PageCorrect := c, PageTotal := t,
        PageAccuracy := if t > 0 then (c : ℚ) / (t : ℚ) else 0 } := by
  obtain ⟨z1, z2, z3⟩ := hzero
  have hskip : s = s' → ∃ c t : Nat, c ≤ t ∧
      s'.1 = { s.1 with
        PageCorrect := c, PageTotal := t,
        PageAccuracy := if t > 0 then (c : ℚ) / (t : ℚ) else 0 } := by
    intro heq
    refine ⟨0, 0, Nat.le_refl 0, ?_⟩
    rw [← heq]
    obtain ⟨r, log⟩ := s
    cases r
    simp only at z1 z2 z3
    subst z1 z2 z3
    simp
  unfold evalPageStage at h
  by_cases hidx : T.pageIndexExists dataDir = true
  · simp only [hidx, if_true] at h
    cases hload : T.IterPageAnnotations dataDir verbose with
    | error err =>
      simp only [hload, Option.some.injEq] at h
      exact hskip h
    | ok pageAnnotations =>
      simp only [hload] at h
      by_cases hpos : pageAnnotations.length > 0
      · simp only [hpos, if_true] at h
        split at h
        · cases h
        · rename_i folds hfolds
          split at h
          · cases h
          · rename_i result log hloop
            obtain ⟨c, t, hct, e⟩ := pageFoldLoop_step T dataDir _ _ _ _ folds s _ hloop
            simp only at e
            refine ⟨c, t, hct, ?_⟩
            subst e
            simp only [z1, z2, z3, Nat.zero_add] at h ⊢
            by_cases ht : t > 0
            · simp only [ht, if_true, Option.some.injEq] at h
              rw [← h]
              simp [ht]
            · simp only [ht, if_false, Option.some.injEq] at h
              rw [← h]
              simp [ht]
      · simp only [hpos, if_false, Option.some.injEq] at h
        exact hskip h
  · have hfalse : T.pageIndexExists dataDir = false := by
      cases hb : T.pageIndexExists dataDir
      · rfl
      · exact absurd hb hidx
    rw [hfalse] at h
    simp only [Bool.false_eq_true, if_false, Option.some.injEq] at h
    exact hskip h

/-! ## Evaluate: the counters of the result -/

theorem evalFolds_pos (config : Option EvalConfig) : 1 ≤ evalFolds config := by
  unfold evalFolds
  cases config with
  | none => decide
  | some c =>
    simp only
    split <;> omega

/-- C14. The form stage of `Evaluate`, for `nFolds >= 1`, returns and scores
every form-annotated example exactly once: `FormTotal` is the number of
form-annotated examples, `FormCorrect <= FormTotal`, and `FormAccuracy` is
`FormCorrect / FormTotal` when `FormTotal > 0` and 0 otherwise. `Evaluate`
calls the stage with `nFolds >= 1`, and in every result it returns the same
holds of the form counters, and the field, sequence and page counters
satisfy the same relation between correct count, total and accuracy. -/
theorem Evaluate_counters (D : Deps) (T : TrainDeps D) (hr : RangeOrder T.rngGroups)
    (dataDir : String) (config : Option EvalConfig) (annotations : List FormAnnotation)
    (hload : T.IterAnnotations dataDir (evalVerbose config) = Except.ok annotations)
    (hne : annotations.length ≠ 0) :
    (∀ nFolds : Int, 1 ≤ nFolds →
      ∃ s, evalFormStage T nFolds annotations (EvalResult.zero, []) = some s ∧
        s.1.FormTotal = (filterFormAnnotated annotations).length ∧
        s.1.FormCorrect ≤ s.1.FormTotal ∧
        s.1.FormAccuracy =
          (if s.1.FormTotal > 0 then (s.1.FormCorrect : ℚ) / (s.1.FormTotal : ℚ) else 0)) ∧
    1 ≤ evalFolds config ∧
    ∀ result log, Evaluate T dataDir config = some ((some result, none), log) →
      result.FormTotal = (filterFormAnnotated annotations).length ∧
      result.FormCorrect ≤ result.FormTotal ∧
      result.FormAccuracy =
        (if result.FormTotal > 0 then (result.FormCorrect : ℚ) / (result.FormTotal : ℚ)
          else 0) ∧
      result.FieldCorrect ≤ result.FieldTotal ∧
      result.FieldAccuracy =
        (if result.FieldTotal > 0 then (result.FieldCorrect : ℚ) / (result.FieldTotal : ℚ)
          else 0) ∧
      result.SequenceCorrect ≤ result.SequenceTotal ∧
      result.SequenceAccuracy =
        (if result.SequenceTotal > 0 then
          (result.SequenceCorrect : ℚ) / (result.SequenceTotal : ℚ) else 0) ∧
      result.PageCorrect ≤ result.PageTotal ∧
      result.PageAccuracy =
        (if result.PageTotal > 0 then (result.PageCorrect : ℚ) / (result.PageTotal : ℚ)
          else 0) := by
  refine ⟨?_, evalFolds_pos config, ?_⟩
  · intro nFolds hn
    obtain ⟨c, acc, log', hc, hstage, hacc⟩ := evalFormStage_spec T hr nFolds hn annotations []
    refine ⟨_, hstage, rfl, hc, ?_⟩
    simp only
    exact hacc
  · intro result log h
    obtain ⟨c, acc, log1, hc, hstage, hacc⟩ :=
      evalFormStage_spec T hr (evalFolds config) (evalFolds_pos config) annotations []
    unfold Evaluate at h
    simp only [hload, hne, if_false, hstage] at h
    split at h
    · cases h
    · rename_i s2 hfield
      split at h
      · cases h
      · rename_i s3 hpage
        obtain ⟨fc, ft, sc, st, hf1, hf2, e2⟩ := evalFieldStage_spec T _ annotations _ s2
          ⟨rfl, rfl, rfl, rfl, rfl, rfl⟩ hfield
        obtain ⟨pc, pt, hp1, e3⟩ := evalPageStage_spec T _ dataDir _ s2 s3
          (by rw [e2]; exact ⟨rfl, rfl, rfl⟩) hpage
        simp only [Option.some.injEq, Prod.mk.injEq, and_true] at h
        obtain ⟨hres, _⟩ := h
        rw [← hres, e3, e2]
        simp only [EvalResult.zero]
        exact ⟨trivial, hc, hacc, hf1, trivial, hf2, trivial, hp1, trivial⟩

/-- Witness of `Train_Evaluate_without_annotations`: a form store that cannot
be read, and an empty one. -/
theorem Train_Evaluate_without_annotations_witness :
    (Train (stubTrainDeps id (Except.error "open forms/index.json: no such file")) "data" none
        = some ((none, some "dit: open forms/index.json: no such file"), []) ∧
      Evaluate (stubTrainDeps id (Except.error "open forms/index.json: no such file")) "data"
          none
        = some ((none, some "dit: open forms/index.json: no such file"), [])) ∧
    (Train (stubTrainDeps id (Except.ok [])) "data" (some { Verbose := true })
        = some ((none, some "dit: no annotations found in data"), []) ∧
      Evaluate (stubTrainDeps id (Except.ok [])) "data" (some { Folds := 5, Verbose := true })
        = some ((none, some "dit: no annotations found in data"), [])) ∧
    (Train (stubTrainDeps id (Except.ok sampleAnnotations)) "data" none).map (fun o => o.2)
      = some ["TrainFormType", "TrainFieldType"] :=
  ⟨⟨(Train_Evaluate_without_annotations (stubDeps id)
        (stubTrainDeps id (Except.error "open forms/index.json: no such file")) "data"
        none none).1 _ rfl,
      (Train_Evaluate_without_annotations (stubDeps id)
        (stubTrainDeps id (Except.error "open forms/index.json: no such file")) "data"
        none none).2.2.1 _ rfl⟩,
    ⟨(Train_Evaluate_without_annotations (stubDeps id)
        (stubTrainDeps id (Except.ok [])) "data"
        (some { Verbose := true }) (some { Folds := 5, Verbose := true })).2.1 [] rfl rfl,
      (Train_Evaluate_without_annotations (stubDeps id)
        (stubTrainDeps id (Except.ok [])) "data"
        (some { Verbose := true }) (some { Folds := 5, Verbose := true })).2.2.2 [] rfl rfl⟩,
    by decide⟩

/-- Witness of `Evaluate_counters`: three annotated forms of two domains, the
form model answering `login` for every form. -/
theorem Evaluate_counters_witness :
    (Evaluate (stubTrainDeps id (Except.ok sampleAnnotations)) "data" none).map
        (fun o => (o.1.1.map (fun r =>
          [r.FormCorrect, r.FormTotal, r.FieldCorrect, r.FieldTotal, r.SequenceCorrect,
            r.SequenceTotal, r.PageCorrect, r.PageTotal]), o.2))
      = some (some [2, 3, 1, 2, 1, 2, 0, 0],
          ["TrainFormType", "TrainFormType", "TrainFieldType"]) ∧
    ∀ result log,
      Evaluate (stubTrainDeps id (Except.ok sampleAnnotations)) "data" none
          = some ((some result, none), log) →
        result.FormTotal = (filterFormAnnotated sampleAnnotations).length ∧
        result.FormCorrect ≤ result.FormTotal ∧
        result.FormAccuracy =
          (if result.FormTotal > 0 then (result.FormCorrect : ℚ) / (result.FormTotal : ℚ)
            else 0) ∧
        result.FieldCorrect ≤ result.FieldTotal ∧
        result.FieldAccuracy =
          (if result.FieldTotal > 0 then (result.FieldCorrect : ℚ) / (result.FieldTotal : ℚ)
            else 0) ∧
        result.SequenceCorrect ≤ result.SequenceTotal ∧
        result.SequenceAccuracy =
          (if result.SequenceTotal > 0 then
            (result.SequenceCorrect : ℚ) / (result.SequenceTotal : ℚ) else 0) ∧
        result.PageCorrect ≤ result.PageTotal ∧
        result.PageAccuracy =
          (if result.PageTotal > 0 then (result.PageCorrect : ℚ) / (result.PageTotal : ℚ)
            else 0) :=
  ⟨by decide,
    (Evaluate_counters (stubDeps id) (stubTrainDeps id (Except.ok sampleAnnotations))
      (fun l => List.Perm.refl l) "data" none sampleAnnotations rfl (by decide)).2.2⟩

/-! ## buildCRFSequences -/

theorem crfLoop_spec {D : Deps} (T : TrainDeps D) (ann : FormAnnotation)
    (fieldElems : List T.Field) (rawFeats : List T.Feat) (j : Nat)
    (acc : List T.Attrs × List String) (h : j + rawFeats.length ≤ fieldElems.length) :
    crfLoop T ann fieldElems rawFeats j acc =
      some (acc.1 ++ rawFeats.map T.FeaturesToAttributes,
        acc.2 ++ ((fieldElems.drop j).take rawFeats.length).map
          (fun el => fieldLabel ann (T.fieldName el))) := by
  induction rawFeats generalizing j acc with
  | nil => simp [crfLoop]
  | cons feat rest ih =>
    rw [List.length_cons] at h
    have hj : j < fieldElems.length := by omega
    simp only [crfLoop, List.getElem?_eq_getElem hj]
    rw [ih (j + 1) _ (by omega)]
    simp only [List.length_cons, List.map_cons, List.append_assoc, List.singleton_append]
    rw [List.drop_eq_getElem_cons hj, List.take_succ_cons, List.map_cons]

theorem buildCRFSequencesLoop_spec {D : Deps} (T : TrainDeps D)
    (hfeat : ∀ form formType fields,
      (T.GetFormFeatures form formType fields).length ≤ fields.length)
    (annotations : List FormAnnotation)
    (acc : List (TrainingSequence T.Attrs) × List FormAnnotation) :
    buildCRFSequencesLoop T annotations acc =
      some (acc.1 ++ (builtPairs T annotations).map Prod.fst,
        acc.2 ++ (builtPairs T annotations).map Prod.snd) := by
  induction annotations generalizing acc with
  | nil => simp [buildCRFSequencesLoop, builtPairs]
  | cons ann rest ih =>
    unfold builtPairs
    rw [List.filterMap_cons]
    unfold buildCRFSequencesLoop keptFields
    cases hload : D.LoadHTMLString ("<form>" ++ ann.FormHTML ++ "</form>") with
    | error err =>
      simp only [Option.map_none']
      exact ih acc
    | ok doc =>
      simp only
      by_cases hzero : (T.GetFieldsToAnnotate (T.firstForm doc)).length = 0
      · simp only [hzero, if_true, Option.map_none']
        exact ih acc
      · simp only [hzero, if_false, Option.map_some']
        rw [crfLoop_spec T ann _ _ 0 ([], []) (by
          have := hfeat (T.firstForm doc) ann.TypeFull (T.GetFieldsToAnnotate (T.firstForm doc))
          omega)]
        simp only [List.nil_append, List.drop_zero]
        rw [ih]
        simp only [List.map_cons, List.append_assoc, List.singleton_append]
        rfl

/-- What `buildCRFSequences` returns when `GetFormFeatures` yields no more
feature sets than fields: the sequences and the annotations of the kept
annotations, in order. -/
theorem buildCRFSequences_eq {D : Deps} (T : TrainDeps D)
    (hfeat : ∀ form formType fields,
      (T.GetFormFeatures form formType fields).length ≤ fields.length)
    (annotations : List FormAnnotation) :
    buildCRFSequences T annotations =
      some ((builtPairs T annotations).map Prod.fst, (builtPairs T annotations).map Prod.snd) := by
  unfold buildCRFSequences
  rw [buildCRFSequencesLoop_spec T hfeat]
  simp

theorem builtPairs_mem {D : Deps} (T : TrainDeps D) (annotations : List FormAnnotation)
    (seq : TrainingSequence T.Attrs) (ann : FormAnnotation)
    (h : (seq, ann) ∈ builtPairs T annotations) :
    ann ∈ annotations ∧ ∃ form fieldElems, keptFields T ann = some (form, fieldElems) ∧
      seq = sequenceOf T ann form fieldElems := by
  unfold builtPairs at h
  rw [List.mem_filterMap] at h
  obtain ⟨ann', hmem, hmap⟩ := h
  cases hk : keptFields T ann' with
  | none =>
    rw [hk] at hmap
    cases hmap
  | some p =>
    rw [hk] at hmap
    simp only [Option.map_some', Option.some.injEq, Prod.mk.injEq] at hmap
    obtain ⟨h1, h2⟩ := hmap
    subst h2
    exact ⟨hmem, p.1, p.2, hk, h1.symm⟩

theorem builtPairs_index {D : Deps} (T : TrainDeps D) (annotations : List FormAnnotation)
    (i : Nat) (seq : TrainingSequence T.Attrs) (ann : FormAnnotation)
    (hs : ((builtPairs T annotations).map Prod.fst)[i]? = some seq)
    (ha : ((builtPairs T annotations).map Prod.snd)[i]? = some ann) :
    (seq, ann) ∈ builtPairs T annotations := by
  rw [List.getElem?_map] at hs ha
  cases hp : (builtPairs T annotations)[i]? with
  | none =>
    rw [hp] at hs
    cases hs
  | some p =>
    rw [hp] at hs ha
    simp only [Option.map_some', Option.some.injEq] at hs ha
    have : p = (seq, ann) := Prod.ext hs ha
    rw [← this]
    exact List.getElem?_mem hp

theorem keptFields_fields_ne_nil {D : Deps} (T : TrainDeps D) (ann : FormAnnotation)
    (form : D.Form) (fieldElems : List T.Field)
    (h : keptFields T ann = some (form, fieldElems)) :
    ∃ doc, D.LoadHTMLString ("<form>" ++ ann.FormHTML ++ "</form>") = Except.ok doc ∧
      form = T.firstForm doc ∧ fieldElems = T.GetFieldsToAnnotate form ∧ fieldElems ≠ [] := by
  unfold keptFields at h
  cases hload : D.LoadHTMLString ("<form>" ++ ann.FormHTML ++ "</form>") with
  | error err =>
    rw [hload] at h
    cases h
  | ok doc =>
    rw [hload] at h
    simp only at h
    by_cases hzero : (T.GetFieldsToAnnotate (T.firstForm doc)).length = 0
    · rw [if_pos hzero] at h
      cases h
    · rw [if_neg hzero] at h
      simp only [Option.some.injEq, Prod.mk.injEq] at h
      obtain ⟨h1, h2⟩ := h
      refine ⟨doc, rfl, h1.symm, ?_, ?_⟩
      · rw [← h2, ← h1]
      · rw [← h2]
        exact fun hnil => hzero (by rw [hnil]; rfl)

theorem builtPairs_snd {D : Deps} (T : TrainDeps D) (annotations : List FormAnnotation) :
    (builtPairs T annotations).map Prod.snd =
      annotations.filter (fun ann => (keptFields T ann).isSome) := by
  induction annotations with
  | nil => rfl
  | cons ann rest ih =>
    unfold builtPairs at ih ⊢
    rw [List.filterMap_cons, List.filter_cons]
    cases hk : keptFields T ann with
    | none =>
      simp only [Option.map_none', Option.isSome_none, Bool.false_eq_true, if_false]
      exact ih
    | some p =>
      simp only [Option.map_some', Option.isSome_some, if_true, List.map_cons]
      rw [ih]

theorem sequenceOf_lengths {D : Deps} (T : TrainDeps D)
    (hfeat : ∀ form formType fields,
      (T.GetFormFeatures form formType fields).length ≤ fields.length)
    (ann : FormAnnotation) (form : D.Form) (fieldElems : List T.Field) :
    (sequenceOf T ann form fieldElems).Features.length =
      (sequenceOf T ann form fieldElems).Labels.length := by
  unfold sequenceOf
  simp only [List.length_map, List.length_take]
  have := hfeat form ann.TypeFull fieldElems
  omega

theorem sequenceOf_label {D : Deps} (T : TrainDeps D) (ann : FormAnnotation) (form : D.Form)
    (fieldElems : List T.Field) (j : Nat) (label : String)
    (h : (sequenceOf T ann form fieldElems).Labels[j]? = some label) :
    ∃ el, fieldElems[j]? = some el ∧ label = fieldLabel ann (T.fieldName el) := by
  unfold sequenceOf at h
  simp only [List.getElem?_map] at h
  cases hel : (fieldElems.take (T.GetFormFeatures form ann.TypeFull fieldElems).length)[j]? with
  | none =>
    rw [hel] at h
    cases h
  | some el =>
    rw [hel] at h
    simp only [Option.map_some', Option.some.injEq] at h
    refine ⟨el, ?_, h.symm⟩
    rw [List.getElem?_take] at hel
    split_ifs at hel
    exact hel

theorem fieldLabel_cases (ann : FormAnnotation) (name : String) :
    (∀ l, ann.FieldTypesFull.get? name = some l → fieldLabel ann name = l) ∧
    (ann.FieldTypesFull.get? name = none →
      ∀ l, ann.FieldTypes.get? name = some l → fieldLabel ann name = l) ∧
    (ann.FieldTypesFull.get? name = none → ann.FieldTypes.get? name = none →
      fieldLabel ann name = "other") := by
  unfold fieldLabel
  refine ⟨?_, ?_, ?_⟩
  · intro l h
    rw [h]
  · intro h l h2
    rw [h, h2]
  · intro h h2
    rw [h, h2]

/-- C21. When `GetFormFeatures` yields no more feature sets than fields,
`buildCRFSequences` returns, for every list of annotations, a sequence list
and a kept-annotation list of equal length; the kept annotations are, in
order, the annotations whose form parses and has at least one field to
annotate; the i-th sequence is the one built from the i-th kept annotation;
every returned sequence has as many labels as feature sets; and an annotation
whose form has zero fields to annotate is not kept (so by the alignment no
sequence is built from it). -/
theorem buildCRFSequences_aligned {D : Deps} (T : TrainDeps D)
    (hfeat : ∀ form formType fields,
      (T.GetFormFeatures form formType fields).length ≤ fields.length)
    (annotations : List FormAnnotation) :
    ∃ (sequences : List (TrainingSequence T.Attrs)) (kept : List FormAnnotation),
      buildCRFSequences T annotations = some (sequences, kept) ∧
      sequences.length = kept.length ∧
      kept = annotations.filter (fun ann => (keptFields T ann).isSome) ∧
      (∀ (i : Nat) seq (ann : FormAnnotation), sequences[i]? = some seq → kept[i]? = some ann →
        ∃ form fieldElems, keptFields T ann = some (form, fieldElems) ∧ fieldElems ≠ [] ∧
          seq = sequenceOf T ann form fieldElems) ∧
      (∀ seq ∈ sequences, seq.Features.length = seq.Labels.length) ∧
      (∀ ann doc, D.LoadHTMLString ("<form>" ++ ann.FormHTML ++ "</form>") = Except.ok doc →
        (T.GetFieldsToAnnotate (T.firstForm doc)).length = 0 → ann ∉ kept) := by
  refine ⟨_, _, buildCRFSequences_eq T hfeat annotations, ?_, builtPairs_snd T annotations,
    ?_, ?_, ?_⟩
  · simp only [List.length_map]
  · intro i seq ann hs ha
    obtain ⟨_, form, fieldElems, hk, hseq⟩ :=
      builtPairs_mem T annotations seq ann (builtPairs_index T annotations i seq ann hs ha)
    obtain ⟨_, _, _, _, hne⟩ := keptFields_fields_ne_nil T ann form fieldElems hk
    exact ⟨form, fieldElems, hk, hne, hseq⟩
  · intro seq hmem
    rw [List.mem_map] at hmem
    obtain ⟨⟨seq', ann⟩, hp, rfl⟩ := hmem
    obtain ⟨_, form, fieldElems, _, hseq⟩ := builtPairs_mem T annotations seq' ann hp
    simp only
    rw [hseq]
    exact sequenceOf_lengths T hfeat ann form fieldElems
  · intro ann doc hload hzero hmem
    rw [builtPairs_snd, List.mem_filter] at hmem
    have hnone : keptFields T ann = none := by
      unfold keptFields
      rw [hload]
      simp only [hzero, if_true]
    rw [hnone] at hmem
    exact absurd hmem.2 (by simp)

theorem buildCRFSequences_aligned_witness :
    (buildCRFSequences (fieldsTrainDeps (.ok [])) fieldAnnotations).map
        (fun p => (p.1.map (fun s => (s.Features, s.Labels)), p.2.map (fun a => a.FormHTML))) =
      some ([(["username", "password"], ["username or email", "other"]),
          (["username", "password"], ["other", "p1"])], ["a", "c"]) ∧
    ∃ (sequences : List (TrainingSequence (fieldsTrainDeps (.ok [])).Attrs))
        (kept : List FormAnnotation),
      buildCRFSequences (fieldsTrainDeps (.ok [])) fieldAnnotations = some (sequences, kept) ∧
      sequences.length = kept.length ∧
      kept = fieldAnnotations.filter
        (fun ann => (keptFields (fieldsTrainDeps (.ok [])) ann).isSome) ∧
      (∀ (i : Nat) seq (ann : FormAnnotation), sequences[i]? = some seq → kept[i]? = some ann →
        ∃ form fieldElems, keptFields (fieldsTrainDeps (.ok [])) ann = some (form, fieldElems) ∧
          fieldElems ≠ [] ∧ seq = sequenceOf (fieldsTrainDeps (.ok [])) ann form fieldElems) ∧
      (∀ seq ∈ sequences, seq.Features.length = seq.Labels.length) ∧
      (∀ ann doc,
        (stubDeps id).LoadHTMLString ("<form>" ++ ann.FormHTML ++ "</form>") = Except.ok doc →
        ((fieldsTrainDeps (.ok [])).GetFieldsToAnnotate
          ((fieldsTrainDeps (.ok [])).firstForm doc)).length = 0 → ann ∉ kept) :=
  ⟨rfl,
    buildCRFSequences_aligned (fieldsTrainDeps (.ok [])) (fun _ _ fields => le_refl fields.length)
      fieldAnnotations⟩

/-- C22. When `GetFormFeatures` yields no more feature sets than fields, in
every sequence built by `buildCRFSequences` every position `j` has a label,
and it is the gold label of field `j` of the kept annotation: with `n` the
name of that field, `FieldTypesFull[n]` when `n` is a key of `FieldTypesFull`,
otherwise `FieldTypes[n]` when `n` is a key of `FieldTypes`, and otherwise
`"other"`, never the empty string. -/
theorem buildCRFSequences_gold_label {D : Deps} (T : TrainDeps D)
    (hfeat : ∀ form formType fields,
      (T.GetFormFeatures form formType fields).length ≤ fields.length)
    (annotations : List FormAnnotation) :
    ∃ (sequences : List (TrainingSequence T.Attrs)) (kept : List FormAnnotation),
      buildCRFSequences T annotations = some (sequences, kept) ∧
      ∀ (i : Nat) seq (ann : FormAnnotation), sequences[i]? = some seq → kept[i]? = some ann →
        ∃ form fieldElems, keptFields T ann = some (form, fieldElems) ∧
          ∀ j, j < seq.Features.length →
            ∃ el label, fieldElems[j]? = some el ∧ seq.Labels[j]? = some label ∧
              (∀ l, ann.FieldTypesFull.get? (T.fieldName el) = some l → label = l) ∧
              (ann.FieldTypesFull.get? (T.fieldName el) = none →
                ∀ l, ann.FieldTypes.get? (T.fieldName el) = some l → label = l) ∧
              (ann.FieldTypesFull.get? (T.fieldName el) = none →
                ann.FieldTypes.get? (T.fieldName el) = none →
                  label = "other" ∧ label ≠ "") := by
  refine ⟨_, _, buildCRFSequences_eq T hfeat annotations, ?_⟩
  intro i seq ann hs ha
  obtain ⟨_, form, fieldElems, hk, hseq⟩ :=
    builtPairs_mem T annotations seq ann (builtPairs_index T annotations i seq ann hs ha)
  refine ⟨form, fieldElems, hk, ?_⟩
  intro j hj
  rw [hseq] at hj ⊢
  rw [sequenceOf_lengths T hfeat ann form fieldElems] at hj
  have hlab : (sequenceOf T ann form fieldElems).Labels[j]? =
      some ((sequenceOf T ann form fieldElems).Labels[j]) := List.getElem?_eq_getElem hj
  obtain ⟨el, hel, hlabel⟩ := sequenceOf_label T ann form fieldElems j _ hlab
  obtain ⟨h1, h2, h3⟩ := fieldLabel_cases ann (T.fieldName el)
  refine ⟨el, _, hel, hlab, ?_, ?_, ?_⟩
  · intro l hl
    rw [hlabel]
    exact h1 l hl
  · intro hn l hl
    rw [hlabel]
    exact h2 hn l hl
  · intro hn hn2
    rw [hlabel, h3 hn hn2]
    exact ⟨rfl, by decide⟩

theorem buildCRFSequences_gold_label_witness :
    ∃ (sequences : List (TrainingSequence (fieldsTrainDeps (.ok [])).Attrs))
        (kept : List FormAnnotation),
      buildCRFSequences (fieldsTrainDeps (.ok [])) fieldAnnotations = some (sequences, kept) ∧
      ∀ (i : Nat) seq (ann : FormAnnotation), sequences[i]? = some seq → kept[i]? = some ann →
        ∃ form fieldElems, keptFields (fieldsTrainDeps (.ok [])) ann = some (form, fieldElems) ∧
          ∀ j, j < seq.Features.length →
            ∃ el label, fieldElems[j]? = some el ∧ seq.Labels[j]? = some label ∧
              (∀ l, ann.FieldTypesFull.get? ((fieldsTrainDeps (.ok [])).fieldName el) = some l →
                label = l) ∧
              (ann.FieldTypesFull.get? ((fieldsTrainDeps (.ok [])).fieldName el) = none →
                ∀ l, ann.FieldTypes.get? ((fieldsTrainDeps (.ok [])).fieldName el) = some l →
                  label = l) ∧
              (ann.FieldTypesFull.get? ((fieldsTrainDeps (.ok [])).fieldName el) = none →
                ann.FieldTypes.get? ((fieldsTrainDeps (.ok [])).fieldName el) = none →
                  label = "other" ∧ label ≠ "") :=
  buildCRFSequences_gold_label (fieldsTrainDeps (.ok []))
    (fun _ _ fields => le_refl fields.length) fieldAnnotations

/-! ## Totality of groupKFold and the fold count of Evaluate -/

/-- C29. For `nFolds >= 1`, `groupKFold` returns for every list `groups` (no
division by zero, no negative length, no fold index out of range); the fold
count that `Evaluate` passes is 10 for a nil config and for `Folds <= 0`, and
`config.Folds` otherwise; it is at least 1, so every call of `groupKFold`
with the fold count of `Evaluate` returns. -/
theorem groupKFold_total (rng : GoMap Int Bool → GoMap Int Bool) (hr : RangeOrder rng)
    (groups : List Int) (nFolds : Int) (hn : 1 ≤ nFolds) (config : Option EvalConfig) :
    (∃ folds, groupKFold rng groups nFolds = some folds ∧
      folds.length = min nFolds.toNat groups.toFinset.card) ∧
    evalFolds none = 10 ∧
    (∀ c : EvalConfig, c.Folds ≤ 0 → evalFolds (some c) = 10) ∧
    (∀ c : EvalConfig, 0 < c.Folds → evalFolds (some c) = c.Folds) ∧
    1 ≤ evalFolds config ∧
    (∃ folds, groupKFold rng groups (evalFolds config) = some folds) := by
  refine ⟨?_, rfl, ?_, ?_, evalFolds_pos config, ?_⟩
  · obtain ⟨folds, h1, h2, _⟩ := groupKFold_eq rng hr groups nFolds hn
    refine ⟨folds, h1, ?_⟩
    rw [h2]
    unfold foldCount
    rw [sortedGroupsOf_length rng hr groups]
  · intro c hc
    unfold evalFolds
    simp only
    rw [if_neg (by omega)]
  · intro c hc
    unfold evalFolds
    simp only
    rw [if_pos hc]
  · obtain ⟨folds, h1, _⟩ := groupKFold_eq rng hr groups (evalFolds config) (evalFolds_pos config)
    exact ⟨folds, h1⟩

theorem groupKFold_total_witness :
    groupKFold id [0, 1, 0, 2, 1, 3] 10 = some [[5], [1, 4], [3], [0, 2]] ∧
    groupKFold id [] 10 = some [] ∧
    ((∃ folds, groupKFold id [0, 1, 0, 2, 1, 3] 3 = some folds ∧
      folds.length = min (3 : Int).toNat ([0, 1, 0, 2, 1, 3] : List Int).toFinset.card) ∧
    evalFolds none = 10 ∧
    (∀ c : EvalConfig, c.Folds ≤ 0 → evalFolds (some c) = 10) ∧
    (∀ c : EvalConfig, 0 < c.Folds → evalFolds (some c) = c.Folds) ∧
    1 ≤ evalFolds (some { Folds := -2, Verbose := false }) ∧
    (∃ folds, groupKFold id [0, 1, 0, 2, 1, 3]
      (evalFolds (some { Folds := -2, Verbose := false })) = some folds)) :=
  ⟨by decide, by decide,
    groupKFold_total id (fun l => List.Perm.refl l) [0, 1, 0, 2, 1, 3] 3 (by decide)
      (some { Folds := -2, Verbose := false })⟩

/-! ## Balance of the folds of groupKFold -/

theorem countP_indexOf_eq (l : List Int) (hl : l.Nodup) (p : Nat → Bool) :
    l.countP (fun g => p (l.indexOf g)) = (List.range l.length).countP p := by
  induction l generalizing p with
  | nil => rfl
  | cons a t ih =>
    rw [List.nodup_cons] at hl
    rw [List.length_cons, List.range_succ_eq_map, List.countP_cons, List.countP_cons,
      List.countP_map, List.indexOf_cons_self]
    congr 1
    rw [← ih hl.2 (p ∘ Nat.succ)]
    apply List.countP_congr
    intro g hg
    have hne : a ≠ g := fun h => hl.1 (h ▸ hg)
    rw [List.indexOf_cons_ne _ hne]
    rfl

theorem countP_range_eq_count (G k f : Nat) (hf : f < k) :
    (List.range G).countP (fun i => decide (i % k = f)) = Nat.count (fun i => i ≡ f [MOD k]) G := by
  induction G with
  | zero => rfl
  | succ n ih =>
    rw [List.range_succ, List.countP_append, ih, Nat.count_succ]
    congr 1
    by_cases h : n % k = f
    · simp [h, Nat.ModEq, Nat.mod_eq_of_lt hf]
    · simp [h, Nat.ModEq, Nat.mod_eq_of_lt hf]

theorem countP_range_mod (G k f : Nat) (hk : 0 < k) (hf : f < k) :
    (List.range G).countP (fun i => decide (i % k = f)) =
      G / k + if f < G % k then 1 else 0 := by
  rw [countP_range_eq_count G k f hf]
  have h := Nat.count_modEq_card G hk f
  rw [Nat.mod_eq_of_lt hf] at h
  exact h

/-- For `nFolds >= 1`, the number of distinct groups of fold `f` of
`groupKFold`: with `G` distinct groups and `k` folds, `G / k`, and one more
for the first `G % k` folds. -/
theorem foldGroups_card (rng : GoMap Int Bool → GoMap Int Bool) (hr : RangeOrder rng)
    (groups : List Int) (nFolds : Int) (hn : 1 ≤ nFolds) :
    ∃ folds, groupKFold rng groups nFolds = some folds ∧
      folds.length = foldCount rng groups nFolds ∧
      ∀ f, f < folds.length →
        (foldGroups groups (folds.getD f [])).card =
          (sortedGroupsOf rng groups).length / foldCount rng groups nFolds +
            if f < (sortedGroupsOf rng groups).length % foldCount rng groups nFolds
            then 1 else 0 := by
  obtain ⟨folds, h1, h2, _, h4⟩ := groupKFold_mem rng hr groups nFolds hn
  refine ⟨folds, h1, h2, ?_⟩
  intro f hf
  have hfk : f < foldCount rng groups nFolds := h2 ▸ hf
  have hset : foldGroups groups (folds.getD f []) =
      ((sortedGroupsOf rng groups).filter (fun g =>
        decide ((sortedGroupsOf rng groups).indexOf g % foldCount rng groups nFolds = f))).toFinset := by
    ext g
    simp only [foldGroups, List.mem_toFinset, List.mem_filterMap, List.mem_filter,
      decide_eq_true_eq]
    constructor
    · rintro ⟨i, hi, hg⟩
      obtain ⟨g', hg', hfold⟩ := (h4 f i hf).1 hi
      rw [hg] at hg'
      cases hg'
      exact ⟨(mem_sortedGroupsOf rng hr groups g).2 (List.getElem?_mem hg), hfold⟩
    · rintro ⟨hmem, hfold⟩
      obtain ⟨i, hi⟩ := List.mem_iff_getElem?.1 ((mem_sortedGroupsOf rng hr groups g).1 hmem)
      exact ⟨i, (h4 f i hf).2 ⟨g, hi, hfold⟩, hi⟩
  rw [hset, List.toFinset_card_of_nodup ((sortedGroupsOf_nodup rng hr groups).filter _),
    ← List.countP_eq_length_filter,
    countP_indexOf_eq (sortedGroupsOf rng groups) (sortedGroupsOf_nodup rng hr groups)
      (fun i => decide (i % foldCount rng groups nFolds = f)),
    countP_range_mod _ _ f (by omega) hfk]

theorem foldGroups_nil (groups : List Int) : (foldGroups groups []).card = 0 := rfl

theorem mem_getD_of_mem {α : Type} (folds : List (List α)) (fold : List α) (h : fold ∈ folds) :
    ∃ f, f < folds.length ∧ folds.getD f [] = fold := by
  obtain ⟨f, hf, hget⟩ := List.mem_iff_getElem.1 h
  refine ⟨f, hf, ?_⟩
  rw [List.getD_eq_getElem?_getD, List.getElem?_eq_getElem hf, hget]
  rfl

/-- C28. For every non-empty list `groups` and every `nFolds >= 1`,
`groupKFold` returns at least one fold, every returned fold is non-empty, and
the numbers of distinct groups of the examples of any two folds differ by at
most 1. -/
theorem groupKFold_balanced (rng : GoMap Int Bool → GoMap Int Bool) (hr : RangeOrder rng)
    (groups : List Int) (hne : groups ≠ []) (nFolds : Int) (hn : 1 ≤ nFolds) :
    ∃ folds, groupKFold rng groups nFolds = some folds ∧ folds ≠ [] ∧
      (∀ fold ∈ folds, fold ≠ []) ∧
      ∀ fold1 ∈ folds, ∀ fold2 ∈ folds,
        (foldGroups groups fold1).card ≤ (foldGroups groups fold2).card + 1 := by
  obtain ⟨folds, h1, h2, h3⟩ := foldGroups_card rng hr groups nFolds hn
  have hG : 0 < (sortedGroupsOf rng groups).length := by
    obtain ⟨g, hg⟩ := List.exists_mem_of_ne_nil groups hne
    exact List.length_pos_of_mem ((mem_sortedGroupsOf rng hr groups g).2 hg)
  have hk : 0 < foldCount rng groups nFolds := by
    unfold foldCount
    have : 0 < nFolds.toNat := by omega
    exact lt_min this hG
  have hkG : foldCount rng groups nFolds ≤ (sortedGroupsOf rng groups).length := by
    unfold foldCount
    exact min_le_right _ _
  have hdiv : 0 < (sortedGroupsOf rng groups).length / foldCount rng groups nFolds :=
    Nat.div_pos hkG hk
  refine ⟨folds, h1, ?_, ?_, ?_⟩
  · intro hnil
    rw [hnil] at h2
    simp only [List.length_nil] at h2
    omega
  · intro fold hfold hnil
    obtain ⟨f, hf, hget⟩ := mem_getD_of_mem folds fold hfold
    have hc := h3 f hf
    rw [hget, hnil, foldGroups_nil] at hc
    omega
  · intro fold1 hfold1 fold2 hfold2
    obtain ⟨f1, hf1, hget1⟩ := mem_getD_of_mem folds fold1 hfold1
    obtain ⟨f2, hf2, hget2⟩ := mem_getD_of_mem folds fold2 hfold2
    have hc1 := h3 f1 hf1
    have hc2 := h3 f2 hf2
    rw [hget1] at hc1
    rw [hget2] at hc2
    rw [hc1, hc2]
    split_ifs <;> omega

theorem groupKFold_balanced_witness :
    groupKFold id [0, 1, 0, 2, 1, 3] 3 = some [[0, 2, 5], [1, 4], [3]] ∧
    ((foldGroups [0, 1, 0, 2, 1, 3] [0, 2, 5]).card = 2 ∧
      (foldGroups [0, 1, 0, 2, 1, 3] [1, 4]).card = 1) ∧
    ∃ folds, groupKFold id [0, 1, 0, 2, 1, 3] 3 = some folds ∧ folds ≠ [] ∧
      (∀ fold ∈ folds, fold ≠ []) ∧
      ∀ fold1 ∈ folds, ∀ fold2 ∈ folds,
        (foldGroups [0, 1, 0, 2, 1, 3] fold1).card ≤
          (foldGroups [0, 1, 0, 2, 1, 3] fold2).card + 1 :=
  ⟨by decide, by decide,
    groupKFold_balanced id (fun l => List.Perm.refl l) [0, 1, 0, 2, 1, 3] (by decide) 3
      (by decide)⟩

/-! ## GetErrorIndicators: keyword containment and the key set -/

theorem foldl_set_fresh {κ ν : Type} [DecidableEq κ] (l : List (κ × ν)) (m0 : GoMap κ ν)
    (hl : (l.map Prod.fst).Nodup) (hdisj : ∀ kv ∈ l, ∀ e ∈ m0, e.1 ≠ kv.1) :
    l.foldl (fun f kv => GoMap.set f kv.1 kv.2) m0 = l.reverse ++ m0 := by
  induction l generalizing m0 with
  | nil => rfl
  | cons kv rest ih =>
    rw [List.map_cons, List.nodup_cons] at hl
    have hset : GoMap.set m0 kv.1 kv.2 = kv :: m0 := by
      unfold GoMap.set
      rw [List.filter_eq_self.2]
      intro e he
      have := hdisj kv (List.mem_cons_self _ _) e he
      simp [this]
    rw [List.foldl_cons, hset, ih (kv :: m0) hl.2, List.reverse_cons, List.append_assoc]
    · rfl
    · intro kv' hkv' e he
      rcases List.mem_cons.1 he with rfl | he'
      · intro heq
        exact hl.1 (heq ▸ List.mem_map_of_mem Prod.fst hkv')
      · exact hdisj kv' (List.mem_cons_of_mem _ hkv') e he'

/-- The result of `GetErrorIndicators` as a list of entries: the assignments
of the loop, the last one first. -/
theorem GetErrorIndicators_entries (ToLower : GoString → GoString)
    (pageTitle h1Text body : GoString) :
    GetErrorIndicators ToLower pageTitle h1Text body =
      (errorPatterns.flatMap (indicatorEntries (ToLower pageTitle) (ToLower h1Text)
        (scannedBody (ToLower body)))).reverse := by
  unfold GetErrorIndicators
  simp only []
  rw [foldl_entries_flatMap, foldl_set_fresh _ [] ?_ ?_, List.append_nil]
  · rw [indicatorEntries_keys]
    exact indicatorKeys_nodup
  · intro kv _ e he
    exact absurd he (List.not_mem_nil e)

theorem indicator_implies (ToLower : GoString → GoString) (pageTitle h1Text body : GoString)
    (p q : String × String) (hp : p ∈ errorPatterns) (hq : q ∈ errorPatterns)
    (hsub : ascii q.2 <:+: ascii p.2) :
    (GoMap.get? (GetErrorIndicators ToLower pageTitle h1Text body) ("title_has_" ++ p.1)
        = some (.num 1) →
      GoMap.get? (GetErrorIndicators ToLower pageTitle h1Text body) ("title_has_" ++ q.1)
        = some (.num 1)) ∧
    (GoMap.get? (GetErrorIndicators ToLower pageTitle h1Text body) ("h1_has_" ++ p.1)
        = some (.num 1) →
      GoMap.get? (GetErrorIndicators ToLower pageTitle h1Text body) ("h1_has_" ++ q.1)
        = some (.num 1)) ∧
    (GoMap.get? (GetErrorIndicators ToLower pageTitle h1Text body) ("body_has_" ++ p.1)
        = some (.num 1) →
      GoMap.get? (GetErrorIndicators ToLower pageTitle h1Text body) ("body_has_" ++ q.1)
        = some (.num 1)) := by
  obtain ⟨p1, p2, p3⟩ := GetErrorIndicators_pattern ToLower pageTitle h1Text body p hp
  obtain ⟨q1, q2, q3⟩ := GetErrorIndicators_pattern ToLower pageTitle h1Text body q hq
  have key : ∀ s : GoString,
      some (FeatureValue.num (if ascii p.2 <:+: s then 1 else 0)) = some (.num 1) →
      some (FeatureValue.num (if ascii q.2 <:+: s then 1 else 0)) = some (.num 1) := by
    intro s h
    by_cases hps : ascii p.2 <:+: s
    · rw [if_pos (hsub.trans hps)]
    · rw [if_neg hps] at h
      simp at h
  refine ⟨?_, ?_, ?_⟩
  · intro h
    rw [p1] at h
    rw [q1]
    exact key _ h
  · intro h
    rw [p2] at h
    rw [q2]
    exact key _ h
  · intro h
    rw [p3] at h
    rw [q3]
    exact key _ h

set_option maxRecDepth 100000 in
theorem indicatorKeys_length : (errorPatterns.flatMap indicatorKeys).length = 93 := by
  decide

/-- C30. For each region, title, h1 and body, the indicators of
`GetErrorIndicators` respect keyword containment: `page_not_found` at 1.0
implies `not_found` at 1.0, and `internal_error` at 1.0 implies
`server_error` at 1.0; the result has exactly 93 entries with pairwise
distinct keys, and every value is the number 0.0 or 1.0. -/
theorem GetErrorIndicators_containment (ToLower : GoString → GoString)
    (pageTitle h1Text body : GoString) :
    (∀ region ∈ ["title", "h1", "body"],
      (GoMap.get? (GetErrorIndicators ToLower pageTitle h1Text body)
          (region ++ "_has_page_not_found") = some (.num 1) →
        GoMap.get? (GetErrorIndicators ToLower pageTitle h1Text body)
          (region ++ "_has_not_found") = some (.num 1)) ∧
      (GoMap.get? (GetErrorIndicators ToLower pageTitle h1Text body)
          (region ++ "_has_internal_error") = some (.num 1) →
        GoMap.get? (GetErrorIndicators ToLower pageTitle h1Text body)
          (region ++ "_has_server_error") = some (.num 1))) ∧
    (GetErrorIndicators ToLower pageTitle h1Text body).length = 93 ∧
    GoMap.WF (GetErrorIndicators ToLower pageTitle h1Text body) ∧
    (∀ kv ∈ GetErrorIndicators ToLower pageTitle h1Text body,
      kv.2 = .num 0 ∨ kv.2 = .num 1) := by
  obtain ⟨a1, a2, a3⟩ := indicator_implies ToLower pageTitle h1Text body
    ("page_not_found", "page not found") ("not_found", "not found")
    (by decide) (by decide) (by decide)
  obtain ⟨b1, b2, b3⟩ := indicator_implies ToLower pageTitle h1Text body
    ("internal_error", "internal server error") ("server_error", "server error")
    (by decide) (by decide) (by decide)
  refine ⟨?_, ?_, ?_, ?_⟩
  · intro region hregion
    simp only [List.mem_cons, List.mem_singleton, List.not_mem_nil, or_false] at hregion
    rcases hregion with rfl | rfl | rfl
    · exact ⟨a1, b1⟩
    · exact ⟨a2, b2⟩
    · exact ⟨a3, b3⟩
  · rw [GetErrorIndicators_entries, List.length_reverse, ← List.length_map _ Prod.fst,
      indicatorEntries_keys]
    exact indicatorKeys_length
  · unfold GoMap.WF
    rw [GetErrorIndicators_entries, List.map_reverse, List.nodup_reverse, indicatorEntries_keys]
    exact indicatorKeys_nodup
  · intro kv hkv
    rw [GetErrorIndicators_entries, List.mem_reverse, List.mem_flatMap] at hkv
    obtain ⟨p, _, hmem⟩ := hkv
    unfold indicatorEntries boolToFloat at hmem
    simp only [List.mem_cons, List.mem_singleton, List.not_mem_nil, or_false] at hmem
    rcases hmem with rfl | rfl | rfl <;> simp only <;> split_ifs <;> simp

/-! ## ExtractPage and ClassifyPage -/

theorem forEachForm_isSome_congr {α β γ : Type} (body1 : α → Option β) (body2 : α → Option γ)
    (h : ∀ x, (body1 x).isSome = (body2 x).isSome) (l : List α) :
    (forEachForm body1 l).isSome = (forEachForm body2 l).isSome := by
  induction l with
  | nil => rfl
  | cons x l ih =>
    have hx := h x
    unfold forEachForm
    cases h1 : body1 x <;> cases h2 : body2 x
    · rfl
    · rw [h1, h2] at hx
      cases hx
    · rw [h1, h2] at hx
      cases hx
    · simp only [Option.isSome_map']
      exact ih

theorem formEntry_isSome {D : Deps} (c : FormFieldClassifier D) (proba : Bool) (threshold : ℚ)
    (classifyFields : Bool) (form : D.Form) :
    (formEntry c proba threshold classifyFields form).isSome = (c.Classify form false).isSome := by
  unfold formEntry FormFieldClassifier.Classify FormFieldClassifier.ClassifyProba
  cases c.FormModel <;> cases proba <;> cases classifyFields <;> cases c.FieldModel <;> rfl

theorem Classify_form_only {D : Deps} (c : FormFieldClassifier D) (formModel : D.FormTypeModel)
    (hfm : c.FormModel = some formModel) (form : D.Form) :
    c.Classify form false = some { Form := D.formClassify formModel form, Fields := [] } := by
  unfold FormFieldClassifier.Classify
  rw [hfm]

theorem classifyFormsOnDoc_eq {D : Deps} (c : FormFieldClassifier D)
    (formModel : D.FormTypeModel) (hfm : c.FormModel = some formModel) (doc : D.Doc) :
    c.classifyFormsOnDoc doc = some (formTypeResults formModel doc) := by
  unfold FormFieldClassifier.classifyFormsOnDoc formTypeResults
  exact forEachForm_total _ _ (Classify_form_only c formModel hfm) (D.GetForms doc)

/-- With the page model present and HTML that parses, `ExtractPage` is the
loop over the forms followed by the page model on the results of
`classifyFormsOnDoc`. -/
theorem ExtractPage_unfold {D : Deps} (c : FormFieldClassifier D) (pageModel : PageTypeModel)
    (hpm : c.PageModel = some pageModel) (htmlStr : String) (doc : D.Doc)
    (hload : D.LoadHTMLString htmlStr = Except.ok doc) (proba : Bool) (threshold : ℚ)
    (classifyFields : Bool) :
    c.ExtractPage htmlStr proba threshold classifyFields =
      match forEachForm (formEntry c proba threshold classifyFields) (D.GetForms doc),
          c.classifyFormsOnDoc doc with
      | some formResults, some classifyResults =>
        if proba then
          match pageModel.ClassifyProba D doc classifyResults with
          | none => none
          | some pageProba =>
            some (some formResults, { Form := "", Fields := [] },
              { Form := thresholdMap D.rngThreshold pageProba threshold, Fields := [] }, none)
        else
          match pageModel.Classify D doc classifyResults with
          | none => none
          | some pageType =>
            some (some formResults, { Form := pageType, Fields := [] },
              { Form := [], Fields := [] }, none)
      | _, _ => none := by
  unfold FormFieldClassifier.ExtractPage FormFieldClassifier.classifyFormsOnDoc
  rw [hload]
  simp only [hpm]

/-- Within one call, where every best-class loop visits in the order
`D.rngBest` and `thresholdMap` in the order `D.rngThreshold`: the page label
of `ExtractPage` without probabilities is the result of `ClassifyPage doc`
and the page distribution of `ExtractPage` with probabilities is the result
of `ClassifyPageProba doc threshold` (a panic of one is a panic of the
other); with the form model present both feed the page model the list, in
document order, of the form-type-only results of all forms of `doc`, and
`ExtractPage` returns whenever the page model does. -/
theorem ExtractPage_page_results {D : Deps} (c : FormFieldClassifier D)
    (pageModel : PageTypeModel) (hpm : c.PageModel = some pageModel) (htmlStr : String)
    (doc : D.Doc) (hload : D.LoadHTMLString htmlStr = Except.ok doc) (threshold : ℚ)
    (classifyFields : Bool) :
    (c.ExtractPage htmlStr false threshold classifyFields).map (fun r => r.2.1.Form)
      = c.ClassifyPage doc ∧
    (c.ExtractPage htmlStr true threshold classifyFields).map (fun r => r.2.2.1.Form)
      = c.ClassifyPageProba doc threshold ∧
    (∀ formModel, c.FormModel = some formModel →
      c.classifyFormsOnDoc doc = some (formTypeResults formModel doc) ∧
      c.ClassifyPage doc = pageModel.Classify D doc (formTypeResults formModel doc) ∧
      c.ClassifyPageProba doc threshold =
        (pageModel.ClassifyProba D doc (formTypeResults formModel doc)).map
          (fun p => thresholdMap D.rngThreshold p threshold) ∧
      (∀ label, pageModel.Classify D doc (formTypeResults formModel doc) = some label →
        ∃ formResults, c.ExtractPage htmlStr false threshold classifyFields =
          some (some formResults, { Form := label, Fields := [] },
            { Form := [], Fields := [] }, none)) ∧
      (∀ p, pageModel.ClassifyProba D doc (formTypeResults formModel doc) = some p →
        ∃ formResults, c.ExtractPage htmlStr true threshold classifyFields =
          some (some formResults, { Form := "", Fields := [] },
            { Form := thresholdMap D.rngThreshold p threshold, Fields := [] }, none))) := by
  have hsome : ∀ proba, (forEachForm (formEntry c proba threshold classifyFields)
      (D.GetForms doc)).isSome = (c.classifyFormsOnDoc doc).isSome := fun proba =>
    forEachForm_isSome_congr _ _ (formEntry_isSome c proba threshold classifyFields) _
  refine ⟨?_, ?_, ?_⟩
  · rw [ExtractPage_unfold c pageModel hpm htmlStr doc hload]
    unfold FormFieldClassifier.ClassifyPage
    have hs := hsome false
    cases h1 : forEachForm (formEntry c false threshold classifyFields) (D.GetForms doc) <;>
      cases h2 : c.classifyFormsOnDoc doc
    · rfl
    · rw [h1, h2] at hs
      cases hs
    · rw [h1, h2] at hs
      cases hs
    · simp only [hpm, Bool.false_eq_true, if_false]
      cases pageModel.Classify D doc _ <;> rfl
  · rw [ExtractPage_unfold c pageModel hpm htmlStr doc hload]
    unfold FormFieldClassifier.ClassifyPageProba
    have hs := hsome true
    cases h1 : forEachForm (formEntry c true threshold classifyFields) (D.GetForms doc) <;>
      cases h2 : c.classifyFormsOnDoc doc
    · rfl
    · rw [h1, h2] at hs
      cases hs
    · rw [h1, h2] at hs
      cases hs
    · simp only [hpm, if_true]
      cases pageModel.ClassifyProba D doc _ <;> rfl
  · intro formModel hfm
    have hcl := classifyFormsOnDoc_eq c formModel hfm doc
    refine ⟨hcl, ?_, ?_, ?_, ?_⟩
    · unfold FormFieldClassifier.ClassifyPage
      rw [hcl]
      simp only [hpm]
    · unfold FormFieldClassifier.ClassifyPageProba
      rw [hcl]
      simp only [hpm]
      cases pageModel.ClassifyProba D doc _ <;> rfl
    · intro label hlabel
      obtain ⟨g, hg⟩ := formEntry_total c formModel hfm false threshold classifyFields
      refine ⟨(D.GetForms doc).map g, ?_⟩
      rw [ExtractPage_unfold c pageModel hpm htmlStr doc hload, hcl,
        forEachForm_total _ g hg]
      simp only [Bool.false_eq_true, if_false, hlabel]
    · intro p hp
      obtain ⟨g, hg⟩ := formEntry_total c formModel hfm true threshold classifyFields
      refine ⟨(D.GetForms doc).map g, ?_⟩
      rw [ExtractPage_unfold c pageModel hpm htmlStr doc hload, hcl,
        forEachForm_total _ g hg]
      simp only [if_true, hp]

theorem probaLoop_WF (probs : List ℚ) (classes : List String) (c : Nat)
    (result res : GoMap String ℚ) (h : probaLoop probs classes c result = some res)
    (hwf : result.WF) : res.WF := by
  induction classes generalizing c result with
  | nil =>
    simp only [probaLoop, Option.some.injEq] at h
    rw [← h]
    exact hwf
  | cons cls rest ih =>
    unfold probaLoop at h
    cases hp : probs[c]? with
    | none =>
      rw [hp] at h
      cases h
    | some p =>
      rw [hp] at h
      exact ih (c + 1) _ h (GoMap.WF_set result hwf _ _)

/-- The map that `ClassifyProba` returns has pairwise distinct keys. -/
theorem ClassifyProba_WF (D : Deps) (m : PageTypeModel) (doc : D.Doc)
    (formResults : List ClassifyResult) (proba : GoMap String ℚ)
    (h : m.ClassifyProba D doc formResults = some proba) : proba.WF := by
  unfold PageTypeModel.ClassifyProba at h
  split at h
  · cases h
  · dsimp only at h
    split at h
    · cases h
    · exact probaLoop_WF _ _ _ _ _ h List.nodup_nil

/-- The entries of `thresholdMap` do not depend on the order of its `range`. -/
theorem thresholdMap_get?_order (r1 r2 : GoMap String ℚ → GoMap String ℚ)
    (h1 : RangeOrder r1) (h2 : RangeOrder r2) (m : GoMap String ℚ) (hm : m.WF) (t : ℚ)
    (k : String) :
    GoMap.get? (thresholdMap r1 m t) k = GoMap.get? (thresholdMap r2 m t) k := by
  unfold thresholdMap
  by_cases ht : t ≤ 0
  · rw [if_pos ht, if_pos ht]
  · rw [if_neg ht, if_neg ht,
      thresholdMap_loop_get? t _ _ (GoMap.WF_of_perm (h1 m) hm) k,
      thresholdMap_loop_get? t _ _ (GoMap.WF_of_perm (h2 m) hm) k]
    have hsame : GoMap.get? (r1 m) k = GoMap.get? (r2 m) k := by
      cases hg : GoMap.get? (r2 m) k with
      | none =>
        cases hg1 : GoMap.get? (r1 m) k with
        | none => rfl
        | some v =>
          have hmem := (GoMap.get?_eq_some_iff _ (GoMap.WF_of_perm (h1 m) hm) k v).1 hg1
          have hmem2 : (k, v) ∈ r2 m := (h2 m).mem_iff.2 ((h1 m).mem_iff.1 hmem)
          rw [(GoMap.get?_eq_some_iff _ (GoMap.WF_of_perm (h2 m) hm) k v).2 hmem2] at hg
          cases hg
      | some v =>
        have hmem := (GoMap.get?_eq_some_iff _ (GoMap.WF_of_perm (h2 m) hm) k v).1 hg
        have hmem1 : (k, v) ∈ r1 m := (h1 m).mem_iff.2 ((h2 m).mem_iff.1 hmem)
        exact (GoMap.get?_eq_some_iff _ (GoMap.WF_of_perm (h1 m) hm) k v).2 hmem1
    rw [hsame]

/-- When one entry has strictly the largest probability, above -1, the
best-class loop returns its class in whatever order it visits the map. -/
theorem bestClass_unique_max (proba visit : GoMap String ℚ) (hv : visit.Perm proba)
    (e : String × ℚ) (he : e ∈ proba) (hlow : -1 < e.2)
    (hmax : ∀ x ∈ proba, x ≠ e → x.2 < e.2) : bestClass visit = e.1 := by
  unfold bestClass
  have hev : e ∈ visit := hv.mem_iff.2 he
  rcases foldl_bestStep visit "" (-1) with ⟨hall, _⟩ | ⟨pre, e', post, hl, hres, _, hpre, hpost⟩
  · exact absurd (hall e hev) (not_le.2 hlow)
  · rw [hres]
    by_cases hee : e' = e
    · rw [hee]
    · exfalso
      have he'v : e' ∈ visit := by
        rw [hl]
        exact List.mem_append_right _ (List.mem_cons_self _ _)
      have hlt : e'.2 < e.2 := hmax e' (hv.mem_iff.1 he'v) hee
      rw [hl] at hev
      rcases List.mem_append.1 hev with h | h
      · exact absurd (hpre e h) (not_lt.2 (le_of_lt hlt))
      · rcases List.mem_cons.1 h with h | h
        · exact hee h.symm
        · exact absurd (hpost e h) (not_le.2 hlt)

theorem extractFeatures_withOrders (D : Deps) (m : PageTypeModel) (doc : D.Doc)
    (frs : List ClassifyResult) (best threshold : GoMap String ℚ → GoMap String ℚ) :
    m.extractFeatures (D.withOrders best threshold) doc frs = m.extractFeatures D doc frs := rfl

/-- The probability map of the page model does not depend on the orders of
the `range` loops of the call. -/
theorem ClassifyProba_withOrders (D : Deps) (m : PageTypeModel) (doc : D.Doc)
    (frs : List ClassifyResult) (best threshold : GoMap String ℚ → GoMap String ℚ) :
    m.ClassifyProba (D.withOrders best threshold) doc frs = m.ClassifyProba D doc frs := by
  unfold PageTypeModel.ClassifyProba
  rw [extractFeatures_withOrders]
  cases m.extractFeatures D doc frs with
  | none => rfl
  | some features => dsimp only

theorem Classify_withOrders (D : Deps) (m : PageTypeModel) (doc : D.Doc)
    (frs : List ClassifyResult) (best threshold : GoMap String ℚ → GoMap String ℚ) :
    m.Classify (D.withOrders best threshold) doc frs =
      match m.ClassifyProba D doc frs with
      | none => none
      | some proba => some (bestClass (best proba)) := by
  unfold PageTypeModel.Classify
  rw [ClassifyProba_withOrders]

theorem FormFieldClassifier_Classify_withOrders {D : Deps} (c : FormFieldClassifier D)
    (form : D.Form) (fields : Bool) (best threshold : GoMap String ℚ → GoMap String ℚ) :
    (c.withOrders best threshold).Classify form fields = c.Classify form fields := by
  unfold FormFieldClassifier.Classify
  dsimp only
  cases c.FormModel <;> cases fields <;> cases c.FieldModel <;> rfl

/-- The form-type-only results do not depend on the orders of the `range`
loops of the call. -/
theorem classifyFormsOnDoc_withOrders {D : Deps} (c : FormFieldClassifier D) (doc : D.Doc)
    (best threshold : GoMap String ℚ → GoMap String ℚ) :
    (c.withOrders best threshold).classifyFormsOnDoc doc = c.classifyFormsOnDoc doc := by
  unfold FormFieldClassifier.classifyFormsOnDoc
  have h : (fun form => (c.withOrders best threshold).Classify form false)
      = (fun form => c.Classify form false) := by
    funext form
    exact FormFieldClassifier_Classify_withOrders c form false best threshold
  show forEachForm (fun form => (c.withOrders best threshold).Classify form false)
    (D.GetForms doc) = _
  rw [h]

/-- The page label of `ClassifyPage` in a call whose best-class loop visits
in the order `best`: the best class of the probability map in that order. -/
theorem ClassifyPage_withOrders {D : Deps} (c : FormFieldClassifier D)
    (pageModel : PageTypeModel) (hpm : c.PageModel = some pageModel) (doc : D.Doc)
    (best threshold : GoMap String ℚ → GoMap String ℚ) :
    (c.withOrders best threshold).ClassifyPage doc =
      match c.classifyFormsOnDoc doc with
      | none => none
      | some formResults =>
        match pageModel.ClassifyProba D doc formResults with
        | none => none
        | some proba => some (bestClass (best proba)) := by
  unfold FormFieldClassifier.ClassifyPage
  rw [classifyFormsOnDoc_withOrders]
  cases c.classifyFormsOnDoc doc with
  | none => rfl
  | some formResults =>
    simp only [hpm]
    exact Classify_withOrders D pageModel doc formResults best threshold

/-- The page distribution of `ClassifyPageProba` in a call whose
`thresholdMap` visits in the order `threshold`. -/
theorem ClassifyPageProba_withOrders {D : Deps} (c : FormFieldClassifier D)
    (pageModel : PageTypeModel) (hpm : c.PageModel = some pageModel) (doc : D.Doc)
    (t : ℚ) (best threshold : GoMap String ℚ → GoMap String ℚ) :
    (c.withOrders best threshold).ClassifyPageProba doc t =
      match c.classifyFormsOnDoc doc with
      | none => none
      | some formResults =>
        match pageModel.ClassifyProba D doc formResults with
        | none => none
        | some proba => some (thresholdMap threshold proba t) := by
  unfold FormFieldClassifier.ClassifyPageProba
  rw [classifyFormsOnDoc_withOrders]
  cases c.classifyFormsOnDoc doc with
  | none => rfl
  | some formResults =>
    simp only [hpm]
    rw [ClassifyProba_withOrders]

/-- C23, counterexample. The stand-in classifier with the page model of two
tied classes, on the document `<form></form>`: a call of `ExtractPage` whose
best-class loop visits the probability map in stored order returns the page
label `search`, and a call of `ClassifyPage` whose loop visits it in reverse
returns `login`. Both orders visit every entry once. -/
theorem ExtractPage_ClassifyPage_differ_on_tie :
    RangeOrder (id : GoMap String ℚ → GoMap String ℚ) ∧
    RangeOrder (List.reverse : GoMap String ℚ → GoMap String ℚ) ∧
    (stubDeps id).LoadHTMLString "<form></form>" = Except.ok "<form></form>" ∧
    tiedModel.ClassifyProba (stubDeps id) "<form></form>"
        [{ Form := "login", Fields := [] }]
      = some [("search", mkRat 1 2), ("login", mkRat 1 2)] ∧
    ((pageClassifier.withOrders id id).ExtractPage "<form></form>" false 0 true).map
        (fun r => r.2.1.Form) = some "search" ∧
    (pageClassifier.withOrders List.reverse id).ClassifyPage "<form></form>" = some "login" :=
  ⟨fun l => List.Perm.refl l, fun l => List.reverse_perm l, rfl, by decide, by decide,
    by decide⟩

/-- C23, amended. On a classifier with a page model and HTML that parses to
`doc`, take a call of `ExtractPage` and a call of `ClassifyPage` or
`ClassifyPageProba`, each with its own orders of `range` over the maps. With
the form model present both feed the page model the list, in document order,
of the form-type-only results of all forms of `doc`, so both work on the same
probability map (a panic of one is a panic of the other). With probabilities
the page distribution of `ExtractPage` has the same entries as the result of
`ClassifyPageProba doc threshold`. Without probabilities the page label of
`ExtractPage` is the result of `ClassifyPage doc` when the two best-class
loops visit the map in the same order, and also when one class has strictly
the largest probability. -/
theorem ExtractPage_agrees_with_ClassifyPage {D : Deps} (c : FormFieldClassifier D)
    (pageModel : PageTypeModel) (hpm : c.PageModel = some pageModel) (htmlStr : String)
    (doc : D.Doc) (hload : D.LoadHTMLString htmlStr = Except.ok doc) (threshold : ℚ)
    (classifyFields : Bool)
    (best1 thr1 best2 thr2 : GoMap String ℚ → GoMap String ℚ)
    (hb1 : RangeOrder best1) (hb2 : RangeOrder best2)
    (ht1 : RangeOrder thr1) (ht2 : RangeOrder thr2) :
    (∀ formModel, c.FormModel = some formModel →
      (c.withOrders best2 thr2).classifyFormsOnDoc doc
        = some (formTypeResults (D := D) formModel doc) ∧
      ((c.withOrders best1 thr1).ExtractPage htmlStr false threshold classifyFields).map
          (fun r => r.2.1.Form)
        = (pageModel.ClassifyProba D doc (formTypeResults (D := D) formModel doc)).map
            (fun proba => bestClass (best1 proba)) ∧
      (c.withOrders best2 thr2).ClassifyPage doc
        = (pageModel.ClassifyProba D doc (formTypeResults (D := D) formModel doc)).map
            (fun proba => bestClass (best2 proba)) ∧
      ((c.withOrders best1 thr1).ExtractPage htmlStr true threshold classifyFields).map
          (fun r => r.2.2.1.Form)
        = (pageModel.ClassifyProba D doc (formTypeResults (D := D) formModel doc)).map
            (fun proba => thresholdMap thr1 proba threshold) ∧
      (c.withOrders best2 thr2).ClassifyPageProba doc threshold
        = (pageModel.ClassifyProba D doc (formTypeResults (D := D) formModel doc)).map
            (fun proba => thresholdMap thr2 proba threshold)) ∧
    (((c.withOrders best1 thr1).ExtractPage htmlStr true threshold classifyFields).map
        (fun r => r.2.2.1.Form)).isSome
      = ((c.withOrders best2 thr2).ClassifyPageProba doc threshold).isSome ∧
    (∀ p1 p2,
      ((c.withOrders best1 thr1).ExtractPage htmlStr true threshold classifyFields).map
          (fun r => r.2.2.1.Form) = some p1 →
      (c.withOrders best2 thr2).ClassifyPageProba doc threshold = some p2 →
      ∀ k, GoMap.get? p1 k = GoMap.get? p2 k) ∧
    (best1 = best2 →
      ((c.withOrders best1 thr1).ExtractPage htmlStr false threshold classifyFields).map
          (fun r => r.2.1.Form)
        = (c.withOrders best2 thr2).ClassifyPage doc) ∧
    ((∀ frs proba, c.classifyFormsOnDoc doc = some frs →
        pageModel.ClassifyProba D doc frs = some proba →
        ∃ e ∈ proba, -1 < e.2 ∧ ∀ x ∈ proba, x ≠ e → x.2 < e.2) →
      ((c.withOrders best1 thr1).ExtractPage htmlStr false threshold classifyFields).map
          (fun r => r.2.1.Form)
        = (c.withOrders best2 thr2).ClassifyPage doc) := by
  have hL1 : ((c.withOrders best1 thr1).ExtractPage htmlStr false threshold
        classifyFields).map (fun r => r.2.1.Form) =
      match c.classifyFormsOnDoc doc with
      | none => none
      | some formResults =>
        match pageModel.ClassifyProba D doc formResults with
        | none => none
        | some proba => some (bestClass (best1 proba)) := by
    rw [(ExtractPage_page_results (c.withOrders best1 thr1) pageModel hpm htmlStr doc hload
      threshold classifyFields).1]
    exact ClassifyPage_withOrders c pageModel hpm doc best1 thr1
  have hL2 := ClassifyPage_withOrders c pageModel hpm doc best2 thr2
  have hP1 : ((c.withOrders best1 thr1).ExtractPage htmlStr true threshold
        classifyFields).map (fun r => r.2.2.1.Form) =
      match c.classifyFormsOnDoc doc with
      | none => none
      | some formResults =>
        match pageModel.ClassifyProba D doc formResults with
        | none => none
        | some proba => some (thresholdMap thr1 proba threshold) := by
    rw [(ExtractPage_page_results (c.withOrders best1 thr1) pageModel hpm htmlStr doc hload
      threshold classifyFields).2.1]
    exact ClassifyPageProba_withOrders c pageModel hpm doc threshold best1 thr1
  have hP2 := ClassifyPageProba_withOrders c pageModel hpm doc threshold best2 thr2
  refine ⟨?_, ?_, ?_, ?_, ?_⟩
  · intro formModel hfm
    have hcl := classifyFormsOnDoc_eq c formModel hfm doc
    refine ⟨?_, ?_, ?_, ?_, ?_⟩
    · rw [classifyFormsOnDoc_withOrders]
      exact hcl
    · rw [hL1, hcl]
      dsimp only
      cases pageModel.ClassifyProba D doc (formTypeResults (D := D) formModel doc) <;> rfl
    · rw [hL2, hcl]
      dsimp only
      cases pageModel.ClassifyProba D doc (formTypeResults (D := D) formModel doc) <;> rfl
    · rw [hP1, hcl]
      dsimp only
      cases pageModel.ClassifyProba D doc (formTypeResults (D := D) formModel doc) <;> rfl
    · rw [hP2, hcl]
      dsimp only
      cases pageModel.ClassifyProba D doc (formTypeResults (D := D) formModel doc) <;> rfl
  · rw [hP1, hP2]
    cases c.classifyFormsOnDoc doc with
    | none => rfl
    | some frs =>
      dsimp only
      cases pageModel.ClassifyProba D doc frs <;> rfl
  · intro p1 p2 h1 h2 k
    rw [hP1] at h1
    rw [hP2] at h2
    cases hf : c.classifyFormsOnDoc doc with
    | none =>
      rw [hf] at h1
      cases h1
    | some frs =>
      rw [hf] at h1 h2
      dsimp only at h1 h2
      cases hp : pageModel.ClassifyProba D doc frs with
      | none =>
        rw [hp] at h1
        cases h1
      | some proba =>
        rw [hp] at h1 h2
        simp only [Option.some.injEq] at h1 h2
        rw [← h1, ← h2]
        exact thresholdMap_get?_order thr1 thr2 ht1 ht2 proba
          (ClassifyProba_WF D pageModel doc frs proba hp) threshold k
  · intro hbest
    rw [hL1, hL2, hbest]
  · intro hmax
    rw [hL1, hL2]
    cases hf : c.classifyFormsOnDoc doc with
    | none => rfl
    | some frs =>
      dsimp only
      cases hp : pageModel.ClassifyProba D doc frs with
      | none => rfl
      | some proba =>
        obtain ⟨e, he, hlow, hmaxe⟩ := hmax frs proba hf hp
        dsimp only
        rw [bestClass_unique_max proba (best1 proba) (hb1 proba) e he hlow hmaxe,
          bestClass_unique_max proba (best2 proba) (hb2 proba) e he hlow hmaxe]

/-- Witness of `ExtractPage_agrees_with_ClassifyPage`: the stand-in classifier
with the page model of logits 0, 2 and 1, where `search` has strictly the
largest probability; `ExtractPage` visiting in stored order and
`ClassifyPage` visiting in reverse both return `search`. -/
theorem ExtractPage_agrees_with_ClassifyPage_witness :
    ((skewedClassifier.withOrders id id).ExtractPage "<form></form>" false (mkRat 1 4)
        true).map (fun r => r.2.1.Form) = some "search" ∧
    (skewedClassifier.withOrders List.reverse List.reverse).ClassifyPage "<form></form>"
      = some "search" ∧
    skewedModel.ClassifyProba (rankDeps id) "<form></form>" [{ Form := "login", Fields := [] }]
      = some [("error", mkRat 1 3), ("search", mkRat 1 2), ("login", mkRat 1 6)] ∧
    ((skewedClassifier.withOrders id id).ExtractPage "<form></form>" false (mkRat 1 4)
        true).map (fun r => r.2.1.Form)
      = (skewedClassifier.withOrders List.reverse List.reverse).ClassifyPage "<form></form>" ∧
    (∀ p1 p2,
      ((skewedClassifier.withOrders id id).ExtractPage "<form></form>" true (mkRat 1 4)
          true).map (fun r => r.2.2.1.Form) = some p1 →
      (skewedClassifier.withOrders List.reverse List.reverse).ClassifyPageProba
          "<form></form>" (mkRat 1 4) = some p2 →
      ∀ k, GoMap.get? p1 k = GoMap.get? p2 k) :=
  ⟨by with_unfolding_all decide, by with_unfolding_all decide, by with_unfolding_all decide,
    (ExtractPage_agrees_with_ClassifyPage skewedClassifier skewedModel rfl "<form></form>"
      "<form></form>" rfl (mkRat 1 4) true id id List.reverse List.reverse
      (fun l => List.Perm.refl l) (fun l => List.reverse_perm l)
      (fun l => List.Perm.refl l) (fun l => List.reverse_perm l)).2.2.2.2
      (by
        intro frs proba hf hp
        have hf' : skewedClassifier.classifyFormsOnDoc "<form></form>"
            = some [{ Form := "login", Fields := [] }] := by decide
        rw [hf'] at hf
        cases hf
        have hp' : skewedModel.ClassifyProba (rankDeps id) "<form></form>"
            [{ Form := "login", Fields := [] }]
            = some [("error", mkRat 1 3), ("search", mkRat 1 2), ("login", mkRat 1 6)] := by
          with_unfolding_all decide
        rw [hp'] at hp
        cases hp
        exact ⟨("search", mkRat 1 2), by decide, by with_unfolding_all decide,
          by with_unfolding_all decide⟩),
    (ExtractPage_agrees_with_ClassifyPage skewedClassifier skewedModel rfl "<form></form>"
      "<form></form>" rfl (mkRat 1 4) true id id List.reverse List.reverse
      (fun l => List.Perm.refl l) (fun l => List.reverse_perm l)
      (fun l => List.Perm.refl l) (fun l => List.reverse_perm l)).2.2.1⟩

/-! ## TrainPageType: classes and coefficients -/

theorem rangeLoop_length {α β : Type} (body : Nat → α → Option β) (l : List α) (i : Nat)
    (out : List β) (h : rangeLoop body l i = some out) : out.length = l.length := by
  induction l generalizing i out with
  | nil =>
    simp only [rangeLoop, Option.some.injEq] at h
    rw [← h]
    rfl
  | cons x rest ih =>
    unfold rangeLoop at h
    cases hb : body i x with
    | none =>
      rw [hb] at h
      cases h
    | some r =>
      rw [hb] at h
      cases hrest : rangeLoop body rest (i + 1) with
      | none =>
        rw [hrest] at h
        cases h
      | some rs =>
        rw [hrest] at h
        simp only [Option.map_some', Option.some.injEq] at h
        rw [← h, List.length_cons, List.length_cons, ih (i + 1) rs hrest]

theorem rangeLoop_getElem? {α β : Type} (body : Nat → α → Option β) (l : List α) (i : Nat)
    (out : List β) (h : rangeLoop body l i = some out) (k : Nat) (x : α)
    (hx : l[k]? = some x) : ∃ r, body (i + k) x = some r ∧ out[k]? = some r := by
  induction l generalizing i out k with
  | nil => simp at hx
  | cons a rest ih =>
    unfold rangeLoop at h
    cases hb : body i a with
    | none =>
      rw [hb] at h
      cases h
    | some r =>
      rw [hb] at h
      cases hrest : rangeLoop body rest (i + 1) with
      | none =>
        rw [hrest] at h
        cases h
      | some rs =>
        rw [hrest] at h
        simp only [Option.map_some', Option.some.injEq] at h
        subst h
        cases k with
        | zero =>
          simp only [List.getElem?_cons_zero, Option.some.injEq] at hx
          subst hx
          exact ⟨r, hb, List.getElem?_cons_zero⟩
        | succ k =>
          simp only [List.getElem?_cons_succ] at hx
          obtain ⟨r', h1, h2⟩ := ih (i + 1) rs hrest k hx
          refine ⟨r', ?_, ?_⟩
          · rw [← h1]
            congr 1
            omega
          · simp only [List.getElem?_cons_succ]
            exact h2

theorem rangeLoop_some {α β : Type} (body : Nat → α → Option β) (l : List α) (i : Nat)
    (h : ∀ k x, l[k]? = some x → ∃ r, body (i + k) x = some r) :
    ∃ out, rangeLoop body l i = some out := by
  induction l generalizing i with
  | nil => exact ⟨[], rfl⟩
  | cons a rest ih =>
    obtain ⟨r, hr⟩ := h 0 a List.getElem?_cons_zero
    obtain ⟨rs, hrs⟩ := ih (i + 1) (fun k x hx => by
      obtain ⟨r', hr'⟩ := h (k + 1) x (by simpa using hx)
      refine ⟨r', ?_⟩
      rw [← hr']
      congr 1
      omega)
    refine ⟨r :: rs, ?_⟩
    unfold rangeLoop
    rw [Nat.add_zero] at hr
    rw [hr, hrs]
    rfl

/-- A loop over `range n` whose body does not panic: it returns `n` slots,
slot `k` holding the value of the body at `k`. -/
theorem rangeLoop_range {β : Type} (body : Nat → Nat → Option β) (n : Nat) (g : Nat → β)
    (h : ∀ k, k < n → body k k = some (g k)) :
    ∃ out, rangeLoop body (List.range n) 0 = some out ∧ out.length = n ∧
      ∀ k, k < n → out[k]? = some (g k) := by
  obtain ⟨out, hout⟩ := rangeLoop_some body (List.range n) 0 (fun k x hx => by
    have hk : k < n := by
      have := (List.getElem?_eq_some.1 hx).1
      simpa using this
    have hxk : x = k := by
      rw [List.getElem?_range hk] at hx
      exact (Option.some.inj hx).symm
    subst hxk
    rw [Nat.zero_add]
    exact ⟨g x, h x hk⟩)
  refine ⟨out, hout, ?_, ?_⟩
  · rw [rangeLoop_length body _ 0 out hout, List.length_range]
  · intro k hk
    obtain ⟨r, h1, h2⟩ := rangeLoop_getElem? body _ 0 out hout k k (List.getElem?_range hk)
    rw [Nat.zero_add, h k hk] at h1
    rw [h2, ← Option.some.inj h1]

/-- The invariant of the class loop of `TrainPageType` after the labels
`pre`: `classSet` has exactly the classes as keys, and the classes are the
distinct labels of `pre` in the order of their first occurrence. -/
theorem classStep_invariant (labels pre : List String) (s : GoMap String Int × List String)
    (hkeys : ∀ l, (s.1.get? l).isSome ↔ l ∈ s.2)
    (hnodup : s.2.Nodup) (hmem : ∀ l, l ∈ s.2 ↔ l ∈ pre)
    (hord : s.2.Pairwise (fun a b => pre.indexOf a < pre.indexOf b)) :
    (∀ l, (((labels.foldl classStep s).1).get? l).isSome ↔ l ∈ (labels.foldl classStep s).2) ∧
    (labels.foldl classStep s).2.Nodup ∧
    (∀ l, l ∈ (labels.foldl classStep s).2 ↔ l ∈ pre ++ labels) ∧
    (labels.foldl classStep s).2.Pairwise
      (fun a b => (pre ++ labels).indexOf a < (pre ++ labels).indexOf b) := by
  induction labels generalizing pre s with
  | nil =>
    rw [List.append_nil]
    exact ⟨hkeys, hnodup, hmem, hord⟩
  | cons l rest ih =>
    rw [List.foldl_cons]
    have happ : pre ++ l :: rest = (pre ++ [l]) ++ rest := by simp
    rw [happ]
    have hidx : ∀ a, a ∈ pre → (pre ++ [l]).indexOf a = pre.indexOf a := fun a ha =>
      List.indexOf_append_of_mem ha
    by_cases hl : l ∈ s.2
    · have hstep : classStep s l = s := by
        unfold classStep
        cases hget : s.1.get? l with
        | none =>
          have := (hkeys l).2 hl
          rw [hget] at this
          cases this
        | some v => rfl
      rw [hstep]
      apply ih (pre ++ [l]) s hkeys hnodup
      · intro x
        rw [hmem x, List.mem_append, List.mem_singleton]
        constructor
        · exact Or.inl
        · rintro (h | h)
          · exact h
          · rw [h]
            exact (hmem l).1 hl
      · apply hord.imp_of_mem
        intro a b ha hb hab
        rw [hidx a ((hmem a).1 ha), hidx b ((hmem b).1 hb)]
        exact hab
    · have hget : s.1.get? l = none := by
        cases hg : s.1.get? l with
        | none => rfl
        | some v =>
          have := (hkeys l).1 (by rw [hg]; rfl)
          exact absurd this hl
      have hstep : classStep s l = (s.1.set l (s.2.length : Int), s.2 ++ [l]) := by
        unfold classStep
        rw [hget]
      have hlpre : l ∉ pre := fun h => hl ((hmem l).2 h)
      rw [hstep]
      apply ih (pre ++ [l])
      · intro x
        simp only [GoMap.get?_set, List.mem_append, List.mem_singleton]
        by_cases hx : x = l
        · simp [hx]
        · rw [if_neg hx, hkeys x]
          simp [hx]
      · rw [List.nodup_append]
        refine ⟨hnodup, List.nodup_singleton l, ?_⟩
        intro a ha hb
        rw [List.mem_singleton] at hb
        exact hl (hb ▸ ha)
      · intro x
        simp only [List.mem_append, List.mem_singleton, hmem x]
      · rw [List.pairwise_append]
        refine ⟨?_, List.pairwise_singleton _ _, ?_⟩
        · apply hord.imp_of_mem
          intro a b ha hb hab
          rw [hidx a ((hmem a).1 ha), hidx b ((hmem b).1 hb)]
          exact hab
        · intro a ha b hb
          rw [List.mem_singleton] at hb
          subst hb
          rw [hidx a ((hmem a).1 ha), List.indexOf_append_of_not_mem hlpre,
            List.indexOf_cons_self, Nat.add_zero]
          exact List.indexOf_lt_length.2 ((hmem a).1 ha)

/-- The classes of `TrainPageType`: the distinct labels, in the order of
their first occurrence. -/
theorem classIndex_spec (labels : List String) :
    (classIndex labels).2.Nodup ∧
    (∀ l, l ∈ (classIndex labels).2 ↔ l ∈ labels) ∧
    (classIndex labels).2.Pairwise (fun a b => labels.indexOf a < labels.indexOf b) := by
  obtain ⟨_, h2, h3, h4⟩ := classStep_invariant labels [] ([], [])
    (by intro l; simp [GoMap.get?_nil]) List.nodup_nil (by intro l; simp) List.Pairwise.nil
  rw [List.nil_append] at h3 h4
  exact ⟨h2, h3, h4⟩

theorem rangeLoop_range_some {β : Type} (body : Nat → Nat → Option β) (n : Nat)
    (h : ∀ k, k < n → ∃ r, body k k = some r) :
    ∃ out, rangeLoop body (List.range n) 0 = some out ∧ out.length = n := by
  obtain ⟨out, hout⟩ := rangeLoop_some body (List.range n) 0 (fun k x hx => by
    have hk : k < n := by
      have := (List.getElem?_eq_some.1 hx).1
      simpa using this
    have hxk : x = k := by
      rw [List.getElem?_range hk] at hx
      exact (Option.some.inj hx).symm
    subst hxk
    rw [Nat.zero_add]
    exact h x hk)
  refine ⟨out, hout, ?_⟩
  rw [rangeLoop_length body _ 0 out hout, List.length_range]

theorem coef_offset_lt (c totalDim numClasses : Nat) (hc : c < numClasses) :
    c * (totalDim + 1) + totalDim < numClasses * (totalDim + 1) := by
  have h : (c + 1) * (totalDim + 1) ≤ numClasses * (totalDim + 1) :=
    Nat.mul_le_mul_right _ hc
  rw [Nat.add_mul, Nat.one_mul] at h
  omega

/-- The coefficient loop of `TrainPageType` on a parameter block of
`numClasses * (totalDim + 1)` numbers: one row per class, row `c` holding the
`totalDim` numbers from offset `c * (totalDim + 1)` and the number after
them. -/
theorem coefLoop_spec (params : List ℚ) (totalDim numClasses : Nat)
    (hlen : params.length = numClasses * (totalDim + 1)) :
    ∃ rows, coefLoop params totalDim numClasses = some rows ∧ rows.length = numClasses ∧
      ∀ c, c < numClasses →
        ∃ b, params[c * (totalDim + 1) + totalDim]? = some b ∧
          rows[c]? = some ((params.drop (c * (totalDim + 1))).take totalDim, b) ∧
          ((params.drop (c * (totalDim + 1))).take totalDim).length = totalDim := by
  have hlt : ∀ c, c < numClasses → c * (totalDim + 1) + totalDim < params.length := by
    intro c hc
    rw [hlen]
    exact coef_offset_lt c totalDim numClasses hc
  obtain ⟨rows, h1, h2, h3⟩ := rangeLoop_range
    (fun c _ =>
      if c * (totalDim + 1) + totalDim ≤ params.length then
        (params[c * (totalDim + 1) + totalDim]?).map
          (fun b => ((params.drop (c * (totalDim + 1))).take totalDim, b))
      else none)
    numClasses
    (fun c => ((params.drop (c * (totalDim + 1))).take totalDim,
      params.getD (c * (totalDim + 1) + totalDim) 0))
    (by
      intro c hc
      have := hlt c hc
      simp only
      rw [if_pos (by omega), List.getD_eq_getElem?_getD, List.getElem?_eq_getElem this]
      rfl)
  refine ⟨rows, h1, h2, ?_⟩
  intro c hc
  have := hlt c hc
  refine ⟨params[c * (totalDim + 1) + totalDim], List.getElem?_eq_getElem this, ?_, ?_⟩
  · rw [h3 c hc, List.getD_eq_getElem?_getD, List.getElem?_eq_getElem this]
    rfl
  · rw [List.length_take, List.length_drop]
    omega

/-- The optimizer loop of `TrainPageType` returns, and with as many
parameters as it started from, when the direction has `numParams` entries and
the gradient one entry per parameter. -/
theorem optimizeLoop_length (P : PageDeps)
    (hdir : ∀ lb g n, (P.computeDirection lb g n).1.length = n)
    (hgrad : ∀ x y params k d reg, (P.logRegObjective x y params k d reg).2.length = params.length)
    (xData : List P.Vec) (y : List Int) (numClasses totalDim : Nat) (reg : ℚ) (numParams : Nat)
    (iters : Nat) (params : List ℚ) (lbfgs : P.LBFGS) (hp : params.length = numParams) :
    ∃ out, optimizeLoop P xData y numClasses totalDim reg numParams iters params lbfgs = some out ∧
      out.length = numParams := by
  induction iters generalizing params lbfgs with
  | zero => exact ⟨params, rfl, hp⟩
  | succ iters ih =>
    unfold optimizeLoop
    simp only []
    obtain ⟨params', hloop1, hlen1⟩ := rangeLoop_range_some
      (fun i _ =>
        match params[i]?, (P.computeDirection lbfgs
            (P.logRegObjective xData y params numClasses totalDim reg).2 numParams).1[i]? with
        | some p, some di => some (p + P.logRegLineSearch xData y params
            (P.computeDirection lbfgs
              (P.logRegObjective xData y params numClasses totalDim reg).2 numParams).1
            numClasses totalDim reg
            (P.logRegObjective xData y params numClasses totalDim reg).1 * di)
        | _, _ => none) numParams
      (by
        intro i hi
        have h1 : i < params.length := by omega
        have h2 : i < (P.computeDirection lbfgs
            (P.logRegObjective xData y params numClasses totalDim reg).2 numParams).1.length := by
          rw [hdir]
          exact hi
        simp only [List.getElem?_eq_getElem h1, List.getElem?_eq_getElem h2]
        exact ⟨_, rfl⟩)
    rw [hloop1]
    simp only []
    obtain ⟨sy, hloop2, _⟩ := rangeLoop_range_some
      (fun i _ =>
        match params'[i]?, params[i]?,
          (P.logRegObjective xData y params' numClasses totalDim reg).2[i]?,
          (P.logRegObjective xData y params numClasses totalDim reg).2[i]? with
        | some a, some b, some g', some g => some (a - b, g' - g)
        | _, _, _, _ => none) numParams
      (by
        intro i hi
        have h1 : i < params.length := by omega
        have h2 : i < params'.length := by omega
        have h3 : i < (P.logRegObjective xData y params' numClasses totalDim reg).2.length := by
          rw [hgrad]
          exact h2
        have h4 : i < (P.logRegObjective xData y params numClasses totalDim reg).2.length := by
          rw [hgrad]
          exact h1
        simp only [List.getElem?_eq_getElem h1, List.getElem?_eq_getElem h2,
          List.getElem?_eq_getElem h3, List.getElem?_eq_getElem h4]
        exact ⟨_, rfl⟩)
    rw [hloop2]
    simp only []
    split_ifs
    · exact ⟨params', rfl, hlen1⟩
    · exact ih params' _ hlen1

theorem DefaultPageFeaturePipelines_vecTypes :
    ∀ pipe ∈ DefaultPageFeaturePipelines, pipe.VecType = "dict" ∨ pipe.VecType = "tfidf" := by
  decide

theorem trainData_total (P : PageDeps) (extractor : PageFeatureExtractor)
    (formResults : List (List ClassifyResult)) (docs : List P.Doc)
    (hfr : docs.length ≤ formResults.length) :
    ∃ data, trainData P extractor formResults docs = some data ∧ data.length = docs.length := by
  unfold trainData
  obtain ⟨data, hdata⟩ := rangeLoop_some
    (fun j doc => (formResults[j]?).map (fun fr => extractor.ExtractDict P doc fr)) docs 0
    (fun k doc hdoc => by
      have hk : k < docs.length := (List.getElem?_eq_some.1 hdoc).1
      have hk2 : 0 + k < formResults.length := by omega
      simp only [List.getElem?_eq_getElem hk2, Option.map_some']
      exact ⟨_, rfl⟩)
  exact ⟨data, hdata, rangeLoop_length _ _ _ _ hdata⟩

theorem trainCorpus_total (P : PageDeps) (extractor : PageFeatureExtractor)
    (formResults : List (List ClassifyResult)) (urls : List String) (docs : List P.Doc)
    (hfr : docs.length ≤ formResults.length) (hurls : docs.length ≤ urls.length) :
    ∃ corpus, trainCorpus P extractor formResults urls docs = some corpus ∧
      corpus.length = docs.length := by
  unfold trainCorpus
  obtain ⟨corpus, hcorpus⟩ := rangeLoop_some
    (fun j doc =>
      if isPageURLExtractor extractor then
        match urls[j]?, formResults[j]? with
        | some url, some fr =>
          some ((PageFeatureExtractor.PageURLExtractor url).ExtractString P doc fr)
        | _, _ => none
      else (formResults[j]?).map (fun fr => extractor.ExtractString P doc fr)) docs 0
    (fun k doc hdoc => by
      have hk : k < docs.length := (List.getElem?_eq_some.1 hdoc).1
      have hk2 : 0 + k < formResults.length := by omega
      have hk3 : 0 + k < urls.length := by omega
      simp only [List.getElem?_eq_getElem hk2, List.getElem?_eq_getElem hk3, Option.map_some']
      split_ifs
      · exact ⟨_, rfl⟩
      · exact ⟨_, rfl⟩)
  exact ⟨corpus, hcorpus, rangeLoop_length _ _ _ _ hcorpus⟩

/-- Fitting a "dict" or "tfidf" pipeline returns, with one vector per
document, when `FitTransform` yields one vector per input. -/
theorem fitPipeline_vectors (P : PageDeps)
    (hfitD : ∀ data, (P.dictFitTransform data).2.length = data.length)
    (hfitT : ∀ ng md b an sw corpus,
      (P.tfidfFitTransform ng md b an sw corpus).2.length = corpus.length)
    (docs : List P.Doc) (formResults : List (List ClassifyResult)) (urls : List String)
    (hfr : docs.length ≤ formResults.length) (hurls : docs.length ≤ urls.length)
    (pipe : PageFeaturePipeline) (hvt : pipe.VecType = "dict" ∨ pipe.VecType = "tfidf") :
    ∃ f, fitPipeline P docs formResults urls pipe = some f ∧
      ∃ vs, f.vectors = some vs ∧ vs.length = docs.length := by
  unfold fitPipeline
  by_cases hd : pipe.VecType = "dict"
  · obtain ⟨data, hdata, hlen⟩ := trainData_total P pipe.Extractor formResults docs hfr
    rw [if_pos hd, hdata]
    exact ⟨_, rfl, _, rfl, by rw [hfitD, hlen]⟩
  · have ht : pipe.VecType = "tfidf" := hvt.resolve_left hd
    obtain ⟨corpus, hcorpus, hlen⟩ :=
      trainCorpus_total P pipe.Extractor formResults urls docs hfr hurls
    rw [if_neg hd, if_pos ht]
    simp only [hcorpus]
    exact ⟨_, rfl, _, rfl, by rw [hfitT, hlen]⟩

theorem fitted_total (P : PageDeps)
    (hfitD : ∀ data, (P.dictFitTransform data).2.length = data.length)
    (hfitT : ∀ ng md b an sw corpus,
      (P.tfidfFitTransform ng md b an sw corpus).2.length = corpus.length)
    (docs : List P.Doc) (formResults : List (List ClassifyResult)) (urls : List String)
    (hfr : docs.length ≤ formResults.length) (hurls : docs.length ≤ urls.length) :
    ∃ fitted, rangeLoop (fun _ pipe => fitPipeline P docs formResults urls pipe)
        DefaultPageFeaturePipelines 0 = some fitted ∧
      fitted.length = DefaultPageFeaturePipelines.length ∧
      ∀ f ∈ fitted, ∃ vs, f.vectors = some vs ∧ vs.length = docs.length := by
  obtain ⟨fitted, hfitted⟩ := rangeLoop_some
    (fun _ pipe => fitPipeline P docs formResults urls pipe) DefaultPageFeaturePipelines 0
    (fun k pipe hpipe => by
      obtain ⟨f, hf, _⟩ := fitPipeline_vectors P hfitD hfitT docs formResults urls hfr hurls pipe
        (DefaultPageFeaturePipelines_vecTypes pipe (List.getElem?_mem hpipe))
      exact ⟨f, hf⟩)
  have hlen := rangeLoop_length _ _ _ _ hfitted
  refine ⟨fitted, hfitted, hlen, ?_⟩
  intro f hf
  obtain ⟨k, hk, hget⟩ := List.mem_iff_getElem.1 hf
  have hk2 : k < DefaultPageFeaturePipelines.length := hlen ▸ hk
  obtain ⟨r, hr1, hr2⟩ := rangeLoop_getElem? _ _ _ _ hfitted k _
    (List.getElem?_eq_getElem hk2)
  rw [List.getElem?_eq_getElem hk, hget, Option.some.injEq] at hr2
  obtain ⟨f', hf', hvs⟩ := fitPipeline_vectors P hfitD hfitT docs formResults urls hfr hurls
    (DefaultPageFeaturePipelines[k])
    (DefaultPageFeaturePipelines_vecTypes _ (List.getElem_mem hk2))
  rw [hf', Option.some.injEq] at hr1
  rw [hr2, ← hr1]
  exact hvs

theorem xDataOf_total (P : PageDeps) (allVectors : List (Option (List P.Vec))) (n : Nat)
    (h : ∀ vs ∈ allVectors, ∃ l, vs = some l ∧ l.length = n) :
    ∃ xData, xDataOf P allVectors n = some xData ∧ xData.length = n := by
  unfold xDataOf
  apply rangeLoop_range_some
  intro j hj
  obtain ⟨vectors, hvectors⟩ := rangeLoop_some
    (fun _ vs => match vs with
      | none => none
      | some l => l[j]?) allVectors 0
    (fun k vs hvs => by
      obtain ⟨l, hl, hlen⟩ := h vs (List.getElem?_mem hvs)
      subst hl
      have hjl : j < l.length := by omega
      simp only [List.getElem?_eq_getElem hjl]
      exact ⟨_, rfl⟩)
  rw [hvectors]
  exact ⟨_, rfl⟩

theorem classTargets_total (classSet : GoMap String Int) (labels : List String) (n : Nat)
    (h : n ≤ labels.length) :
    ∃ y, classTargets classSet labels n = some y ∧ y.length = n := by
  unfold classTargets
  apply rangeLoop_range_some
  intro j hj
  have hjl : j < labels.length := by omega
  simp only [List.getElem?_eq_getElem hjl, Option.map_some']
  exact ⟨_, rfl⟩

/-- C24. On a non-empty label list with one document, one list of form
results and one URL per label, when `FitTransform` yields one vector per
input, the optimizer direction has one entry per parameter and the gradient
has one entry per parameter, `TrainPageType` returns a model whose `Classes`
are the distinct labels in first-seen order without duplicates, with one
coefficient vector and one intercept per class; every coefficient vector has
the dimension `D` of the concatenated feature vector; and `Coef[c]` and
`Intercept[c]` are the `D` numbers from offset `c * (D + 1)` of the parameter
block that the optimizer ends with, and the number after them. -/
theorem TrainPageType_classes_and_coefficients (P : PageDeps)
    (hfitD : ∀ data, (P.dictFitTransform data).2.length = data.length)
    (hfitT : ∀ ng md b an sw corpus,
      (P.tfidfFitTransform ng md b an sw corpus).2.length = corpus.length)
    (hdir : ∀ lb g n, (P.computeDirection lb g n).1.length = n)
    (hgrad : ∀ x y params k d reg, (P.logRegObjective x y params k d reg).2.length = params.length)
    (docs : List P.Doc) (formResults : List (List ClassifyResult)) (urls : List String)
    (labels : List String) (config : PageTypeTrainConfig)
    (hne : labels ≠ []) (hdocs : docs.length = labels.length)
    (hfr : formResults.length = labels.length) (hurls : urls.length = labels.length) :
    ∃ model rt fitted xData x0 y params,
      TrainPageType P docs formResults urls labels config = some (model, rt) ∧
      model.Classes.Nodup ∧
      (∀ l, l ∈ model.Classes ↔ l ∈ labels) ∧
      model.Classes.Pairwise (fun a b => labels.indexOf a < labels.indexOf b) ∧
      model.Coef.length = model.Classes.length ∧
      model.Intercept.length = model.Classes.length ∧
      rangeLoop (fun _ pipe => fitPipeline P docs formResults urls pipe)
        DefaultPageFeaturePipelines 0 = some fitted ∧
      xDataOf P (fitted.map (fun f => f.vectors)) docs.length = some xData ∧
      xData[0]? = some x0 ∧
      (∀ row ∈ model.Coef, row.length = P.Dim x0) ∧
      trainedParams P xData y model.Classes.length (P.Dim x0) config = some params ∧
      params.length = model.Classes.length * (P.Dim x0 + 1) ∧
      ∀ c, c < model.Classes.length →
        model.Coef[c]? = some ((params.drop (c * (P.Dim x0 + 1))).take (P.Dim x0)) ∧
        model.Intercept[c]? = params[c * (P.Dim x0 + 1) + P.Dim x0]? := by
  obtain ⟨fitted, hfitted, _, hvecs⟩ := fitted_total P hfitD hfitT docs formResults urls
    (by omega) (by omega)
  obtain ⟨xData, hxData, hxlen⟩ := xDataOf_total P (fitted.map (fun f => f.vectors)) docs.length
    (by
      intro vs hvs
      rw [List.mem_map] at hvs
      obtain ⟨f, hf, rfl⟩ := hvs
      exact hvecs f hf)
  have hpos : 0 < labels.length := List.length_pos.2 hne
  obtain ⟨x0, hx0⟩ : ∃ x0, xData[0]? = some x0 :=
    ⟨_, List.getElem?_eq_getElem (by omega)⟩
  obtain ⟨y, hy, _⟩ := classTargets_total (classIndex labels).1 labels docs.length (by omega)
  obtain ⟨params, hparams, hplen⟩ := optimizeLoop_length P hdir hgrad xData y
    (classIndex labels).2.length (P.Dim x0)
    (if config.C ≤ 0 then 5 else config.C)
    ((classIndex labels).2.length * (P.Dim x0 + 1)) config.MaxIter.toNat
    (List.replicate ((classIndex labels).2.length * (P.Dim x0 + 1)) 0)
    (P.newLogRegLBFGS 10) (List.length_replicate _ _)
  obtain ⟨rows, hrows, hrlen, hrow⟩ := coefLoop_spec params (P.Dim x0)
    (classIndex labels).2.length hplen
  obtain ⟨hc1, hc2, hc3⟩ := classIndex_spec labels
  have hparams' : trainedParams P xData y (classIndex labels).2.length
      (P.Dim x0) config = some params := hparams
  refine ⟨⟨(classIndex labels).2, rows.map Prod.fst, rows.map Prod.snd⟩,
    ⟨fitted.map (fun f => f.serialized), fitted.map (fun f => f.dictVec),
      fitted.map (fun f => f.tfidfVec),
      DefaultPageFeaturePipelines.map (fun pipe => pipe.VecType),
      fitted.map (fun f => f.vecDim)⟩,
    fitted, xData, x0, y, params, ?_, hc1, hc2, hc3, ?_, ?_,
    hfitted, hxData, hx0, ?_, hparams', hplen, ?_⟩
  · unfold TrainPageType
    simp only [hfitted, hxData, hx0, hy]
    simp only [hparams', hrows]
  · simp only [List.length_map]
    exact hrlen
  · simp only [List.length_map]
    exact hrlen
  · intro row hrowmem
    simp only [List.mem_map] at hrowmem
    obtain ⟨r, hr, rfl⟩ := hrowmem
    obtain ⟨c, hc, hget⟩ := List.mem_iff_getElem.1 hr
    obtain ⟨b, _, hrc, hlen⟩ := hrow c (hrlen ▸ hc)
    rw [List.getElem?_eq_getElem hc, hget, Option.some.injEq] at hrc
    rw [hrc]
    exact hlen
  · intro c hc
    obtain ⟨b, hb, hrc, _⟩ := hrow c hc
    constructor
    · show (rows.map Prod.fst)[c]? = _
      rw [List.getElem?_map, hrc]
      rfl
    · show (rows.map Prod.snd)[c]? = _
      rw [List.getElem?_map, hrc, hb]
      rfl

set_option maxRecDepth 1000000 in
theorem TrainPageType_classes_and_coefficients_witness :
    (TrainPageType stubPageDeps ["a", "bb", "a"] [[], [], []] ["/x", "", "/yy"]
        ["login", "error", "login"] { C := 0, MaxIter := 0, Verbose := false }).map
        (fun r => r.1) =
      some { Classes := ["login", "error"],
             Coef := [List.replicate 9 0, List.replicate 9 0], Intercept := [0, 0] } ∧
    ∃ model rt fitted xData x0 y params,
      TrainPageType stubPageDeps ["a", "bb", "a"] [[], [], []] ["/x", "", "/yy"]
        ["login", "error", "login"] { C := 0, MaxIter := 0, Verbose := false }
        = some (model, rt) ∧
      model.Classes.Nodup ∧
      (∀ l, l ∈ model.Classes ↔ l ∈ ["login", "error", "login"]) ∧
      model.Classes.Pairwise (fun a b =>
        ["login", "error", "login"].indexOf a < ["login", "error", "login"].indexOf b) ∧
      model.Coef.length = model.Classes.length ∧
      model.Intercept.length = model.Classes.length ∧
      rangeLoop (fun _ pipe =>
          fitPipeline stubPageDeps ["a", "bb", "a"] [[], [], []] ["/x", "", "/yy"] pipe)
        DefaultPageFeaturePipelines 0 = some fitted ∧
      xDataOf stubPageDeps (fitted.map (fun f => f.vectors)) ["a", "bb", "a"].length
        = some xData ∧
      xData[0]? = some x0 ∧
      (∀ row ∈ model.Coef, row.length = stubPageDeps.Dim x0) ∧
      trainedParams stubPageDeps xData y model.Classes.length (stubPageDeps.Dim x0)
        { C := 0, MaxIter := 0, Verbose := false } = some params ∧
      params.length = model.Classes.length * (stubPageDeps.Dim x0 + 1) ∧
      ∀ c, c < model.Classes.length →
        model.Coef[c]? = some ((params.drop (c * (stubPageDeps.Dim x0 + 1))).take
          (stubPageDeps.Dim x0)) ∧
        model.Intercept[c]? = params[c * (stubPageDeps.Dim x0 + 1) + stubPageDeps.Dim x0]? :=
  ⟨by decide,
    TrainPageType_classes_and_coefficients stubPageDeps
      (fun data => List.length_map data _)
      (fun _ _ _ _ _ corpus => List.length_map corpus _)
      (fun _ _ n => List.length_replicate n _)
      (fun _ _ params _ _ _ => List.length_map params _)
      ["a", "bb", "a"] [[], [], []] ["/x", "", "/yy"] ["login", "error", "login"]
      { C := 0, MaxIter := 0, Verbose := false } (by decide) rfl rfl rfl⟩

/-! ## The "page url" pipeline at training and at inference -/

theorem trainCorpus_url (P : PageDeps) (formResults : List (List ClassifyResult))
    (urls : List String) (docs : List P.Doc) (hfr : docs.length ≤ formResults.length)
    (hurls : docs.length = urls.length) (URL : String) :
    trainCorpus P (.PageURLExtractor URL) formResults urls docs = some (urls.map (urlText P)) := by
  obtain ⟨corpus, hcorpus, hlen⟩ := trainCorpus_total P (.PageURLExtractor URL) formResults urls
    docs hfr (le_of_eq hurls)
  rw [hcorpus]
  congr 1
  apply List.ext_getElem?
  intro k
  by_cases hk : k < docs.length
  · have hk2 : k < formResults.length := by omega
    have hk3 : k < urls.length := by omega
    unfold trainCorpus at hcorpus
    obtain ⟨r, hr1, hr2⟩ := rangeLoop_getElem? _ _ _ _ hcorpus k _ (List.getElem?_eq_getElem hk)
    rw [hr2, List.getElem?_map, List.getElem?_eq_getElem hk3, Option.map_some', ← hr1]
    simp only [isPageURLExtractor, if_true, Nat.zero_add, List.getElem?_eq_getElem hk2,
      List.getElem?_eq_getElem hk3]
    rfl
  · rw [List.getElem?_eq_none (by omega), List.getElem?_eq_none]
    rw [List.length_map]
    omega

theorem TrainPageType_vecTypes (P : PageDeps) (docs : List P.Doc)
    (formResults : List (List ClassifyResult)) (urls labels : List String)
    (config : PageTypeTrainConfig) (model : PageTypeModel) (rt : PageTypeRuntime P)
    (h : TrainPageType P docs formResults urls labels config = some (model, rt)) :
    rt.vecTypes = DefaultPageFeaturePipelines.map (fun pipe => pipe.VecType) := by
  unfold TrainPageType at h
  repeat' split at h
  all_goals cases h
  all_goals rfl

/-- C27. The "page url" pipeline is the last of the nine default pipelines
and the only one with a `PageURLExtractor`, which it holds with no URL. At
inference `extractFeatures` therefore extracts the empty string for it, for
every document and form results, and on a trained model (whose `vecTypes`
are those of the default pipelines) the vector of that pipeline is the
transform of the empty string: it does not depend on the page. At training
`TrainPageType` fits that pipeline on the texts of the training URLs: for
each URL the normalized path, a space and the normalized query (empty for an
empty URL, the URL itself when it does not parse). -/
theorem page_url_features_ignore_URL (P : PageDeps) (docs : List P.Doc)
    (formResults : List (List ClassifyResult)) (urls : List String)
    (hfr : docs.length ≤ formResults.length) (hurls : docs.length = urls.length) :
    DefaultPageFeaturePipelines[8]? = some pageURLPipeline ∧
    (∀ pipe ∈ DefaultPageFeaturePipelines,
      isPageURLExtractor pipe.Extractor = true → pipe = pageURLPipeline) ∧
    pageURLPipeline.Extractor = .PageURLExtractor "" ∧
    (∀ doc fr, pageURLPipeline.Extractor.ExtractString P doc fr = "") ∧
    (∀ labels config model rt,
      TrainPageType P docs formResults urls labels config = some (model, rt) →
      rt.vecTypes[8]? = some "tfidf" ∧
      ∀ tv, rt.tfidfVecs[8]? = some tv →
        ∀ doc fr, pipelineVector P rt doc fr 8 pageURLPipeline = P.tfidfTransform tv "") ∧
    trainCorpus P pageURLPipeline.Extractor formResults urls docs
      = some (urls.map (urlText P)) ∧
    fitPipeline P docs formResults urls pageURLPipeline =
      some { vectors := some (P.tfidfFitTransform (5, 6) 2 true "char_wb" []
                (urls.map (urlText P))).2,
             dictVec := none,
             tfidfVec := some (P.tfidfFitTransform (5, 6) 2 true "char_wb" []
                (urls.map (urlText P))).1,
             vecDim := P.tfidfVocabSize (P.tfidfFitTransform (5, 6) 2 true "char_wb" []
                (urls.map (urlText P))).1,
             serialized :=
               { Name := "page url", ExtractorType := "PageURL", VecType := "tfidf",
                 DictVec := none,
                 TfidfVec := some (P.tfidfFitTransform (5, 6) 2 true "char_wb" []
                   (urls.map (urlText P))).1 } } := by
  have hcorpus := trainCorpus_url P formResults urls docs hfr hurls ""
  refine ⟨by decide, by decide, rfl, fun _ _ => rfl, ?_, hcorpus, ?_⟩
  · intro labels config model rt htrain
    have hvt := TrainPageType_vecTypes P docs formResults urls labels config model rt htrain
    have h8 : rt.vecTypes[8]? = some "tfidf" := by
      rw [hvt]
      decide
    refine ⟨h8, ?_⟩
    intro tv htv doc fr
    unfold pipelineVector
    rw [h8]
    simp only [htv]
    rw [if_neg (by decide), if_pos trivial]
    rfl
  · unfold fitPipeline
    rw [if_neg (by decide), if_pos (by decide)]
    have hc : trainCorpus P pageURLPipeline.Extractor formResults urls docs
        = some (urls.map (urlText P)) := hcorpus
    simp only [hc]
    rfl

theorem page_url_features_ignore_URL_witness :
    trainCorpus stubPageDeps pageURLPipeline.Extractor [[], [], []] ["/x", "", "/yy"]
        ["a", "bb", "a"] = some ["/x ", "", "/yy "] ∧
    (DefaultPageFeaturePipelines[8]? = some pageURLPipeline ∧
    (∀ pipe ∈ DefaultPageFeaturePipelines,
      isPageURLExtractor pipe.Extractor = true → pipe = pageURLPipeline) ∧
    pageURLPipeline.Extractor = .PageURLExtractor "" ∧
    (∀ doc fr, pageURLPipeline.Extractor.ExtractString stubPageDeps doc fr = "") ∧
    (∀ labels config model rt,
      TrainPageType stubPageDeps ["a", "bb", "a"] [[], [], []] ["/x", "", "/yy"] labels config
        = some (model, rt) →
      rt.vecTypes[8]? = some "tfidf" ∧
      ∀ tv, rt.tfidfVecs[8]? = some tv →
        ∀ doc fr, pipelineVector stubPageDeps rt doc fr 8 pageURLPipeline
          = stubPageDeps.tfidfTransform tv "") ∧
    trainCorpus stubPageDeps pageURLPipeline.Extractor [[], [], []] ["/x", "", "/yy"]
        ["a", "bb", "a"] = some (["/x", "", "/yy"].map (urlText stubPageDeps)) ∧
    fitPipeline stubPageDeps ["a", "bb", "a"] [[], [], []] ["/x", "", "/yy"] pageURLPipeline =
      some { vectors := some (stubPageDeps.tfidfFitTransform (5, 6) 2 true "char_wb" []
                (["/x", "", "/yy"].map (urlText stubPageDeps))).2,
             dictVec := none,
             tfidfVec := some (stubPageDeps.tfidfFitTransform (5, 6) 2 true "char_wb" []
                (["/x", "", "/yy"].map (urlText stubPageDeps))).1,
             vecDim := stubPageDeps.tfidfVocabSize
               (stubPageDeps.tfidfFitTransform (5, 6) 2 true "char_wb" []
                (["/x", "", "/yy"].map (urlText stubPageDeps))).1,
             serialized :=
               { Name := "page url", ExtractorType := "PageURL", VecType := "tfidf",
                 DictVec := none,
                 TfidfVec := some (stubPageDeps.tfidfFitTransform (5, 6) 2 true "char_wb" []
                   (["/x", "", "/yy"].map (urlText stubPageDeps))).1 } }) :=
  ⟨by decide,
    page_url_features_ignore_URL stubPageDeps ["a", "bb", "a"] [[], [], []] ["/x", "", "/yy"]
      (by decide) rfl⟩

/-! ## GetErrorIndicators: the body text is cut at a byte offset -/

theorem accents_length (n : Nat) : (List.replicate n eAcute).flatten.length = 2 * n := by
  induction n with
  | zero => rfl
  | succ n ih =>
    rw [List.replicate_succ, List.flatten_cons, List.length_append, ih]
    simp only [eAcute, List.length_cons, List.length_nil]
    omega

theorem accents_lower (n : Nat) :
    asciiLower (List.replicate n eAcute).flatten = (List.replicate n eAcute).flatten := by
  induction n with
  | zero => rfl
  | succ n ih =>
    unfold asciiLower at ih ⊢
    rw [List.replicate_succ, List.flatten_cons, List.map_append, ih]
    congr 1

theorem accents_runeCount (n : Nat) : runeCount (List.replicate n eAcute).flatten = n := by
  induction n with
  | zero => rfl
  | succ n ih =>
    unfold runeCount at ih ⊢
    rw [List.replicate_succ, List.flatten_cons, List.countP_append, ih]
    have : List.countP (fun b : UInt8 => decide (b.toNat / 64 ≠ 2)) eAcute = 1 := by decide
    rw [this]
    omega

theorem accents_mem (n : Nat) (b : UInt8) (h : b ∈ (List.replicate n eAcute).flatten) :
    b ∈ eAcute := by
  rw [List.mem_flatten] at h
  obtain ⟨l, hl, hb⟩ := h
  rw [List.eq_of_mem_replicate hl] at hb
  exact hb

theorem accentBody_scanned :
    scannedBody (asciiLower accentBody) = (List.replicate 2500 eAcute).flatten := by
  have hlen : (List.replicate 2500 eAcute).flatten.length = 5000 := accents_length 2500
  have hlower : asciiLower accentBody = accentBody := by
    unfold accentBody asciiLower
    rw [List.map_append]
    have h1 := accents_lower 2500
    unfold asciiLower at h1
    rw [h1]
    congr 1
  rw [hlower]
  unfold scannedBody accentBody
  rw [if_pos (by
    rw [List.length_append, hlen]
    decide)]
  exact List.take_left' hlen

theorem splitBody_scanned :
    scannedBody (asciiLower splitBody) =
      ascii "a" ++ (List.replicate 2499 eAcute).flatten ++ [0xC3] := by
  have hlen : (List.replicate 2499 eAcute).flatten.length = 4998 := accents_length 2499
  have hsplit : splitBody = (ascii "a" ++ (List.replicate 2499 eAcute).flatten) ++ eAcute := by
    unfold splitBody
    rw [show (2500 : Nat) = 2499 + 1 from rfl, List.replicate_succ', List.flatten_append,
      List.append_assoc]
    simp only [List.flatten_cons, List.flatten_nil, List.append_nil]
  have hlower : asciiLower splitBody = splitBody := by
    unfold splitBody asciiLower
    rw [List.map_append]
    have h1 := accents_lower 2500
    unfold asciiLower at h1
    rw [h1]
    congr 1
  have hl : (ascii "a" ++ (List.replicate 2499 eAcute).flatten).length = 4999 := by
    rw [List.length_append, hlen]
    rfl
  rw [hlower]
  unfold scannedBody
  rw [if_pos (by
    rw [hsplit, List.length_append, hl]
    decide)]
  rw [hsplit, show (5000 : Nat) = (ascii "a" ++ (List.replicate 2499 eAcute).flatten).length + 1
    from by rw [hl], List.take_append]
  rfl

/-- C26 (divergence). `GetErrorIndicators` cuts the lowercased body text at
byte 5000, not after 5000 characters. On `accentBody`, 2503 characters in
5003 bytes, the keyword `404` lies within the first 5000 characters and yet
`body_has_404` is 0.0; on `splitBody` the scanned text ends with the first
byte of a two-byte character, the cut having split it. -/
theorem GetErrorIndicators_cuts_at_byte_offset :
    accentBody.length = 5003 ∧
    runeCount accentBody = 2503 ∧
    ascii "404" <:+: asciiLower accentBody ∧
    GoMap.get? (GetErrorIndicators asciiLower [] [] accentBody) "body_has_404"
      = some (.num 0) ∧
    splitBody.length = 5001 ∧
    runeCount splitBody = 2501 ∧
    (scannedBody (asciiLower splitBody)).getLast? = some 0xC3 ∧
    runeCount [0xC3, 0xA9] = 1 := by
  refine ⟨?_, ?_, ?_, ?_, ?_, ?_, ?_, by decide⟩
  · unfold accentBody
    rw [List.length_append, accents_length]
    rfl
  · unfold accentBody runeCount
    rw [List.countP_append]
    have h := accents_runeCount 2500
    unfold runeCount at h
    rw [h]
    rfl
  · have hlower : asciiLower accentBody = accentBody := by
      unfold accentBody asciiLower
      rw [List.map_append]
      have h1 := accents_lower 2500
      unfold asciiLower at h1
      rw [h1]
      congr 1
    rw [hlower]
    exact (List.suffix_append _ _).isInfix
  · have h := (GetErrorIndicators_pattern asciiLower [] [] accentBody ("404", "404")
      (by decide)).2.2
    rw [accentBody_scanned, if_neg] at h
    · exact h
    · intro hinfix
      have hmem : (0x34 : UInt8) ∈ (List.replicate 2500 eAcute).flatten :=
        hinfix.subset (by decide)
      have := accents_mem 2500 _ hmem
      revert this
      decide
  · unfold splitBody
    rw [List.length_append, accents_length]
    rfl
  · unfold splitBody runeCount
    rw [List.countP_append]
    have h := accents_runeCount 2500
    unfold runeCount at h
    rw [h]
    rfl
  · rw [splitBody_scanned, List.getLast?_append]
    rfl

/-! ## Evaluate, page stage: the form model of a fold is trained on every form -/

/-- C25 (divergence). In the page stage of `Evaluate` the form model of a
fold does not depend on the fold: it is trained on all form-annotated forms
of the form store. With the form store `sampleAnnotations` and the page store
`samplePages`, two folds, the fold that holds out the page of `a.example`
has a form model trained on the forms of `a.example`, `b.example` and
`a.example`. -/
theorem page_fold_form_model_sees_test_domains :
    (∀ (D : Deps) (T : TrainDeps D) (dataDir : String) (docs : List D.Doc)
        (formResults : List (List ClassifyResult)) (urls labels : List String)
        (testIdx : List Nat) (rest : List (List Nat)) (s : EvalResult × TrainLog),
      pageFoldLoop T dataDir docs formResults urls labels (testIdx :: rest) s =
        match makeTestSet docs.length testIdx with
        | none => none
        | some testSet =>
          match filterPageByIndex docs formResults urls labels testSet false with
          | none => none
          | some train =>
            match T.TrainPageType train.1
                (train.1.map (classifyFormsOnDoc (pageFoldFormModel T dataDir)))
                train.2.2.1 train.2.2.2 false with
            | none => none
            | some pageModel =>
              match pageScoreLoop (pageFoldFormModel T dataDir) pageModel docs labels
                  testIdx s.1 with
              | none => none
              | some result =>
                pageFoldLoop T dataDir docs formResults urls labels rest
                  (result, s.2 ++ ["TrainFormType", "TrainPageType"])) ∧
    groupKFold pageTrainDeps.rngGroups
        (domainGroups pageTrainDeps.GetDomain (samplePages.map (fun a => a.URL))) 2
      = some [[1], [0]] ∧
    samplePages.map (fun a => pageTrainDeps.GetDomain a.URL) = ["a.example", "b.example"] ∧
    (pageFoldFormAnnotations pageTrainDeps "data").map (fun a => pageTrainDeps.GetDomain a.URL)
      = ["a.example", "b.example", "a.example"] ∧
    (Evaluate pageTrainDeps "data" (some { Folds := 2, Verbose := false })).map
        (fun r => (r.1.1.map (fun e => (e.PageCorrect, e.PageTotal)), r.1.2))
      = some (some (1, 2), none) := by
  refine ⟨?_, by decide, by decide, by decide, by decide⟩
  intro D T dataDir docs formResults urls labels testIdx rest s
  rfl

end Dit
